import Mathlib

/-!
# strfmt: BoolString, USDate and USDateTime

A shallow embedding of `bool.go`, `usdate.go`, `ustime.go` (and the parts of
Go's `time`, `regexp` and `strconv` packages they call) together with theorems
about the validators, the parsers and the marshallers.

Conventions.

* A Go `string` is a Lean `String`; the library model works on its characters
  (`List Char`).  Every byte the code inspects is ASCII, so a character that is
  not ASCII behaves like a byte that matches nothing; `len` is the UTF-8 byte
  length.
* A Go function returning `(T, error)` returns `Except`; a method with a
  pointer receiver takes the receiver's value and returns the new value next to
  the error (`none` is Go's `nil` error).
* The argument of `Scan` is a value of `Raw`; `Date.UnmarshalText` and
  `DateTime.UnmarshalText`, which the two time `Scan`s call and whose files are
  not among the sources, are parameters.
* Go `int`/`int64` values are `Int`.  The parsers only build years `0..9999`,
  where none of the library's sums leaves the 64-bit range; the one place where
  the library relies on unsigned wrap-around (`Time.abs`) reduces modulo `2^64`
  explicitly.
-/

set_option maxRecDepth 100000
set_option maxHeartbeats 1000000

namespace Strfmt

/-- A Go `string`. -/
abbrev GoString := String

/-- Go's `bool`. -/
abbrev GoBool := Bool

/-! ## Package `time`: layouts -/

/-- The layout elements (`std...` constants of `time/format.go`) that occur in
the layouts of this package. -/
inductive Std where
  | stdZeroMonth
  | stdZeroDay
  | stdLongYear
  | stdHour
  | stdZeroHour12
  | stdZeroMinute
  | stdZeroSecond
  | stdpm
  deriving DecidableEq, Repr

/-- One step of `nextStdChunk`: literal text to be skipped, or a layout
element. -/
inductive Chunk where
  | lit (text : List Char)
  | std (s : Std)
  deriving DecidableEq, Repr

/-- A layout string together with its decomposition by `nextStdChunk`. -/
structure Layout where
  text : String
  chunks : List Chunk
  deriving DecidableEq, Repr

/-- What a `*time.ParseError` reports. -/
inductive ParseErrorKind where
  | errBad
  | outOfRange (field : String)
  | extraText
  | dayOutOfRange
  deriving DecidableEq, Repr

/-- Go's `time.ParseError`. -/
structure ParseError where
  layout : String
  value : String
  kind : ParseErrorKind
  deriving DecidableEq, Repr

/-- A decimal digit: `'0' <= c && c <= '9'`. -/
def isDigitChar (c : Char) : Bool :=
  decide (48 ≤ c.toNat) && decide (c.toNat ≤ 57)

/-- The value `c - '0'` of a digit. -/
def digitVal (c : Char) : Int :=
  ((c.toNat - 48 : Nat) : Int)

/-- Go's `isDigit(s, i)`: byte `i` exists and is a decimal digit. -/
def isDigit (s : List Char) (i : Nat) : Bool :=
  match s.get? i with
  | some c => isDigitChar c
  | none => false

/-- The value `s[i] - '0'` of the byte at `i`. -/
def digitAt (s : List Char) (i : Nat) : Int :=
  match s.get? i with
  | some c => digitVal c
  | none => 0

/-- Go's `getnum`: one or two leading digits (exactly two when `fixed`). -/
def getnum (s : List Char) (fixed : Bool) : Except ParseErrorKind (Int × List Char) :=
  if !isDigit s 0 then .error .errBad
  else if !isDigit s 1 then
    if fixed then .error .errBad else .ok (digitAt s 0, s.drop 1)
  else .ok (digitAt s 0 * 10 + digitAt s 1, s.drop 2)

/-- Go's `cutspace`: drop the leading spaces. -/
def cutspace (s : List Char) : List Char :=
  s.dropWhile (fun c => c == ' ')

/-- Go's `skip(value, prefix)`: remove the literal text `pre` from `value`; a
run of spaces in `pre` matches any run of spaces (also none, at the end of
`value`).  `inRun` says that the run of spaces of `pre` being read has already
been matched, which is Go's `prefix = cutspace(prefix)`. -/
def skipFrom : Bool → List Char → List Char → Option (List Char)
  | _, value, [] => some value
  | inRun, value, p :: ps =>
    if p = ' ' then
      if inRun then skipFrom true value ps
      else
        match value with
        | [] => skipFrom true [] ps
        | v :: vs => if v ≠ ' ' then none else skipFrom true (cutspace (v :: vs)) ps
    else
      match value with
      | [] => none
      | v :: vs => if v ≠ p then none else skipFrom false vs ps

/-- Go's `skip`. -/
def skip (value pre : List Char) : Option (List Char) :=
  skipFrom false value pre

/-- Go's `atoi` on the four bytes of a long year, whose first byte is known to
be a digit: all four must be digits. -/
def atoi4 (p : List Char) : Except ParseErrorKind Int :=
  if isDigit p 0 && isDigit p 1 && isDigit p 2 && isDigit p 3 && p.length == 4 then
    .ok (digitAt p 0 * 1000 + digitAt p 1 * 100 + digitAt p 2 * 10 + digitAt p 3)
  else .error .errBad

/-- The digits of a fractional second read as a number (`atoi` of at most nine
digits). -/
def atoiDigits (p : List Char) : Int :=
  p.foldl (fun acc c => acc * 10 + digitVal c) 0

/-- Number of leading digits of `s`. -/
def digitRun (s : List Char) : Nat :=
  (s.takeWhile isDigitChar).length

/-- Go's `commaOrPeriod`. -/
def commaOrPeriod (c : Char) : Bool :=
  c == '.' || c == ','

/-- Go's `parseNanoseconds(value, nbytes)`, called with `value[0]` a comma or
period followed by `nbytes - 1` digits, `nbytes ≥ 2`: the digits after the
tenth byte are dropped, the others are scaled to nanoseconds. -/
def parseNanoseconds (value : List Char) (nbytes : Nat) : Int :=
  let n := if nbytes > 10 then 10 else nbytes
  atoiDigits ((value.take n).drop 1) * 10 ^ (10 - n)

/-- The fields `parse` collects while it walks the layout. -/
structure Fields where
  year : Int
  month : Int
  day : Int
  hour : Int
  min : Int
  sec : Int
  nsec : Int
  pmSet : Bool
  amSet : Bool
  deriving DecidableEq, Repr

/-- The initial values of `parse`: month and day unset. -/
def Fields.init : Fields :=
  { year := 0, month := -1, day := -1, hour := 0, min := 0, sec := 0, nsec := 0,
    pmSet := false, amSet := false }

/-- One `switch std & stdMask` case of `parse`.  A range error is reported
before a syntax error, as in the source.  None of the layouts here has a
fractional-second element, so a fraction after the seconds is always read by
the special case of `stdZeroSecond`. -/
def parseStd (s : Std) (f : Fields) (value : List Char) :
    Except ParseErrorKind (Fields × List Char) :=
  match s with
  | .stdZeroMonth =>
    match getnum value true with
    | .error e => .error e
    | .ok (month, rest) =>
      if month ≤ 0 || 12 < month then .error (.outOfRange "month")
      else .ok ({ f with month := month }, rest)
  | .stdZeroDay =>
    match getnum value true with
    | .error e => .error e
    | .ok (day, rest) => .ok ({ f with day := day }, rest)
  | .stdLongYear =>
    if value.length < 4 || !isDigit value 0 then .error .errBad
    else
      match atoi4 (value.take 4) with
      | .error e => .error e
      | .ok year => .ok ({ f with year := year }, value.drop 4)
  | .stdHour =>
    match getnum value false with
    | .error e => .error e
    | .ok (hour, rest) =>
      if hour < 0 || 24 ≤ hour then .error (.outOfRange "hour")
      else .ok ({ f with hour := hour }, rest)
  | .stdZeroHour12 =>
    match getnum value true with
    | .error e => .error e
    | .ok (hour, rest) =>
      if hour < 0 || 12 < hour then .error (.outOfRange "hour")
      else .ok ({ f with hour := hour }, rest)
  | .stdZeroMinute =>
    match getnum value true with
    | .error e => .error e
    | .ok (min, rest) =>
      if min < 0 || 60 ≤ min then .error (.outOfRange "minute")
      else .ok ({ f with min := min }, rest)
  | .stdZeroSecond =>
    match getnum value true with
    | .error e => .error e
    | .ok (sec, rest) =>
      if sec < 0 || 60 ≤ sec then .error (.outOfRange "second")
      else if rest.length ≥ 2 && commaOrPeriod (rest.headD ' ') && isDigit rest 1 then
        let n := 1 + digitRun (rest.drop 1)
        .ok ({ f with sec := sec, nsec := parseNanoseconds rest n }, rest.drop n)
      else .ok ({ f with sec := sec }, rest)
  | .stdpm =>
    if value.length < 2 then .error .errBad
    else if value.take 2 = ['p', 'm'] then .ok ({ f with pmSet := true }, value.drop 2)
    else if value.take 2 = ['a', 'm'] then .ok ({ f with amSet := true }, value.drop 2)
    else .error .errBad

/-- The loop of `parse`: skip the literal text, read the element, and at the
end of the layout refuse any text that is left. -/
def parseLoop : List Chunk → Fields → List Char → Except ParseErrorKind Fields
  | [], f, value => if value.isEmpty then .ok f else .error .extraText
  | .lit p :: cs, f, value =>
    match skip value p with
    | none => .error .errBad
    | some rest => parseLoop cs f rest
  | .std s :: cs, f, value =>
    match parseStd s f value with
    | .error e => .error e
    | .ok (f', rest) => parseLoop cs f' rest

/-! ## Package `time`: instants -/

/-- A `*time.Location` other than UTC: its name and `lookup`, which gives for a
Unix time the offset in seconds east of UTC of the zone in effect and the Unix
times at which that zone starts and ends. -/
structure Location where
  name : String
  lookup : Int → Int × Int × Int

/-- Go's `time.Time` without the monotonic reading: seconds since January 1,
year 1 00:00:00 UTC, nanoseconds within the second, and the location (`none` is
UTC, as after `setLoc(&utcLoc)`). -/
structure Time where
  sec : Int
  nsec : Int
  loc : Option Location

/-- The zero `time.Time{}`. -/
def Time.zero : Time :=
  { sec := 0, nsec := 0, loc := none }

/-- `secondsPerDay = 24 * 60 * 60`. -/
def secondsPerDay : Int := 86400

/-- The year of the absolute epoch, one more than a multiple of 400. -/
def absoluteZeroYear : Int := -292277022399

/-- Seconds from January 1, year 1 to January 1, 1970. -/
def unixToInternal : Int := 62135596800

/-- `internalToUnix = -unixToInternal`. -/
def internalToUnix : Int := -62135596800

/-- Seconds from January 1, year 1 back to the absolute epoch:
`(absoluteZeroYear - 1) * 365.2425 * secondsPerDay`. -/
def absoluteToInternal : Int := -9223371966579724800

/-- `internalToAbsolute = -absoluteToInternal`. -/
def internalToAbsolute : Int := 9223371966579724800

/-- Go's `daysBefore[m]`: days of a non-leap year before month `m + 1`. -/
def daysBefore (m : Nat) : Nat :=
  [0, 31, 59, 90, 120, 151, 181, 212, 243, 273, 304, 334, 365].getD m 0

/-- Go's `isLeap`. -/
def isLeap (year : Int) : Bool :=
  year % 4 == 0 && (year % 100 != 0 || year % 400 == 0)

/-- Go's `daysIn(m, year)`. -/
def daysIn (m : Int) (year : Int) : Int :=
  if m == 2 && isLeap year then 29
  else (daysBefore m.toNat : Int) - daysBefore (m.toNat - 1)

/-- Go's `norm(hi, lo, base)`: bring `lo` into `[0, base)`, carrying into
`hi`.  Both divisions have non-negative operands. -/
def norm (hi lo base : Int) : Int × Int :=
  let a : Int × Int :=
    if lo < 0 then (hi - ((-lo - 1) / base + 1), lo + ((-lo - 1) / base + 1) * base)
    else (hi, lo)
  if a.2 ≥ base then (a.1 + a.2 / base, a.2 - (a.2 / base) * base) else a

/-- Go's `daysSinceEpoch(year)`: days from the absolute epoch to January 1 of
`year`, by 400-, 100-, 4- and 1-year cycles of the unsigned year count. -/
def daysSinceEpoch (year : Int) : Nat :=
  let y := ((year - absoluteZeroYear) % 18446744073709551616).toNat
  let n400 := y / 400
  let y := y - 400 * n400
  let n100 := y / 100
  let y := y - 100 * n100
  let n4 := y / 4
  let y := y - 4 * n4
  146097 * n400 + 36524 * n100 + 1461 * n4 + 365 * y

/-- Go's `Time.Unix`. -/
def Time.Unix (t : Time) : Int :=
  t.sec + internalToUnix

/-- Go's `Time.IsZero`. -/
def Time.IsZero (t : Time) : Bool :=
  t.sec == 0 && t.nsec == 0

/-- Go's `time.Unix(sec, nsec)` for `0 ≤ nsec < 1e9`, followed by `.UTC()`. -/
def unixUTC (sec nsec : Int) : Time :=
  { sec := sec + unixToInternal, nsec := nsec, loc := none }

/-- Go's `time.Date`.  The fields are normalised, the days since the absolute
epoch are counted, and for a location other than UTC the offset found for the
wall time is subtracted, looked up a second time when the first guess falls
outside the zone it was found in. -/
def Date (year month day hour min sec nsec : Int) (loc : Option Location) : Time :=
  let ym := norm year (month - 1) 12
  let year := ym.1
  let month := ym.2 + 1
  let sn := norm sec nsec 1000000000
  let nsec := sn.2
  let ms := norm min sn.1 60
  let sec := ms.2
  let hm := norm hour ms.1 60
  let min := hm.2
  let dh := norm day hm.1 24
  let hour := dh.2
  let day := dh.1
  let d : Int := (daysSinceEpoch year : Int) + daysBefore (month - 1).toNat
      + (if isLeap year && decide (month ≥ 3) then 1 else 0) + (day - 1)
  let abs : Int := d * secondsPerDay + (hour * 3600 + min * 60 + sec)
  let unix : Int := abs + (absoluteToInternal + internalToUnix)
  let unix : Int :=
    match loc with
    | none => unix
    | some l =>
      let z := l.lookup unix
      if z.1 != 0 then
        let utc := unix - z.1
        let offset := if utc < z.2.1 || utc ≥ z.2.2 then (l.lookup utc).1 else z.1
        unix - offset
      else unix
  { sec := unix + unixToInternal, nsec := nsec, loc := loc }

/-- Go's `Time.abs`: seconds since the absolute epoch of the wall clock in the
time's location, as an unsigned 64-bit number. -/
def Time.abs (t : Time) : Nat :=
  let offset : Int :=
    match t.loc with
    | none => 0
    | some l => (l.lookup t.Unix).1
  ((t.Unix + offset + (unixToInternal + internalToAbsolute)) % 18446744073709551616).toNat

/-- First half of Go's `absDate`: the year of a day count since the absolute
epoch and the day within that year, cutting off 400-, 100-, 4- and 1-year
cycles (`n -= n >> 2` keeps the last day of a long cycle in its last year). -/
def absYear (d : Nat) : Int × Nat :=
  let n400 := d / 146097
  let d := d - 146097 * n400
  let n100 := d / 36524
  let n100 := n100 - n100 / 4
  let d := d - 36524 * n100
  let n4 := d / 1461
  let d := d - 1461 * n4
  let n := d / 365
  let n := n - n / 4
  let d := d - 365 * n
  let y := 400 * n400 + 100 * n100 + 4 * n4 + n
  ((y : Int) + absoluteZeroYear, d)

/-- Second half of Go's `absDate`: month and day of the day `d` (from 0) of a
year, estimating the month as `day / 31` after taking out February 29. -/
def monthDay (leap : Bool) (d : Nat) : Nat × Nat :=
  if leap && d == 31 + 29 - 1 then (2, 29)
  else
    let day := if leap && decide (d > 31 + 29 - 1) then d - 1 else d
    let month := day / 31
    let e := daysBefore (month + 1)
    if day ≥ e then (month + 2, day - e + 1)
    else (month + 1, day - daysBefore month + 1)

/-- Go's `absDate(abs, true)`: year, month and day of an absolute time. -/
def absDate (abs : Nat) : Int × Nat × Nat :=
  let yd := absYear (abs / 86400)
  (yd.1, monthDay (isLeap yd.1) yd.2)

/-- Go's `absClock(abs)`: hour, minute and second of an absolute time. -/
def absClock (abs : Nat) : Nat × Nat × Nat :=
  let sec := abs % 86400
  let hour := sec / 3600
  let sec := sec - hour * 3600
  let min := sec / 60
  (hour, min, sec - min * 60)

/-- The decimal digit `'0' + n`. -/
def utod (n : Nat) : Char :=
  Char.ofNat (48 + n)

/-- Two decimal digits of a number below 100. -/
def pad2 (n : Nat) : List Char :=
  [utod (n / 10), utod (n % 10)]

/-- Four decimal digits of a number below 10000. -/
def pad4 (n : Nat) : List Char :=
  [utod (n / 1000), utod (n / 100 % 10), utod (n / 10 % 10), utod (n % 10)]

/-- Go's `appendInt(b, x, width)`: sign, then the decimal digits padded with
zeros to `width`; the two- and four-digit cases are spelled out as in the
source. -/
def appendInt (x : Int) (width : Nat) : List Char :=
  let u := x.natAbs
  let sign : List Char := if x < 0 then ['-'] else []
  if width == 2 && u < 100 then sign ++ pad2 u
  else if width == 4 && u < 10000 then sign ++ pad4 u
  else
    let ds := Nat.toDigits 10 u
    sign ++ List.replicate (width - ds.length) '0' ++ ds

/-- One `switch std & stdMask` case of `appendFormat`. -/
def formatStd (s : Std) (year : Int) (month day hour min sec : Nat) : List Char :=
  match s with
  | .stdZeroMonth => appendInt month 2
  | .stdZeroDay => appendInt day 2
  | .stdLongYear => appendInt year 4
  | .stdHour => appendInt hour 2
  | .stdZeroHour12 => appendInt (if hour % 12 == 0 then 12 else hour % 12 : Nat) 2
  | .stdZeroMinute => appendInt min 2
  | .stdZeroSecond => appendInt sec 2
  | .stdpm => if hour ≥ 12 then ['p', 'm'] else ['a', 'm']

/-- The text `appendFormat` produces for a list of layout chunks. -/
def formatChunks (cs : List Chunk) (year : Int) (month day hour min sec : Nat) : List Char :=
  match cs with
  | [] => []
  | .lit p :: rest => p ++ formatChunks rest year month day hour min sec
  | .std s :: rest =>
    formatStd s year month day hour min sec ++ formatChunks rest year month day hour min sec

/-- Go's `Time.Format`. -/
def Time.Format (t : Time) (layout : Layout) : String :=
  let abs := t.abs
  let ymd := absDate abs
  let hms := absClock abs
  String.mk (formatChunks layout.chunks ymd.1 ymd.2.1 ymd.2.2 hms.1 hms.2.1 hms.2.2)

/-- The hour `parse` hands to `Date`: with `pm` set 12 is added to an hour
below 12, with `am` set 12 becomes 0. -/
def clockHour (hour : Int) (pmSet amSet : Bool) : Int :=
  if pmSet && decide (hour < 12) then hour + 12
  else if amSet && hour == 12 then 0 else hour

/-- The end of Go's `parse` for a layout without zone: the am/pm marker is
applied to the hour, an unset month or day becomes 1, the day is checked
against the month's length and `Date` builds the time in `loc`. -/
def finish (f : Fields) (loc : Option Location) : Except ParseErrorKind Time :=
  let hour := clockHour f.hour f.pmSet f.amSet
  let month := if f.month < 0 then 1 else f.month
  let day := if f.day < 0 then 1 else f.day
  if day < 1 || day > daysIn month f.year then .error .dayOutOfRange
  else .ok (Date f.year month day hour f.min f.sec f.nsec loc)

/-- Go's `time.ParseInLocation(layout, value, loc)`. -/
def ParseInLocation (layout : Layout) (value : String) (loc : Option Location) :
    Except ParseError Time :=
  match parseLoop layout.chunks Fields.init value.data with
  | .error k => .error { layout := layout.text, value := value, kind := k }
  | .ok f =>
    match finish f loc with
    | .error k => .error { layout := layout.text, value := value, kind := k }
    | .ok t => .ok t

/-- Go's `time.Parse(layout, value)`: the time is built in UTC. -/
def Parse (layout : Layout) (value : String) : Except ParseError Time :=
  ParseInLocation layout value none

/-! ## Package `regexp` -/

/-- The regular expressions needed for `USDateTimePattern`: a literal
character, a character class given by a range, concatenation, alternation,
`?`, and the anchors `^` (beginning of text) and `$` (end of text). -/
inductive Regexp where
  | char (c : Char)
  | range (lo hi : Char)
  | cat (a b : Regexp)
  | alt (a b : Regexp)
  | opt (a : Regexp)
  | bol
  | eol
  deriving DecidableEq, Repr

/-- All ways `re` matches at a position of the text: a position is the number
of characters before it and the text after it; the result lists the positions
where a match can end. -/
def Regexp.run : Regexp → Nat × List Char → List (Nat × List Char)
  | .char c, st =>
    match st.2 with
    | [] => []
    | x :: xs => if x = c then [(st.1 + 1, xs)] else []
  | .range lo hi, st =>
    match st.2 with
    | [] => []
    | x :: xs => if lo.toNat ≤ x.toNat ∧ x.toNat ≤ hi.toNat then [(st.1 + 1, xs)] else []
  | .cat a b, st => (a.run st).flatMap (fun st' => b.run st')
  | .alt a b, st => a.run st ++ b.run st
  | .opt a, st => a.run st ++ [st]
  | .bol, st => if st.1 = 0 then [st] else []
  | .eol, st => if st.2.isEmpty then [st] else []

/-- Whether `re` matches somewhere in `s`, which is when
`FindAllStringSubmatch(s, -1)` returns a non-empty list (each of whose entries
holds the whole match and every group, so is itself non-empty). -/
def Regexp.hasMatch (re : Regexp) (s : List Char) : Bool :=
  (List.range (s.length + 1)).any (fun i => !(re.run (i, s.drop i)).isEmpty)

/-- Concatenation of a list of expressions (the empty list matches the empty
text). -/
def Regexp.seq : List Regexp → Regexp
  | [] => .opt .bol
  | [a] => a
  | a :: rest => .cat a (Regexp.seq rest)

/-! ## usdate.go -/

/-- The Go `error` values of this package. -/
inductive Error where
  | parse (e : ParseError)
  | loadLocation (msg : GoString)
  | lexer (msg : GoString)
  | scan (msg : GoString)
  | numError (func str : GoString)
  deriving DecidableEq, Repr

/-- `FullUSDateFormat = "01/02/2006"`. -/
def FullUSDateFormat : Layout :=
  { text := "01/02/2006",
    chunks := [.std .stdZeroMonth, .lit ['/'], .std .stdZeroDay, .lit ['/'], .std .stdLongYear] }

/-- `AltUSDateFormat = "2006-01-02"`. -/
def AltUSDateFormat : Layout :=
  { text := "2006-01-02",
    chunks := [.std .stdLongYear, .lit ['-'], .std .stdZeroMonth, .lit ['-'], .std .stdZeroDay] }

/-- `IsUSDate returns true when the string is a valid date`. -/
def IsUSDate (str : GoString) : Bool :=
  if str = "0000-00-00" ∨ str = "00/00/0000" then true
  else
    match Parse FullUSDateFormat str with
    | .error _ =>
      match Parse AltUSDateFormat str with
      | .error _ => false
      | .ok _ => true
    | .ok _ => true

/-- `type USDate time.Time`; the zero `USDate{}` is `Time.zero`. -/
abbrev USDate := Time

/-- `String converts this date into a string`. -/
def USDate.String (d : USDate) : GoString :=
  Time.Format d FullUSDateFormat

/-- `UnmarshalText parses a text representation into a date type`: the new
value of the receiver and the error. -/
def USDate.UnmarshalText (d : USDate) (text : GoString) : USDate × Option Error :=
  if text.utf8ByteSize = 0 then (d, none)
  else if text = "0000-00-00" ∨ text = "00/00/0000" then (d, none)
  else
    match Parse FullUSDateFormat text with
    | .error _ =>
      match Parse AltUSDateFormat text with
      | .error aErr => (d, some (.parse aErr))
      | .ok ad => (ad, none)
    | .ok dd => (dd, none)

/-- `MarshalText serializes this date type to string`. -/
def USDate.MarshalText (d : USDate) : GoString × Option Error :=
  (USDate.String d, none)

/-- `UnmarshalEasyJSON sets the USDate from a easyjson.Lexer`.  `tok` is what
the lexer's `String()` finds: the content of the JSON string, or the error the
lexer records (`in.Ok()` false) when the next token is not a string. -/
def USDate.UnmarshalEasyJSON (d : USDate) (tok : Except Error GoString) : USDate × Option Error :=
  match tok with
  | .error e => (d, some e)
  | .ok data =>
    if data = "0000-00-00" then (d, none)
    else
      match Parse FullUSDateFormat data with
      | .error _ =>
        match Parse AltUSDateFormat data with
        | .error aErr => (d, some (.parse aErr))
        | .ok ad => (ad, none)
      | .ok tt => (tt, none)

/-- `UnmarshalJSON sets the USDate from JSON`: runs `UnmarshalEasyJSON` on a
lexer over the data and returns the lexer's error. -/
def USDate.UnmarshalJSON (d : USDate) (tok : Except Error GoString) : USDate × Option Error :=
  USDate.UnmarshalEasyJSON d tok

/-! ## ustime.go -/

def USDateTimeFormat : Layout :=
  { text := "01/02/2006 03:04pm",
    chunks := [.std .stdZeroMonth, .lit ['/'], .std .stdZeroDay, .lit ['/'], .std .stdLongYear,
      .lit [' '], .std .stdZeroHour12, .lit [':'], .std .stdZeroMinute, .std .stdpm] }

def AltUSDateTimeFormat : Layout :=
  { text := "2006-01-02 15:04:05",
    chunks := [.std .stdLongYear, .lit ['-'], .std .stdZeroMonth, .lit ['-'], .std .stdZeroDay,
      .lit [' '], .std .stdHour, .lit [':'], .std .stdZeroMinute, .lit [':'],
      .std .stdZeroSecond] }

def USDateMixedTimeFormat : Layout :=
  { text := "01/02/2006 15:04pm",
    chunks := [.std .stdZeroMonth, .lit ['/'], .std .stdZeroDay, .lit ['/'], .std .stdLongYear,
      .lit [' '], .std .stdHour, .lit [':'], .std .stdZeroMinute, .std .stdpm] }

def usDateTimeFormats : List Layout :=
  [USDateTimeFormat, AltUSDateTimeFormat, FullUSDateFormat, AltUSDateFormat,
    USDateMixedTimeFormat]

def USMarshalFormat : Layout :=
  USDateTimeFormat

/-- A two-digit number from `a0` to `a9`: `a[0-9]`. -/
def rxTens (a : Char) : Regexp :=
  .cat (.char a) (.range '0' '9')

/-- `[0-5][0-9]`. -/
def rxSixty : Regexp :=
  .cat (.range '0' '5') (.range '0' '9')

/-- `(0[0-9]|1[0-2])`. -/
def rxHour12 : Regexp :=
  .alt (rxTens '0') (.cat (.char '1') (.range '0' '2'))

/-- `((?:0[0-9]|1[0-2])|(?:1[0-9]))`. -/
def rxHour24 : Regexp :=
  .alt rxHour12 (rxTens '1')

/-- `(am|pm)`. -/
def rxAmPm : Regexp :=
  .alt (.cat (.char 'a') (.char 'm')) (.cat (.char 'p') (.char 'm'))

/-- `( [A-Z]{3})`. -/
def rxZone : Regexp :=
  Regexp.seq [.char ' ', .range 'A' 'Z', .range 'A' 'Z', .range 'A' 'Z']

/-- First alternative of `USDateTimePattern`:
`^((0[0-9]|1[0-2]):([0-5][0-9])(am|pm)( [A-Z]{3})?)`. -/
def rxUSDateTimeAmPm : Regexp :=
  Regexp.seq [.bol, rxHour12, .char ':', rxSixty, rxAmPm, .opt rxZone]

/-- Second alternative of `USDateTimePattern`:
`(((?:0[0-9]|1[0-2])|(?:1[0-9])):([0-5][0-9]):([0-5][0-9])?)$`. -/
def rxUSDateTime24 : Regexp :=
  Regexp.seq [rxHour24, .char ':', rxSixty, .char ':', .opt rxSixty, .eol]

/-- `rxUSDateTime = regexp.MustCompile(USDateTimePattern)`, where
`USDateTimePattern` is
`^((0[0-9]|1[0-2]):([0-5][0-9])(am|pm)( [A-Z]{3})?)|(((?:0[0-9]|1[0-2])|(?:1[0-9])):([0-5][0-9]):([0-5][0-9])?)$`:
alternation binds weakest, so `^` belongs to the first alternative only and `$`
to the second only. -/
def rxUSDateTime : Regexp :=
  .alt rxUSDateTimeAmPm rxUSDateTime24

/-- Go's `strings.SplitN(str, " ", 2)`: the text before the first space and the
text after it, or the whole text when it has no space. -/
def splitSpace (str : GoString) : List GoString :=
  match str.data.span (fun c => c != ' ') with
  | (a, []) => [String.mk a]
  | (a, _ :: b) => [String.mk a, String.mk b]

/-- `IsUSDateTime returns true when the string is a valid date-time`. -/
def IsUSDateTime (str : GoString) : Bool :=
  if str.utf8ByteSize < 4 then false
  else
    let s := splitSpace str
    if s.length = 1 ∧ IsUSDate (s.getD 0 "") = true then true
    else if s.length < 2 ∨ IsUSDate (s.getD 0 "") = false then false
    else rxUSDateTime.hasMatch (s.getD 1 "").data

/-- `type USDateTime time.Time`. -/
abbrev USDateTime := Time

/-- `NewUSDateTime is a representation of zero value for USDateTime type`:
`time.Unix(0, 0).UTC()`. -/
def NewUSDateTime : USDateTime :=
  unixUTC 0 0

/-- The loop of `ParseUSDateTime` over the layouts: the first layout that
parses gives the result; when none does, the last error is returned with the
zero value. -/
def parseUSLayouts (data : GoString) (pst : Location) :
    List Layout → Option Error → USDateTime × Option Error
  | [], lastError => (Time.zero, lastError)
  | layout :: rest, _ =>
    match ParseInLocation layout data (some pst) with
    | .error err => parseUSLayouts data pst rest (some (.parse err))
    | .ok dd => (dd, none)

/-- `ParseUSDateTime parses a string that represents an US Formatted PST`.
`loadLocation` is the result of `time.LoadLocation("America/Los_Angeles")`. -/
def ParseUSDateTime (loadLocation : Except Error Location) (data : GoString) :
    USDateTime × Option Error :=
  if data = "" ∨ data = "0000-00-00 00:00:00" ∨ data = "0000-00-00" ∨ data = "00/00/0000" then
    (NewUSDateTime, none)
  else
    match loadLocation with
    | .error err => (Time.zero, some err)
    | .ok pst => parseUSLayouts data pst usDateTimeFormats none

/-- What a `driver.Value` or the argument of `Scan` can hold: `nil`, one of the
types the methods switch on, or a value of any other type (`other`, with the
name of its type). -/
inductive Raw where
  | null
  | bytes (v : GoString)
  | string (v : GoString)
  | time (v : Time)
  | bool (v : Bool)
  | int64 (v : Int)
  | float64 (v : Int)
  | other (typeName : GoString)

/-- `String converts this time to a string`. -/
def USDateTime.String (t : USDateTime) : GoString :=
  if t.IsZero || t.Unix == 0 then ""
  else Time.Format t USMarshalFormat

/-- `MarshalText implements the text marshaller interface`. -/
def USDateTime.MarshalText (t : USDateTime) : GoString × Option Error :=
  (USDateTime.String t, none)

/-- `Value converts USDateTime to a primitive value ready to written to a
database`. -/
def USDateTime.Value (t : USDateTime) : Raw × Option Error :=
  if t.IsZero || t.Unix == 0 then (.null, none)
  else (.time t, none)

/-! ## Texts of dates and times -/

/-- The text of a date under `01/02/2006`. -/
def usDateText (m d y : Nat) : List Char :=
  pad2 m ++ '/' :: (pad2 d ++ '/' :: pad4 y)

/-- The text of a date under `2006-01-02`. -/
def isoDateText (y m d : Nat) : List Char :=
  pad4 y ++ '-' :: (pad2 m ++ '-' :: pad2 d)

/-- The text of a time of day under `03:04pm`. -/
def clockText (h mi : Nat) (pm : Bool) : List Char :=
  pad2 h ++ ':' :: (pad2 mi ++ [if pm then 'p' else 'a', 'm'])

/-- A calendar date: a month from 1 to 12 and a day of that month. -/
def validDate (y m d : Nat) : Prop :=
  1 ≤ m ∧ m ≤ 12 ∧ 1 ≤ d ∧ (d : Int) ≤ daysIn m y

instance (y m d : Nat) : Decidable (validDate y m d) := by
  unfold validDate
  infer_instance

/-! ## What the pattern matches -/

/-- A two-digit hour of the am/pm form: `00` to `12`. -/
def isHour12 (a b : Char) : Prop :=
  (a = '0' ∧ 48 ≤ b.toNat ∧ b.toNat ≤ 57) ∨ (a = '1' ∧ 48 ≤ b.toNat ∧ b.toNat ≤ 50)

/-- A two-digit hour of the 24-hour form of the pattern: `00` to `19`. -/
def isHour24 (a b : Char) : Prop :=
  (a = '0' ∨ a = '1') ∧ 48 ≤ b.toNat ∧ b.toNat ≤ 57

/-- Two digits that make a number below 60. -/
def isSixty (a b : Char) : Prop :=
  (48 ≤ a.toNat ∧ a.toNat ≤ 53) ∧ 48 ≤ b.toNat ∧ b.toNat ≤ 57

/-- A text that starts with `hh:mm` and `am` or `pm`, the hour from `00` to
`12`: what the first alternative of the pattern matches. -/
def startsAmPm (s : List Char) : Prop :=
  ∃ a b c d p rest, s = a :: b :: ':' :: c :: d :: p :: 'm' :: rest ∧ isHour12 a b ∧
    isSixty c d ∧ (p = 'a' ∨ p = 'p')

/-- A text that ends with `hh:mm:` or `hh:mm:ss`, the hour from `00` to `19`:
what the second alternative of the pattern matches. -/
def ends24 (s : List Char) : Prop :=
  ∃ pre a b c d, isHour24 a b ∧ isSixty c d ∧
    (s = pre ++ [a, b, ':', c, d, ':'] ∨
      ∃ e f, isSixty e f ∧ s = pre ++ [a, b, ':', c, d, ':', e, f])

/-! ## A zone table for concrete inputs -/

/-- Unix time of 00:00 UTC on the first Sunday on or after day `d` of month
`m` of `year` (January 1, 1970 was a Thursday). -/
def sundayFrom (year m d : Int) : Int :=
  let unix := (Date year m d 0 0 0 0 none).Unix
  let weekday := (unix / 86400 + 4) % 7
  unix + ((7 - weekday) % 7) * 86400

/-- Start of daylight time in `year` under the United States rule in force
since 2007: the second Sunday of March, 2:00 standard time (10:00 UTC). -/
def daylightStart (year : Int) : Int :=
  sundayFrom year 3 8 + 10 * 3600

/-- End of daylight time in `year`: the first Sunday of November, 2:00
daylight time (9:00 UTC). -/
def daylightEnd (year : Int) : Int :=
  sundayFrom year 11 1 + 9 * 3600

/-- The zone table of `America/Los_Angeles` by the rule in force since 2007
(UTC-8, and UTC-7 from `daylightStart` to `daylightEnd`), used where a theorem
is evaluated at a concrete input; the theorems themselves hold for every zone
table. -/
def losAngeles : Location :=
  { name := "America/Los_Angeles",
    lookup := fun unix =>
      let year := (absDate (((unix + (unixToInternal + internalToAbsolute))
        % 18446744073709551616).toNat)).1
      if unix < daylightStart year then (-28800, daylightEnd (year - 1), daylightStart year)
      else if unix < daylightEnd year then (-25200, daylightStart year, daylightEnd year)
      else (-28800, daylightEnd year, daylightStart (year + 1)) }

/-! ## strconv -/

/-- Go's `strconv.ParseBool`: `1, t, T, TRUE, true, True` are true,
`0, f, F, FALSE, false, False` are false, any other string is a syntax error. -/
def ParseBool (str : GoString) : Except Error Bool :=
  if str = "1" ∨ str = "t" ∨ str = "T" ∨ str = "TRUE" ∨ str = "true" ∨ str = "True" then .ok true
  else if str = "0" ∨ str = "f" ∨ str = "F" ∨ str = "FALSE" ∨ str = "false" ∨ str = "False" then
    .ok false
  else .error (.numError "ParseBool" str)

/-- Go's `strconv.FormatBool`. -/
def FormatBool (b : Bool) : GoString :=
  if b then "true" else "false"

/-! ## bool.go -/

/-- `type BoolString struct { Bool bool; Valid bool }`. -/
structure BoolString where
  Bool : GoBool
  Valid : GoBool
  deriving DecidableEq, Repr

/-- `IsBoolString returns true when the string is a valid date`. -/
def IsBoolString (str : GoString) : GoBool :=
  if str = "" then true
  else
    match ParseBool str with
    | .error _ => false
    | .ok _ => true

/-- `func (b BoolString) String() string`. -/
def BoolString.String (b : BoolString) : GoString :=
  if !b.Valid then "" else FormatBool b.Bool

/-- `func ParseBoolString(data string) (BoolString, error)`. -/
def ParseBoolString (data : GoString) : BoolString × Option Error :=
  if data = "" then ({ Bool := false, Valid := false }, none)
  else
    match ParseBool data with
    | .error err => ({ Bool := false, Valid := false }, some err)
    | .ok b => ({ Bool := b, Valid := true }, none)

/-- `MarshalText turns this instance into text`. -/
def BoolString.MarshalText (b : BoolString) : GoString × Option Error :=
  (BoolString.String b, none)

/-- `UnmarshalText hydrates this instance from text`: the new value of the
receiver and the error. -/
def BoolString.UnmarshalText (b : BoolString) (data : GoString) : BoolString × Option Error :=
  match ParseBoolString data with
  | (_, some err) => (b, some err)
  | (bb, none) => (bb, none)

/-- `func (b *BoolString) Scan(raw interface{}) error`: the new value of the
receiver and the error. -/
def BoolString.Scan (b : BoolString) (raw : Raw) : BoolString × Option Error :=
  match raw with
  | .null => ({ b with Bool := false, Valid := false }, none)
  | .bytes v =>
    match ParseBoolString v with
    | (_, some err) => (b, some err)
    | (bb, none) => (bb, none)
  | .string v =>
    match ParseBoolString v with
    | (_, some err) => (b, some err)
    | (bb, none) => (bb, none)
  | _ => (b, some (.scan "cannot sql.Scan() strfmt.BoolString from"))

/-- `func (b BoolString) Value() (driver.Value, error)`. -/
def BoolString.Value (b : BoolString) : Raw × Option Error :=
  if !b.Valid then (.null, none) else (.bool b.Bool, none)

/-- `MarshalEasyJSON writes the BoolString to a easyjson.Writer`; the writer is
the text written so far, `w.Bool` appends `true` or `false` and `w.RawString`
its argument. -/
def BoolString.MarshalEasyJSON (b : BoolString) (w : GoString) : GoString :=
  if b.Valid then w ++ (if b.Bool then "true" else "false")
  else w ++ "null"

/-- `MarshalJSON returns the BoolString as JSON`: the bytes of a fresh writer
after `MarshalEasyJSON`, and the writer's error. -/
def BoolString.MarshalJSON (b : BoolString) : GoString × Option Error :=
  (BoolString.MarshalEasyJSON b "", none)

/-- `UnmarshalEasyJSON sets the BoolString from a easyjson.Lexer`; `tok` is
what the lexer's `String()` finds. -/
def BoolString.UnmarshalEasyJSON (b : BoolString) (tok : Except Error GoString) :
    BoolString × Option Error :=
  match tok with
  | .error e => (b, some e)
  | .ok data =>
    match ParseBoolString data with
    | (_, some err) => (b, some err)
    | (bb, none) => (bb, none)

/-- `UnmarshalJSON sets the BoolString from JSON`. -/
def BoolString.UnmarshalJSON (b : BoolString) (tok : Except Error GoString) :
    BoolString × Option Error :=
  BoolString.UnmarshalEasyJSON b tok

/-! ## Scan and the remaining unmarshallers of usdate.go and ustime.go -/

/-- `Scan scans a USDate value from database driver type`.  `unmarshalDate` is
`Date.UnmarshalText` of the package, whose file is not among the sources: it
takes the receiver and the text and gives the new receiver and the error. -/
def USDate.Scan (unmarshalDate : Time → GoString → Time × Option Error) (d : USDate)
    (raw : Raw) : USDate × Option Error :=
  match raw with
  | .bytes v =>
    match unmarshalDate Time.zero v with
    | (_, some err) => (d, some err)
    | (dd, none) => (dd, none)
  | .string v =>
    match unmarshalDate Time.zero v with
    | (_, some err) => (d, some err)
    | (dd, none) => (dd, none)
  | .time v => (v, none)
  | .null => (Time.zero, none)
  | _ => (d, some (.scan "cannot sql.Scan() strfmt.USDate from"))

/-- `UnmarshalText implements the text unmarshaller interface`. -/
def USDateTime.UnmarshalText (loadLocation : Except Error Location) (t : USDateTime)
    (text : GoString) : USDateTime × Option Error :=
  match ParseUSDateTime loadLocation text with
  | (_, some err) => (t, some err)
  | (tt, none) => (tt, none)

/-- `Scan scans a USDateTime value from database driver type`.
`unmarshalDateTime` is `DateTime.UnmarshalText` of the package, whose file is
not among the sources. -/
def USDateTime.Scan (unmarshalDateTime : Time → GoString → Time × Option Error)
    (t : USDateTime) (raw : Raw) : USDateTime × Option Error :=
  match raw with
  | .bytes v =>
    match unmarshalDateTime Time.zero v with
    | (_, some err) => (t, some err)
    | (tt, none) => (tt, none)
  | .string v =>
    match unmarshalDateTime Time.zero v with
    | (_, some err) => (t, some err)
    | (tt, none) => (tt, none)
  | .time v => (v, none)
  | .null => (Time.zero, none)
  | _ => (t, some (.scan "cannot sql.Scan() strfmt.USDateTime from"))

/-- `UnmarshalEasyJSON sets the USDateTime from a easyjson.Lexer`; `tok` is
what the lexer's `String()` finds. -/
def USDateTime.UnmarshalEasyJSON (loadLocation : Except Error Location) (t : USDateTime)
    (tok : Except Error GoString) : USDateTime × Option Error :=
  match tok with
  | .error e => (t, some e)
  | .ok data =>
    match ParseUSDateTime loadLocation data with
    | (_, some err) => (t, some err)
    | (tt, none) => (tt, none)

/-- `UnmarshalJSON sets the USDateTime from JSON`. -/
def USDateTime.UnmarshalJSON (loadLocation : Except Error Location) (t : USDateTime)
    (tok : Except Error GoString) : USDateTime × Option Error :=
  USDateTime.UnmarshalEasyJSON loadLocation t tok
/-! ## Theorems -/

theorem utf8go_pos (c : Char) (cs : List Char) : 0 < String.utf8ByteSize.go (c :: cs) := by
  have := Char.utf8Size_pos c
  simp only [String.utf8ByteSize.go]
  omega

theorem utf8ByteSize_eq_zero (s : String) : s.utf8ByteSize = 0 ↔ s = "" := by
  rcases s with ⟨l⟩
  cases l with
  | nil => simp [String.utf8ByteSize, String.utf8ByteSize.go]
  | cons c cs =>
    have := utf8go_pos c cs
    constructor
    · intro h
      simp only [String.utf8ByteSize] at h
      omega
    · intro h
      exact absurd (congrArg String.data h) (by simp)

theorem length_le_utf8go (l : List Char) : l.length ≤ String.utf8ByteSize.go l := by
  induction l with
  | nil => simp [String.utf8ByteSize.go]
  | cons c cs ih =>
    have := Char.utf8Size_pos c
    simp only [String.utf8ByteSize.go, List.length_cons]
    omega

/-! ### Digits -/

theorem utod_toNat (n : Nat) (h : n < 10) : (utod n).toNat = 48 + n := by
  interval_cases n <;> rfl

theorem isDigitChar_utod (n : Nat) (h : n < 10) : isDigitChar (utod n) = true := by
  interval_cases n <;> rfl

theorem digitVal_utod (n : Nat) (h : n < 10) : digitVal (utod n) = (n : Int) := by
  interval_cases n <;> rfl

/-- A digit is the character of its value. -/
theorem isDigitChar_iff (c : Char) : isDigitChar c = true ↔ ∃ n, n < 10 ∧ c = utod n := by
  constructor
  · intro h
    simp only [isDigitChar, Bool.and_eq_true, decide_eq_true_eq] at h
    refine ⟨c.toNat - 48, by omega, ?_⟩
    have e : 48 + (c.toNat - 48) = c.toNat := by omega
    rw [utod, e, Char.ofNat_toNat]
  · rintro ⟨n, hn, rfl⟩
    exact isDigitChar_utod n hn

theorem utod_ne_space (n : Nat) (h : n < 10) : utod n ≠ ' ' := by
  interval_cases n <;> decide

theorem utod_inj (a b : Nat) (ha : a < 10) (hb : b < 10) (h : utod a = utod b) : a = b := by
  have := congrArg Char.toNat h
  rw [utod_toNat a ha, utod_toNat b hb] at this
  omega

/-- Two digits are the two-digit rendering of their value. -/
theorem two_digits (a b : Char) (ha : isDigitChar a = true) (hb : isDigitChar b = true) :
    ∃ k : Nat, k < 100 ∧ [a, b] = pad2 k ∧ digitVal a * 10 + digitVal b = (k : Int) := by
  obtain ⟨x, hx, rfl⟩ := (isDigitChar_iff a).mp ha
  obtain ⟨y, hy, rfl⟩ := (isDigitChar_iff b).mp hb
  refine ⟨10 * x + y, by omega, ?_, ?_⟩
  · have e1 : (10 * x + y) / 10 = x := by omega
    have e2 : (10 * x + y) % 10 = y := by omega
    simp [pad2, e1, e2]
  · rw [digitVal_utod x hx, digitVal_utod y hy]
    push_cast; ring

theorem four_digits (a b c d : Char) (ha : isDigitChar a = true) (hb : isDigitChar b = true)
    (hc : isDigitChar c = true) (hd : isDigitChar d = true) :
    ∃ k : Nat, k < 10000 ∧ [a, b, c, d] = pad4 k ∧
      digitVal a * 1000 + digitVal b * 100 + digitVal c * 10 + digitVal d = (k : Int) := by
  obtain ⟨x, hx, rfl⟩ := (isDigitChar_iff a).mp ha
  obtain ⟨y, hy, rfl⟩ := (isDigitChar_iff b).mp hb
  obtain ⟨z, hz, rfl⟩ := (isDigitChar_iff c).mp hc
  obtain ⟨w, hw, rfl⟩ := (isDigitChar_iff d).mp hd
  refine ⟨1000 * x + 100 * y + 10 * z + w, by omega, ?_, ?_⟩
  · have e1 : (1000 * x + 100 * y + 10 * z + w) / 1000 = x := by omega
    have e2 : (1000 * x + 100 * y + 10 * z + w) / 100 % 10 = y := by omega
    have e3 : (1000 * x + 100 * y + 10 * z + w) / 10 % 10 = z := by omega
    have e4 : (1000 * x + 100 * y + 10 * z + w) % 10 = w := by omega
    simp [pad4, e1, e2, e3, e4]
  · rw [digitVal_utod x hx, digitVal_utod y hy, digitVal_utod z hz, digitVal_utod w hw]
    push_cast; ring

theorem pad2_digits (k : Nat) (hk : k < 100) :
    isDigitChar (utod (k / 10)) = true ∧ isDigitChar (utod (k % 10)) = true ∧
      digitVal (utod (k / 10)) * 10 + digitVal (utod (k % 10)) = (k : Int) := by
  have h1 : k / 10 < 10 := by omega
  have h2 : k % 10 < 10 := by omega
  refine ⟨isDigitChar_utod _ h1, isDigitChar_utod _ h2, ?_⟩
  rw [digitVal_utod _ h1, digitVal_utod _ h2]
  omega

theorem pad4_digits (k : Nat) (hk : k < 10000) :
    isDigitChar (utod (k / 1000)) = true ∧ isDigitChar (utod (k / 100 % 10)) = true ∧
      isDigitChar (utod (k / 10 % 10)) = true ∧ isDigitChar (utod (k % 10)) = true ∧
      digitVal (utod (k / 1000)) * 1000 + digitVal (utod (k / 100 % 10)) * 100
        + digitVal (utod (k / 10 % 10)) * 10 + digitVal (utod (k % 10)) = (k : Int) := by
  have h1 : k / 1000 < 10 := by omega
  have h2 : k / 100 % 10 < 10 := by omega
  have h3 : k / 10 % 10 < 10 := by omega
  have h4 : k % 10 < 10 := by omega
  refine ⟨isDigitChar_utod _ h1, isDigitChar_utod _ h2, isDigitChar_utod _ h3,
    isDigitChar_utod _ h4, ?_⟩
  rw [digitVal_utod _ h1, digitVal_utod _ h2, digitVal_utod _ h3, digitVal_utod _ h4]
  omega

/-! ### The steps of `parse` -/

/-- A fixed-width `getnum` succeeds exactly on two leading digits. -/
theorem getnum_fixed_ok_iff (s rest : List Char) (n : Int) :
    getnum s true = .ok (n, rest) ↔ ∃ k : Nat, k < 100 ∧ s = pad2 k ++ rest ∧ n = k := by
  constructor
  · intro h
    match s, h with
    | [], h => simp [getnum, isDigit] at h
    | [a], h =>
      by_cases ha : isDigitChar a = true <;> simp [getnum, isDigit, ha] at h
    | a :: b :: t, h =>
      by_cases ha : isDigitChar a = true <;> by_cases hb : isDigitChar b = true <;>
        simp [getnum, isDigit, digitAt, ha, hb] at h
      obtain ⟨k, hk, e, hv⟩ := two_digits a b ha hb
      refine ⟨k, hk, ?_, ?_⟩
      · rw [← e, ← h.2]; rfl
      · rw [← h.1, hv]
  · rintro ⟨k, hk, rfl, rfl⟩
    obtain ⟨h1, h2, h3⟩ := pad2_digits k hk
    simp [getnum, isDigit, digitAt, pad2, h1, h2, h3]

theorem skip_char_iff (c : Char) (hc : c ≠ ' ') (v rest : List Char) :
    skip v [c] = some rest ↔ v = c :: rest := by
  cases v with
  | nil => simp [skip, skipFrom, hc]
  | cons x xs =>
    by_cases hx : x = c
    · subst hx
      simp [skip, skipFrom, hc]
    · simp [skip, skipFrom, hc, hx]

/-- Skipping the layout's single space: the value is empty, or starts with a
space and what is left starts after the whole run of spaces. -/
theorem skip_space_iff (v rest : List Char) :
    skip v [' '] = some rest ↔
      (v = [] ∧ rest = []) ∨ ∃ vs, v = ' ' :: vs ∧ rest = cutspace vs := by
  cases v with
  | nil => simp [skip, skipFrom, eq_comm]
  | cons x xs =>
    by_cases hx : x = ' '
    · subst hx
      simp [skip, skipFrom, cutspace, eq_comm]
    · simp [skip, skipFrom, hx]

theorem parseStd_longYear_iff (f f' : Fields) (v rest : List Char) :
    parseStd .stdLongYear f v = .ok (f', rest) ↔
      ∃ y : Nat, y < 10000 ∧ v = pad4 y ++ rest ∧ f' = { f with year := y } := by
  constructor
  · intro h
    match v, h with
    | [], h => simp [parseStd] at h
    | [a], h => simp [parseStd] at h
    | [a, b], h => simp [parseStd] at h
    | [a, b, c], h => simp [parseStd] at h
    | a :: b :: c :: d :: t, h =>
      by_cases ha : isDigitChar a = true <;> by_cases hb : isDigitChar b = true <;>
        by_cases hc : isDigitChar c = true <;> by_cases hd : isDigitChar d = true <;>
        simp [parseStd, atoi4, isDigit, digitAt, ha, hb, hc, hd] at h
      split at h
      · exact absurd h (by simp)
      · simp only [Except.ok.injEq, Prod.mk.injEq] at h
        obtain ⟨k, hk, e, hv⟩ := four_digits a b c d ha hb hc hd
        refine ⟨k, hk, ?_, ?_⟩
        · rw [← e, ← h.2]; rfl
        · rw [← h.1, hv]
  · rintro ⟨k, hk, rfl, rfl⟩
    obtain ⟨h1, h2, h3, h4, h5⟩ := pad4_digits k hk
    simp [parseStd, atoi4, isDigit, digitAt, pad4, h1, h2, h3, h4, h5]

theorem parseStd_zeroMonth_iff (f f' : Fields) (v rest : List Char) :
    parseStd .stdZeroMonth f v = .ok (f', rest) ↔
      ∃ k : Nat, (0 < k ∧ k ≤ 12) ∧ v = pad2 k ++ rest ∧ f' = { f with month := k } := by
  constructor
  · intro h
    cases hg : getnum v true with
    | error e => simp [parseStd, hg] at h
    | ok r =>
      obtain ⟨n, rest'⟩ := r
      obtain ⟨k, hk, rfl, rfl⟩ := (getnum_fixed_ok_iff _ _ _).mp hg
      simp only [parseStd, hg] at h
      split at h
      · exact absurd h (by simp)
      · rename_i hr
        simp only [Except.ok.injEq, Prod.mk.injEq] at h
        simp only [Bool.or_eq_true, decide_eq_true_eq, not_or, not_le, not_lt] at hr
        exact ⟨k, by omega, by rw [h.2], h.1.symm⟩
  · rintro ⟨k, hk, rfl, rfl⟩
    have hg := (getnum_fixed_ok_iff (pad2 k ++ rest) rest k).mpr ⟨k, by omega, rfl, rfl⟩
    simp only [parseStd, hg]
    rw [if_neg]
    simp only [Bool.or_eq_true, decide_eq_true_eq, not_or, not_le, not_lt]
    omega

theorem parseStd_zeroDay_iff (f f' : Fields) (v rest : List Char) :
    parseStd .stdZeroDay f v = .ok (f', rest) ↔
      ∃ k : Nat, k < 100 ∧ v = pad2 k ++ rest ∧ f' = { f with day := k } := by
  constructor
  · intro h
    cases hg : getnum v true with
    | error e => simp [parseStd, hg] at h
    | ok r =>
      obtain ⟨n, rest'⟩ := r
      obtain ⟨k, hk, rfl, rfl⟩ := (getnum_fixed_ok_iff _ _ _).mp hg
      simp only [parseStd, hg, Except.ok.injEq, Prod.mk.injEq] at h
      exact ⟨k, hk, by rw [h.2], h.1.symm⟩
  · rintro ⟨k, hk, rfl, rfl⟩
    have hg := (getnum_fixed_ok_iff (pad2 k ++ rest) rest k).mpr ⟨k, hk, rfl, rfl⟩
    simp only [parseStd, hg]

theorem parseStd_zeroHour12_iff (f f' : Fields) (v rest : List Char) :
    parseStd .stdZeroHour12 f v = .ok (f', rest) ↔
      ∃ k : Nat, (k ≤ 12) ∧ v = pad2 k ++ rest ∧ f' = { f with hour := k } := by
  constructor
  · intro h
    cases hg : getnum v true with
    | error e => simp [parseStd, hg] at h
    | ok r =>
      obtain ⟨n, rest'⟩ := r
      obtain ⟨k, hk, rfl, rfl⟩ := (getnum_fixed_ok_iff _ _ _).mp hg
      simp only [parseStd, hg] at h
      split at h
      · exact absurd h (by simp)
      · rename_i hr
        simp only [Except.ok.injEq, Prod.mk.injEq] at h
        simp only [Bool.or_eq_true, decide_eq_true_eq, not_or, not_le, not_lt] at hr
        exact ⟨k, by omega, by rw [h.2], h.1.symm⟩
  · rintro ⟨k, hk, rfl, rfl⟩
    have hg := (getnum_fixed_ok_iff (pad2 k ++ rest) rest k).mpr ⟨k, by omega, rfl, rfl⟩
    simp only [parseStd, hg]
    rw [if_neg]
    simp only [Bool.or_eq_true, decide_eq_true_eq, not_or, not_le, not_lt]
    omega

theorem parseStd_zeroMinute_iff (f f' : Fields) (v rest : List Char) :
    parseStd .stdZeroMinute f v = .ok (f', rest) ↔
      ∃ k : Nat, (k < 60) ∧ v = pad2 k ++ rest ∧ f' = { f with min := k } := by
  constructor
  · intro h
    cases hg : getnum v true with
    | error e => simp [parseStd, hg] at h
    | ok r =>
      obtain ⟨n, rest'⟩ := r
      obtain ⟨k, hk, rfl, rfl⟩ := (getnum_fixed_ok_iff _ _ _).mp hg
      simp only [parseStd, hg] at h
      split at h
      · exact absurd h (by simp)
      · rename_i hr
        simp only [Except.ok.injEq, Prod.mk.injEq] at h
        simp only [Bool.or_eq_true, decide_eq_true_eq, not_or, not_le, not_lt] at hr
        exact ⟨k, by omega, by rw [h.2], h.1.symm⟩
  · rintro ⟨k, hk, rfl, rfl⟩
    have hg := (getnum_fixed_ok_iff (pad2 k ++ rest) rest k).mpr ⟨k, by omega, rfl, rfl⟩
    simp only [parseStd, hg]
    rw [if_neg]
    simp only [Bool.or_eq_true, decide_eq_true_eq, not_or, not_le, not_lt]
    omega

theorem parseStd_pm_iff (f f' : Fields) (v rest : List Char) :
    parseStd .stdpm f v = .ok (f', rest) ↔
      (v = 'p' :: 'm' :: rest ∧ f' = { f with pmSet := true }) ∨
      (v = 'a' :: 'm' :: rest ∧ f' = { f with amSet := true }) := by
  match v with
  | [] => simp [parseStd]
  | [a] => simp [parseStd]
  | a :: b :: t =>
    have hl : ¬ (t.length + 1 + 1 < 2) := by omega
    simp only [parseStd, List.length_cons, hl, decide_False, Bool.false_eq_true, if_false,
      List.take_succ_cons, List.take_zero, List.drop_succ_cons, List.drop_zero,
      List.cons.injEq, and_true]
    by_cases hp : a = 'p' ∧ b = 'm'
    · obtain ⟨rfl, rfl⟩ := hp
      simp [eq_comm, and_comm]
    · rw [if_neg hp]
      by_cases ha : a = 'a' ∧ b = 'm'
      · obtain ⟨rfl, rfl⟩ := ha
        simp [eq_comm, and_comm]
      · rw [if_neg ha]
        constructor
        · intro h
          exact absurd h (by simp)
        · rintro (⟨⟨h1, h2, -⟩, -⟩ | ⟨⟨h1, h2, -⟩, -⟩)
          · exact absurd ⟨h1, h2⟩ hp
          · exact absurd ⟨h1, h2⟩ ha

theorem parseLoop_nil_iff (f f' : Fields) (v : List Char) :
    parseLoop [] f v = .ok f' ↔ v = [] ∧ f' = f := by
  cases v <;> simp [parseLoop, eq_comm]

theorem parseLoop_lit_iff (p : List Char) (cs : List Chunk) (f f' : Fields) (v : List Char) :
    parseLoop (.lit p :: cs) f v = .ok f' ↔
      ∃ rest, skip v p = some rest ∧ parseLoop cs f rest = .ok f' := by
  cases h : skip v p <;> simp [parseLoop, h]

theorem parseLoop_std_iff (s : Std) (cs : List Chunk) (f f' : Fields) (v : List Char) :
    parseLoop (.std s :: cs) f v = .ok f' ↔
      ∃ f1 rest, parseStd s f v = .ok (f1, rest) ∧ parseLoop cs f1 rest = .ok f' := by
  cases h : parseStd s f v with
  | error e => simp [parseLoop, h]
  | ok r =>
    obtain ⟨f1, rest⟩ := r
    simp only [parseLoop, h, Except.ok.injEq, Prod.mk.injEq]
    constructor
    · intro hh
      exact ⟨f1, rest, ⟨rfl, rfl⟩, hh⟩
    · rintro ⟨f2, rest2, ⟨rfl, rfl⟩, hh⟩
      exact hh

theorem parseLoop_usDate_iff (cs : List Chunk) (f f' : Fields) (v : List Char) :
    parseLoop (.std .stdZeroMonth :: .lit ['/'] :: .std .stdZeroDay :: .lit ['/'] ::
        .std .stdLongYear :: cs) f v = .ok f' ↔
      ∃ (m d y : Nat) (rest : List Char), (0 < m ∧ m ≤ 12) ∧ d < 100 ∧ y < 10000 ∧
        v = usDateText m d y ++ rest ∧
        parseLoop cs { f with month := m, day := d, year := y } rest = .ok f' := by
  simp only [parseLoop_std_iff, parseLoop_lit_iff, parseStd_zeroMonth_iff, parseStd_zeroDay_iff,
    parseStd_longYear_iff, skip_char_iff '/' (by decide)]
  constructor
  · rintro ⟨f1, r1, ⟨m, hm, rfl, rfl⟩, r2, rfl, f2, r3, ⟨d, hd, rfl, rfl⟩, r4, rfl, f3, r5,
      ⟨y, hy, rfl, rfl⟩, h⟩
    exact ⟨m, d, y, r5, hm, hd, hy, by simp [usDateText], h⟩
  · rintro ⟨m, d, y, rest, hm, hd, hy, rfl, h⟩
    exact ⟨_, _, ⟨m, hm, by simp [usDateText], rfl⟩, _, rfl, _, _, ⟨d, hd, rfl, rfl⟩, _, rfl,
      _, _, ⟨y, hy, rfl, rfl⟩, h⟩

theorem parseLoop_isoDate_iff (cs : List Chunk) (f f' : Fields) (v : List Char) :
    parseLoop (.std .stdLongYear :: .lit ['-'] :: .std .stdZeroMonth :: .lit ['-'] ::
        .std .stdZeroDay :: cs) f v = .ok f' ↔
      ∃ (m d y : Nat) (rest : List Char), (0 < m ∧ m ≤ 12) ∧ d < 100 ∧ y < 10000 ∧
        v = isoDateText y m d ++ rest ∧
        parseLoop cs { f with year := y, month := m, day := d } rest = .ok f' := by
  simp only [parseLoop_std_iff, parseLoop_lit_iff, parseStd_zeroMonth_iff, parseStd_zeroDay_iff,
    parseStd_longYear_iff, skip_char_iff '-' (by decide)]
  constructor
  · rintro ⟨f1, r1, ⟨y, hy, rfl, rfl⟩, r2, rfl, f2, r3, ⟨m, hm, rfl, rfl⟩, r4, rfl, f3, r5,
      ⟨d, hd, rfl, rfl⟩, h⟩
    exact ⟨m, d, y, r5, hm, hd, hy, by simp [isoDateText], h⟩
  · rintro ⟨m, d, y, rest, hm, hd, hy, rfl, h⟩
    exact ⟨_, _, ⟨y, hy, by simp [isoDateText], rfl⟩, _, rfl, _, _, ⟨m, hm, rfl, rfl⟩, _, rfl,
      _, _, ⟨d, hd, rfl, rfl⟩, h⟩

theorem daysIn_le (m : Nat) (y : Int) (h1 : 1 ≤ m) (h12 : m ≤ 12) :
    28 ≤ daysIn m y ∧ daysIn m y ≤ 31 := by
  interval_cases m <;> simp [daysIn, daysBefore] <;> split <;> omega

theorem validDate_day_lt (y m d : Nat) (h : validDate y m d) : d < 100 := by
  obtain ⟨h1, h2, h3, h4⟩ := h
  have := (daysIn_le m y h1 h2).2
  omega

theorem finish_ok_iff (f : Fields) (loc : Option Location) (t : Time) (hm : 0 ≤ f.month)
    (hd : 0 ≤ f.day) :
    finish f loc = .ok t ↔
      (1 ≤ f.day ∧ f.day ≤ daysIn f.month f.year) ∧
        t = Date f.year f.month f.day (clockHour f.hour f.pmSet f.amSet) f.min f.sec f.nsec loc := by
  unfold finish
  have e1 : ¬ f.month < 0 := by omega
  have e2 : ¬ f.day < 0 := by omega
  simp only [e1, e2, if_false]
  by_cases hv : 1 ≤ f.day ∧ f.day ≤ daysIn f.month f.year
  · have : ¬ ((decide (f.day < 1) || decide (f.day > daysIn f.month f.year)) = true) := by
      simp only [Bool.or_eq_true, decide_eq_true_eq, not_or, not_lt]
      exact ⟨hv.1, hv.2⟩
    rw [if_neg this]
    simp only [Except.ok.injEq, hv, true_and, clockHour]
    exact eq_comm
  · have : (decide (f.day < 1) || decide (f.day > daysIn f.month f.year)) = true := by
      simp only [Bool.or_eq_true, decide_eq_true_eq]
      by_contra hc
      exact hv ⟨by omega, by omega⟩
    rw [if_pos this]
    simp [hv]

theorem ParseInLocation_ok_iff (layout : Layout) (s : GoString) (loc : Option Location)
    (t : Time) :
    ParseInLocation layout s loc = .ok t ↔
      ∃ f, parseLoop layout.chunks Fields.init s.data = .ok f ∧ finish f loc = .ok t := by
  unfold ParseInLocation
  cases h1 : parseLoop layout.chunks Fields.init s.data with
  | error k => simp
  | ok f =>
    cases h2 : finish f loc with
    | error k => simp [h2]
    | ok t' => simp [h2]

/-- `01/02/2006` accepts exactly the ten-character texts of calendar dates and
gives midnight of that date. -/
theorem ParseInLocation_FullUSDateFormat_iff (s : GoString) (loc : Option Location) (t : Time) :
    ParseInLocation FullUSDateFormat s loc = .ok t ↔
      ∃ m d y : Nat, validDate y m d ∧ y < 10000 ∧ s.data = usDateText m d y ∧
        t = Date y m d 0 0 0 0 loc := by
  rw [ParseInLocation_ok_iff]
  simp only [FullUSDateFormat, parseLoop_usDate_iff, parseLoop_nil_iff]
  constructor
  · rintro ⟨f, ⟨m, d, y, rest, hm, hd, hy, hs, rfl, rfl⟩, hf⟩
    rw [finish_ok_iff _ _ _ (by simp [Fields.init]) (by simp [Fields.init])] at hf
    simp only [Fields.init] at hf
    refine ⟨m, d, y, ⟨by omega, hm.2, by omega, hf.1.2⟩, hy, by simpa using hs, ?_⟩
    rw [hf.2]; rfl
  · rintro ⟨m, d, y, hv, hy, hs, rfl⟩
    refine ⟨_, ⟨m, d, y, [], ⟨by have := hv.1; omega, hv.2.1⟩, validDate_day_lt y m d hv, hy,
      by simpa using hs, rfl, rfl⟩, ?_⟩
    rw [finish_ok_iff _ _ _ (by simp [Fields.init]) (by simp [Fields.init])]
    simp only [Fields.init]
    exact ⟨⟨by have := hv.2.2.1; omega, hv.2.2.2⟩, rfl⟩

/-- `2006-01-02` accepts exactly the ten-character texts of calendar dates and
gives midnight of that date. -/
theorem ParseInLocation_AltUSDateFormat_iff (s : GoString) (loc : Option Location) (t : Time) :
    ParseInLocation AltUSDateFormat s loc = .ok t ↔
      ∃ m d y : Nat, validDate y m d ∧ y < 10000 ∧ s.data = isoDateText y m d ∧
        t = Date y m d 0 0 0 0 loc := by
  rw [ParseInLocation_ok_iff]
  simp only [AltUSDateFormat, parseLoop_isoDate_iff, parseLoop_nil_iff]
  constructor
  · rintro ⟨f, ⟨m, d, y, rest, hm, hd, hy, hs, rfl, rfl⟩, hf⟩
    rw [finish_ok_iff _ _ _ (by simp [Fields.init]) (by simp [Fields.init])] at hf
    simp only [Fields.init] at hf
    refine ⟨m, d, y, ⟨by omega, hm.2, by omega, hf.1.2⟩, hy, by simpa using hs, ?_⟩
    rw [hf.2]; rfl
  · rintro ⟨m, d, y, hv, hy, hs, rfl⟩
    refine ⟨_, ⟨m, d, y, [], ⟨by have := hv.1; omega, hv.2.1⟩, validDate_day_lt y m d hv, hy,
      by simpa using hs, rfl, rfl⟩, ?_⟩
    rw [finish_ok_iff _ _ _ (by simp [Fields.init]) (by simp [Fields.init])]
    simp only [Fields.init]
    exact ⟨⟨by have := hv.2.2.1; omega, hv.2.2.2⟩, rfl⟩

theorem utod_ne_slash (n : Nat) (h : n < 10) : utod n ≠ '/' := by
  interval_cases n <;> decide

theorem utod_ne_dash (n : Nat) (h : n < 10) : utod n ≠ '-' := by
  interval_cases n <;> decide

theorem pad2_inj (a b : Nat) (ha : a < 100) (hb : b < 100) (h : pad2 a = pad2 b) : a = b := by
  simp only [pad2, List.cons.injEq, and_true] at h
  have h1 := utod_inj _ _ (by omega) (by omega) h.1
  have h2 := utod_inj _ _ (by omega) (by omega) h.2
  omega

theorem pad4_inj (a b : Nat) (ha : a < 10000) (hb : b < 10000) (h : pad4 a = pad4 b) : a = b := by
  simp only [pad4, List.cons.injEq, and_true] at h
  have h1 := utod_inj _ _ (by omega) (by omega) h.1
  have h2 := utod_inj _ _ (by omega) (by omega) h.2.1
  have h3 := utod_inj _ _ (by omega) (by omega) h.2.2.1
  have h4 := utod_inj _ _ (by omega) (by omega) h.2.2.2
  omega

theorem usDateText_inj (m d y m' d' y' : Nat) (hm : m < 100) (hd : d < 100) (hy : y < 10000)
    (hm' : m' < 100) (hd' : d' < 100) (hy' : y' < 10000)
    (h : usDateText m d y = usDateText m' d' y') : m = m' ∧ d = d' ∧ y = y' := by
  simp only [usDateText, pad2, pad4, List.cons_append, List.nil_append, List.cons.injEq,
    and_true, true_and] at h
  obtain ⟨a1, a2, b1, b2, c1, c2, c3, c4⟩ := h
  refine ⟨pad2_inj m m' hm hm' (by simp [pad2, a1, a2]), pad2_inj d d' hd hd' (by simp [pad2, b1, b2]),
    pad4_inj y y' hy hy' (by simp [pad4, c1, c2, c3, c4])⟩

theorem usDateText_ne_isoDateText (m d y m' d' y' : Nat) :
    usDateText m d y ≠ isoDateText y' m' d' := by
  intro h
  simp only [usDateText, isoDateText, pad2, pad4, List.cons_append, List.nil_append,
    List.cons.injEq] at h
  exact utod_ne_slash _ (by omega) h.2.2.1.symm

/-- What `IsUSDate` accepts: the two sentinels and the texts either layout
parses. -/
theorem IsUSDate_iff (s : GoString) :
    IsUSDate s = true ↔
      (s = "0000-00-00" ∨ s = "00/00/0000") ∨ (∃ t, Parse FullUSDateFormat s = .ok t) ∨
        (∃ t, Parse AltUSDateFormat s = .ok t) := by
  unfold IsUSDate
  by_cases hs : s = "0000-00-00" ∨ s = "00/00/0000"
  · simp [hs]
  · rw [if_neg hs]
    cases h1 : Parse FullUSDateFormat s with
    | error e =>
      cases h2 : Parse AltUSDateFormat s with
      | error e2 => simp [hs]
      | ok t => simp
    | ok t => simp

/-- What `IsUSDate` accepts, as text: the two sentinels and the calendar dates
with a four-digit year, written `MM/DD/YYYY` or `YYYY-MM-DD`. -/
theorem IsUSDate_iff_text (s : GoString) :
    IsUSDate s = true ↔
      (s = "0000-00-00" ∨ s = "00/00/0000") ∨
        ∃ m d y : Nat, validDate y m d ∧ y < 10000 ∧
          (s.data = usDateText m d y ∨ s.data = isoDateText y m d) := by
  rw [IsUSDate_iff]
  unfold Parse
  simp only [ParseInLocation_FullUSDateFormat_iff, ParseInLocation_AltUSDateFormat_iff]
  constructor
  · rintro (h | ⟨t, m, d, y, hv, hy, hs, -⟩ | ⟨t, m, d, y, hv, hy, hs, -⟩)
    · exact Or.inl h
    · exact Or.inr ⟨m, d, y, hv, hy, Or.inl hs⟩
    · exact Or.inr ⟨m, d, y, hv, hy, Or.inr hs⟩
  · rintro (h | ⟨m, d, y, hv, hy, hs | hs⟩)
    · exact Or.inl h
    · exact Or.inr (Or.inl ⟨_, m, d, y, hv, hy, hs, rfl⟩)
    · exact Or.inr (Or.inr ⟨_, m, d, y, hv, hy, hs, rfl⟩)

theorem appendInt_four (Y : Nat) (hY : Y < 10000) : appendInt (Y : Int) 4 = pad4 Y := by
  simp [appendInt, hY]

theorem appendInt_two (n : Nat) (hn : n < 100) : appendInt (n : Int) 2 = pad2 n := by
  simp [appendInt, hn]

theorem isLeap_iff (Y : Nat) :
    isLeap (Y : Int) = true ↔ ((Y % 4 = 0 ∧ Y % 100 ≠ 0) ∨ Y % 400 = 0) := by
  simp only [isLeap, Bool.and_eq_true, Bool.or_eq_true, beq_iff_eq, bne_iff_ne, ne_eq]
  omega

/-! ### The calendar arithmetic of `Date` and `absDate` -/

/-- Division step of a cycle: the quotient is the cycle count when what is
left is shorter than a cycle. -/
theorem cycle_div (k q r : Nat) (hk : 0 < k) (hr : r < k) : (k * q + r) / k = q := by
  rw [Nat.mul_add_div hk, Nat.div_eq_of_lt hr, Nat.add_zero]

theorem absYear_core (a b c e yd : Nat) (hb : b ≤ 3) (hc : c ≤ 24) (he : e ≤ 3)
    (hyd : yd < 365 ∨ (yd = 365 ∧ e = 3 ∧ (c ≠ 24 ∨ b = 3))) :
    absYear (146097 * a + 36524 * b + 1461 * c + 365 * e + yd)
      = (((400 * a + 100 * b + 4 * c + e : Nat) : Int) + absoluteZeroYear, yd) := by
  have r3 : 365 * e + yd < 1461 := by omega
  have r2 : 1461 * c + (365 * e + yd) < 36524 ∨ (b = 3 ∧ c = 24 ∧ e = 3 ∧ yd = 365) := by omega
  have r1 : 36524 * b + (1461 * c + (365 * e + yd)) < 146097 := by omega
  have h1 : (146097 * a + 36524 * b + 1461 * c + 365 * e + yd) / 146097 = a := by
    have := cycle_div 146097 a (36524 * b + (1461 * c + (365 * e + yd))) (by omega) r1
    rw [← this]; congr 1; omega
  have h1' : 146097 * a + 36524 * b + 1461 * c + 365 * e + yd - 146097 * a
      = 36524 * b + (1461 * c + (365 * e + yd)) := by omega
  have h2 : (36524 * b + (1461 * c + (365 * e + yd))) / 36524
      - (36524 * b + (1461 * c + (365 * e + yd))) / 36524 / 4 = b := by
    rcases r2 with r2 | ⟨rfl, rfl, rfl, rfl⟩
    · rw [cycle_div 36524 b _ (by omega) r2]; omega
    · rfl
  have h2' : 36524 * b + (1461 * c + (365 * e + yd)) - 36524 * b = 1461 * c + (365 * e + yd) := by
    omega
  have h3 : (1461 * c + (365 * e + yd)) / 1461 = c := cycle_div 1461 c _ (by omega) r3
  have h3' : 1461 * c + (365 * e + yd) - 1461 * c = 365 * e + yd := by omega
  have h4 : (365 * e + yd) / 365 - (365 * e + yd) / 365 / 4 = e := by
    rcases hyd with hyd | ⟨rfl, rfl, -⟩
    · rw [cycle_div 365 e _ (by omega) hyd]; omega
    · rfl
  have h4' : 365 * e + yd - 365 * e = yd := by omega
  simp only [absYear, h1, h1', h2, h2', h3, h3', h4, h4']

theorem daysSinceEpoch_eq (Y : Nat) (hY : Y < 18446744073709551616) :
    daysSinceEpoch ((Y : Int) + absoluteZeroYear)
      = 146097 * (Y / 400) + 36524 * (Y % 400 / 100) + 1461 * (Y % 100 / 4) + 365 * (Y % 4) := by
  have hy : (((Y : Int) + absoluteZeroYear - absoluteZeroYear) % 18446744073709551616).toNat
      = Y := by
    omega
  simp only [daysSinceEpoch, hy]
  have e1 : Y - 400 * (Y / 400) = Y % 400 := by omega
  have e2 : Y % 400 - 100 * (Y % 400 / 100) = Y % 100 := by omega
  have e3 : Y % 100 - 4 * (Y % 100 / 4) = Y % 4 := by omega
  simp only [e1, e2, e3]

/-- The year and the day of the year are read back from the day count of a
day of a year 0..9999. -/
theorem absYear_daysSinceEpoch (y yd : Nat) (hy : y < 10000)
    (hyd : yd < 365 ∨ (yd = 365 ∧ isLeap (y : Int) = true)) :
    absYear (daysSinceEpoch (y : Int) + yd) = ((y : Int), yd) := by
  have hleap : isLeap (y : Int) = true ↔ ((y % 4 = 0 ∧ y % 100 ≠ 0) ∨ y % 400 = 0) := by
    simp only [isLeap, Bool.and_eq_true, Bool.or_eq_true, beq_iff_eq, bne_iff_ne, ne_eq]
    omega
  rw [hleap] at hyd
  have e0 : (y : Int) = ((y + 292277022399 : Nat) : Int) + absoluteZeroYear := by
    simp only [absoluteZeroYear]; omega
  have hd := daysSinceEpoch_eq (y + 292277022399) (by omega)
  rw [← e0] at hd
  rw [hd]
  have hc := absYear_core ((y + 292277022399) / 400) ((y + 292277022399) % 400 / 100)
    ((y + 292277022399) % 100 / 4) ((y + 292277022399) % 4) yd (by omega) (by omega) (by omega)
    (by omega)
  rw [hc]
  have e1 : 400 * ((y + 292277022399) / 400) + 100 * ((y + 292277022399) % 400 / 100)
      + 4 * ((y + 292277022399) % 100 / 4) + (y + 292277022399) % 4 = y + 292277022399 := by
    omega
  rw [e1, ← e0]

/-- Every day of every month, in common and in leap years: the day of the year
stays within the year and `monthDay` reads the month and the day back. -/
theorem monthDay_table (leap : Bool) (m d : Nat) (h1 : 1 ≤ m) (h12 : m ≤ 12) (hd1 : 1 ≤ d)
    (hdl : d ≤ (if m = 2 ∧ leap = true then 29 else daysBefore m - daysBefore (m - 1))) :
    (daysBefore (m - 1) + (if leap && decide (3 ≤ m) then 1 else 0) + (d - 1)
        < 365 + (if leap then 1 else 0)) ∧
      monthDay leap (daysBefore (m - 1) + (if leap && decide (3 ≤ m) then 1 else 0) + (d - 1))
        = (m, d) := by
  have key : ∀ l : Bool, ∀ a : Fin 13, ∀ b : Fin 32, 1 ≤ a.val → 1 ≤ b.val →
      b.val ≤ (if a.val = 2 ∧ l = true then 29 else daysBefore a.val - daysBefore (a.val - 1)) →
      (daysBefore (a.val - 1) + (if l && decide (3 ≤ a.val) then 1 else 0) + (b.val - 1)
          < 365 + (if l then 1 else 0)) ∧
        monthDay l (daysBefore (a.val - 1) + (if l && decide (3 ≤ a.val) then 1 else 0)
          + (b.val - 1)) = (a.val, b.val) := by
    decide
  have hd32 : d < 32 := by
    have : (if m = 2 ∧ leap = true then 29 else daysBefore m - daysBefore (m - 1)) ≤ 31 := by
      interval_cases m <;> simp [daysBefore] <;> split <;> omega
    omega
  exact key leap ⟨m, by omega⟩ ⟨d, hd32⟩ h1 hd1 hdl

theorem daysBefore_le (m : Nat) : daysBefore m ≤ 365 := by
  unfold daysBefore
  by_cases h : m < 13
  · interval_cases m <;> decide
  · rw [List.getD_eq_default _ _ (by simp; omega)]
    omega

theorem daysIn_nat (m y : Nat) (h1 : 1 ≤ m) (h12 : m ≤ 12) :
    daysIn (m : Int) (y : Int)
      = ((if m = 2 ∧ isLeap (y : Int) = true then 29 else daysBefore m - daysBefore (m - 1) : Nat)
          : Int) := by
  unfold daysIn
  interval_cases m <;> cases hl : isLeap (y : Int) <;> simp [daysBefore]

theorem daysSinceEpoch_lt (y : Nat) (hy : y < 10000) :
    daysSinceEpoch (y : Int) < 110000000000000 := by
  have e0 : (y : Int) = ((y + 292277022399 : Nat) : Int) + absoluteZeroYear := by
    simp only [absoluteZeroYear]; omega
  have hd := daysSinceEpoch_eq (y + 292277022399) (by omega)
  rw [← e0] at hd
  rw [hd]
  have b1 : (y + 292277022399) / 400 ≤ 730692580 := by omega
  have b2 : (y + 292277022399) % 400 / 100 ≤ 3 := by omega
  have b3 : (y + 292277022399) % 100 / 4 ≤ 24 := by omega
  have b4 : (y + 292277022399) % 4 ≤ 3 := by omega
  generalize (y + 292277022399) / 400 = A at b1 ⊢
  generalize (y + 292277022399) % 400 / 100 = B at b2 ⊢
  generalize (y + 292277022399) % 100 / 4 = C at b3 ⊢
  generalize (y + 292277022399) % 4 = E at b4 ⊢
  omega

theorem norm_id (hi lo base : Int) (h0 : 0 ≤ lo) (h1 : lo < base) : norm hi lo base = (hi, lo) := by
  unfold norm
  simp [not_lt.mpr h0, not_le.mpr h1]

/-- `Date` in UTC on fields that need no normalising: the days since the
absolute epoch times the seconds of a day, plus the seconds of the clock, moved
to the internal epoch. -/
theorem Date_utc (y m d : Nat) (hour min sec nsec : Int) (h1 : 1 ≤ m) (h12 : m ≤ 12)
    (hd1 : 1 ≤ d) (hh : 0 ≤ hour ∧ hour < 24) (hmi : 0 ≤ min ∧ min < 60)
    (hs : 0 ≤ sec ∧ sec < 60) (hn : 0 ≤ nsec ∧ nsec < 1000000000) :
    Date y m d hour min sec nsec none
      = { sec := (((daysSinceEpoch (y : Int) + daysBefore (m - 1)
            + (if isLeap (y : Int) && decide (3 ≤ m) then 1 else 0) + (d - 1) : Nat) : Int) * 86400
            + (hour * 3600 + min * 60 + sec)) + absoluteToInternal,
          nsec := nsec, loc := none } := by
  unfold Date
  rw [norm_id (y : Int) ((m : Int) - 1) 12 (by omega) (by omega),
    norm_id sec nsec 1000000000 hn.1 hn.2]
  simp only []
  rw [norm_id min sec 60 hs.1 hs.2]
  simp only []
  rw [norm_id hour min 60 hmi.1 hmi.2]
  simp only []
  rw [norm_id (d : Int) hour 24 hh.1 hh.2]
  simp only [secondsPerDay, absoluteToInternal, internalToUnix, unixToInternal]
  have e1 : ((m : Int) - 1 + 1 - 1).toNat = m - 1 := by omega
  have e2 : (decide ((m : Int) - 1 + 1 ≥ 3)) = decide (3 ≤ m) := by
    by_cases h3 : 3 ≤ m
    · simp [h3]
    · simp [h3]
  rw [e1, e2]
  congr 1
  split <;> push_cast <;> omega

theorem abs_utc (N : Nat) (nsec : Int) (hN : N < 18446744073709551616) :
    Time.abs { sec := (N : Int) + absoluteToInternal, nsec := nsec, loc := none } = N := by
  simp only [Time.abs, Time.Unix, absoluteToInternal, internalToUnix, unixToInternal,
    internalToAbsolute]
  omega

/-- The date `absDate` reads from midnight UTC of a calendar date is that
date. -/
theorem absDate_Date (y m d : Nat) (hy : y < 10000) (hv : validDate y m d) :
    absDate (Time.abs (Date y m d 0 0 0 0 none)) = ((y : Int), m, d) := by
  obtain ⟨h1, h12, hd1, hdl⟩ := hv
  rw [daysIn_nat m y h1 h12] at hdl
  have hdl' : d ≤ (if m = 2 ∧ isLeap (y : Int) = true then 29
      else daysBefore m - daysBefore (m - 1)) := by exact_mod_cast hdl
  obtain ⟨hlt, hmd⟩ := monthDay_table (isLeap (y : Int)) m d h1 h12 hd1 hdl'
  have hb := daysSinceEpoch_lt y hy
  rw [Date_utc y m d 0 0 0 0 h1 h12 hd1 (by omega) (by omega) (by omega) (by omega)]
  generalize hyd : daysBefore (m - 1) + (if isLeap (y : Int) && decide (3 ≤ m) then 1 else 0)
    + (d - 1) = yd at hlt hmd
  have hyd' : yd < 365 ∨ (yd = 365 ∧ isLeap (y : Int) = true) := by
    cases hl : isLeap (y : Int)
    · rw [hl] at hlt; simp at hlt; left; omega
    · rw [hl] at hlt; simp at hlt
      by_cases h : yd < 365
      · exact Or.inl h
      · exact Or.inr ⟨by omega, rfl⟩
  have e : (((daysSinceEpoch (y : Int) + daysBefore (m - 1)
        + (if isLeap (y : Int) && decide (3 ≤ m) then 1 else 0) + (d - 1) : Nat) : Int) * 86400
        + (0 * 3600 + 0 * 60 + 0)) + absoluteToInternal
      = (((daysSinceEpoch (y : Int) + yd) * 86400 : Nat) : Int) + absoluteToInternal := by
    rw [← hyd]; push_cast; ring
  rw [e, abs_utc _ _ (by omega)]
  unfold absDate
  rw [Nat.mul_div_cancel _ (by omega : 0 < 86400), absYear_daysSinceEpoch y yd hy hyd']
  simp only [hmd]

theorem formatChunks_FullUSDateFormat (y m d hour min sec : Nat) (hm : m < 100) (hd : d < 100)
    (hy : y < 10000) :
    formatChunks FullUSDateFormat.chunks (y : Int) m d hour min sec = usDateText m d y := by
  simp only [FullUSDateFormat, formatChunks, formatStd, appendInt_two m hm, appendInt_two d hd,
    appendInt_four y hy, usDateText, List.append_nil, List.singleton_append]

/-- `String()` of midnight UTC of a calendar date is its text `MM/DD/YYYY`. -/
theorem USDate_String_Date (y m d : Nat) (hy : y < 10000) (hv : validDate y m d) :
    USDate.String (Date y m d 0 0 0 0 none) = String.mk (usDateText m d y) := by
  unfold USDate.String Time.Format
  simp only [absDate_Date y m d hy hv]
  rw [formatChunks_FullUSDateFormat y m d _ _ _ (by have := hv.2.1; omega)
    (validDate_day_lt y m d hv) hy]

theorem usDateText_ne_sentinels (y m d : Nat) (hy : y < 10000) (hv : validDate y m d) :
    String.mk (usDateText m d y) ≠ "0000-00-00" ∧ String.mk (usDateText m d y) ≠ "00/00/0000" := by
  constructor
  · intro h
    exact absurd (congrArg String.data h) (usDateText_ne_isoDateText m d y 0 0 0)
  · intro h
    have h0 : usDateText m d y = usDateText 0 0 0 := congrArg String.data h
    have := (usDateText_inj m d y 0 0 0 (by have := hv.2.1; omega) (validDate_day_lt y m d hv) hy
      (by omega) (by omega) (by omega) h0).1
    have := hv.1
    omega

/-! ### The primary layout -/

theorem clockText_ne_nil (h mi : Nat) (pm : Bool) : clockText h mi pm ≠ [] := by
  simp [clockText, pad2]

/-- `01/02/2006 03:04pm` accepts exactly: a calendar date `MM/DD/YYYY`, at
least one space, and `hh:mm` with `hh` at most 12, `mm` below 60, followed by
`am` or `pm`. -/
theorem ParseInLocation_USDateTimeFormat_iff (s : GoString) (loc : Option Location) (t : Time) :
    ParseInLocation USDateTimeFormat s loc = .ok t ↔
      ∃ (m d y h mi : Nat) (pm : Bool) (vs : List Char), validDate y m d ∧ y < 10000 ∧ h ≤ 12 ∧
        mi < 60 ∧ s.data = usDateText m d y ++ ' ' :: vs ∧ cutspace vs = clockText h mi pm ∧
        t = Date y m d (clockHour h pm (!pm)) mi 0 0 loc := by
  rw [ParseInLocation_ok_iff]
  simp only [USDateTimeFormat, parseLoop_usDate_iff]
  simp only [parseLoop_std_iff, parseLoop_lit_iff,
    parseLoop_nil_iff, parseStd_zeroHour12_iff, parseStd_zeroMinute_iff, parseStd_pm_iff,
    skip_char_iff ':' (by decide), skip_space_iff]
  constructor
  · rintro ⟨f, ⟨m, d, y, rest, hm, hd, hy, hs, r1, hsp, f1, r2, ⟨h, hh, rfl, rfl⟩, r3, hc, f2, r4,
      ⟨mi, hmi, rfl, rfl⟩, f3, r5, hpm, rfl, rfl⟩, hf⟩
    rcases hsp with ⟨-, hnil⟩ | ⟨vs, rfl, hcut⟩
    · exact absurd hnil (by simp [pad2])
    · rw [finish_ok_iff _ _ _ (by
          rcases hpm with ⟨-, rfl⟩ | ⟨-, rfl⟩ <;> simp [Fields.init]) (by
          rcases hpm with ⟨-, rfl⟩ | ⟨-, rfl⟩ <;> simp [Fields.init])] at hf
      rcases hpm with ⟨rfl, rfl⟩ | ⟨rfl, rfl⟩
      · simp only [Fields.init] at hf
        refine ⟨m, d, y, h, mi, true, vs, ⟨by omega, hm.2, by omega, hf.1.2⟩, hy, hh, hmi, hs, ?_,
          hf.2⟩
        rw [← hcut, hc]; simp [clockText]
      · simp only [Fields.init] at hf
        refine ⟨m, d, y, h, mi, false, vs, ⟨by omega, hm.2, by omega, hf.1.2⟩, hy, hh, hmi, hs, ?_,
          hf.2⟩
        rw [← hcut, hc]; simp [clockText]
  · rintro ⟨m, d, y, h, mi, pm, vs, hv, hy, hh, hmi, hs, hcut, rfl⟩
    cases pm
    · refine ⟨_, ⟨m, d, y, ' ' :: vs, ⟨by have := hv.1; omega, hv.2.1⟩, validDate_day_lt y m d hv,
        hy, hs, _, Or.inr ⟨vs, rfl, rfl⟩, _, _, ⟨h, hh, ?_, rfl⟩, _, rfl, _, _,
        ⟨mi, hmi, rfl, rfl⟩, _, _, Or.inr ⟨rfl, rfl⟩, rfl, rfl⟩, ?_⟩
      · rw [hcut]; simp [clockText]
      · rw [finish_ok_iff _ _ _ (by simp [Fields.init]) (by simp [Fields.init])]
        simp only [Fields.init]
        exact ⟨⟨by have := hv.2.2.1; omega, hv.2.2.2⟩, rfl⟩
    · refine ⟨_, ⟨m, d, y, ' ' :: vs, ⟨by have := hv.1; omega, hv.2.1⟩, validDate_day_lt y m d hv,
        hy, hs, _, Or.inr ⟨vs, rfl, rfl⟩, _, _, ⟨h, hh, ?_, rfl⟩, _, rfl, _, _,
        ⟨mi, hmi, rfl, rfl⟩, _, _, Or.inl ⟨rfl, rfl⟩, rfl, rfl⟩, ?_⟩
      · rw [hcut]; simp [clockText]
      · rw [finish_ok_iff _ _ _ (by simp [Fields.init]) (by simp [Fields.init])]
        simp only [Fields.init]
        exact ⟨⟨by have := hv.2.2.1; omega, hv.2.2.2⟩, rfl⟩

/-! ### The regular expression -/

theorem mem_run_char (c : Char) (st st' : Nat × List Char) :
    st' ∈ (Regexp.char c).run st ↔ st.2 = c :: st'.2 ∧ st'.1 = st.1 + 1 := by
  obtain ⟨n, l⟩ := st
  obtain ⟨n', l'⟩ := st'
  cases l with
  | nil => simp [Regexp.run]
  | cons x xs =>
    by_cases hx : x = c
    · subst hx
      simp [Regexp.run, eq_comm, and_comm]
    · simp [Regexp.run, hx]

theorem mem_run_range (lo hi : Char) (st st' : Nat × List Char) :
    st' ∈ (Regexp.range lo hi).run st ↔
      ∃ x, st.2 = x :: st'.2 ∧ lo.toNat ≤ x.toNat ∧ x.toNat ≤ hi.toNat ∧ st'.1 = st.1 + 1 := by
  obtain ⟨n, l⟩ := st
  obtain ⟨n', l'⟩ := st'
  cases l with
  | nil => simp [Regexp.run]
  | cons x xs =>
    by_cases hx : lo.toNat ≤ x.toNat ∧ x.toNat ≤ hi.toNat
    · simp only [Regexp.run, hx, and_self, if_true, List.mem_singleton, Prod.mk.injEq,
        List.cons.injEq]
      constructor
      · rintro ⟨rfl, rfl⟩
        exact ⟨x, ⟨rfl, rfl⟩, hx.1, hx.2, rfl⟩
      · rintro ⟨x', ⟨rfl, rfl⟩, -, -, rfl⟩
        exact ⟨rfl, rfl⟩
    · simp only [Regexp.run, hx, if_false, List.not_mem_nil, List.cons.injEq, false_iff, not_exists,
        not_and]
      rintro x' ⟨rfl, rfl⟩ h1 h2
      exact absurd ⟨h1, h2⟩ hx

theorem mem_run_cat (a b : Regexp) (st st' : Nat × List Char) :
    st' ∈ (Regexp.cat a b).run st ↔ ∃ mid, mid ∈ a.run st ∧ st' ∈ b.run mid := by
  simp [Regexp.run, List.mem_flatMap]

theorem mem_run_alt (a b : Regexp) (st st' : Nat × List Char) :
    st' ∈ (Regexp.alt a b).run st ↔ st' ∈ a.run st ∨ st' ∈ b.run st := by
  simp [Regexp.run]

theorem mem_run_opt (a : Regexp) (st st' : Nat × List Char) :
    st' ∈ (Regexp.opt a).run st ↔ st' ∈ a.run st ∨ st' = st := by
  simp [Regexp.run]

theorem mem_run_bol (st st' : Nat × List Char) :
    st' ∈ Regexp.bol.run st ↔ st.1 = 0 ∧ st' = st := by
  by_cases h : st.1 = 0 <;> simp [Regexp.run, h]

theorem mem_run_eol (st st' : Nat × List Char) :
    st' ∈ Regexp.eol.run st ↔ st.2 = [] ∧ st' = st := by
  by_cases h : st.2 = [] <;> simp [Regexp.run, h]

theorem hasMatch_iff (re : Regexp) (s : List Char) :
    re.hasMatch s = true ↔ ∃ i st', i ≤ s.length ∧ st' ∈ re.run (i, s.drop i) := by
  simp only [Regexp.hasMatch, List.any_eq_true, List.mem_range, Bool.not_eq_true',
    List.isEmpty_eq_false]
  constructor
  · rintro ⟨i, hi, hne⟩
    obtain ⟨st', hst⟩ := List.exists_mem_of_ne_nil _ hne
    exact ⟨i, st', by omega, hst⟩
  · rintro ⟨i, st', hi, hst⟩
    exact ⟨i, by omega, List.ne_nil_of_mem hst⟩

/-- A two-digit number is matched by `[a-b][c-d]` when its digits are in the
ranges. -/
theorem mem_run_two_digits (lo1 hi1 lo2 hi2 : Char) (k n : Nat) (rest : List Char)
    (hk : k < 100) (h1 : lo1.toNat ≤ 48 + k / 10 ∧ 48 + k / 10 ≤ hi1.toNat)
    (h2 : lo2.toNat ≤ 48 + k % 10 ∧ 48 + k % 10 ≤ hi2.toNat) :
    (n + 2, rest) ∈ (Regexp.cat (.range lo1 hi1) (.range lo2 hi2)).run (n, pad2 k ++ rest) := by
  rw [mem_run_cat]
  refine ⟨(n + 1, utod (k % 10) :: rest), ?_, ?_⟩
  · rw [mem_run_range]
    exact ⟨utod (k / 10), rfl, by rw [utod_toNat _ (by omega)]; exact h1.1,
      by rw [utod_toNat _ (by omega)]; exact h1.2, rfl⟩
  · rw [mem_run_range]
    exact ⟨utod (k % 10), rfl, by rw [utod_toNat _ (by omega)]; exact h2.1,
      by rw [utod_toNat _ (by omega)]; exact h2.2, rfl⟩

/-- The hour part `(0[0-9]|1[0-2])` matches every two-digit hour up to 12. -/
theorem mem_run_hour12 (h n : Nat) (rest : List Char) (hh : h ≤ 12) :
    (n + 2, rest) ∈ rxHour12.run (n, pad2 h ++ rest) := by
  unfold rxHour12
  rw [mem_run_alt]
  by_cases h9 : h ≤ 9
  · left
    unfold rxTens
    rw [mem_run_cat]
    refine ⟨(n + 1, utod (h % 10) :: rest), ?_, ?_⟩
    · rw [mem_run_char]
      have : h / 10 = 0 := by omega
      simp [pad2, this]; rfl
    · rw [mem_run_range]
      exact ⟨utod (h % 10), rfl, by rw [utod_toNat _ (by omega)]; show 48 ≤ _; omega,
        by rw [utod_toNat _ (by omega)]; show _ ≤ 57; omega, rfl⟩
  · right
    rw [mem_run_cat]
    refine ⟨(n + 1, utod (h % 10) :: rest), ?_, ?_⟩
    · rw [mem_run_char]
      have : h / 10 = 1 := by omega
      simp [pad2, this]; rfl
    · rw [mem_run_range]
      exact ⟨utod (h % 10), rfl, by rw [utod_toNat _ (by omega)]; show 48 ≤ _; omega,
        by rw [utod_toNat _ (by omega)]; show _ ≤ 50; omega, rfl⟩

/-- The minute part `[0-5][0-9]` matches every two-digit number below 60. -/
theorem mem_run_sixty (k n : Nat) (rest : List Char) (hk : k < 60) :
    (n + 2, rest) ∈ rxSixty.run (n, pad2 k ++ rest) := by
  unfold rxSixty
  refine mem_run_two_digits '0' '5' '0' '9' k n rest (by omega) ⟨?_, ?_⟩ ⟨?_, ?_⟩
  · show 48 ≤ _; omega
  · show _ ≤ 53; omega
  · show 48 ≤ _; omega
  · show _ ≤ 57; omega

/-- The first alternative of the pattern matches `hh:mm` with `hh` up to 12 and
`mm` below 60, followed by `am` or `pm`, at the start of the text, whatever
follows. -/
theorem mem_run_rxUSDateTimeAmPm (h mi : Nat) (pm : Bool) (rest : List Char) (hh : h ≤ 12)
    (hmi : mi < 60) :
    (7, rest) ∈ rxUSDateTimeAmPm.run (0, clockText h mi pm ++ rest) := by
  unfold rxUSDateTimeAmPm
  simp only [Regexp.seq, mem_run_cat]
  refine ⟨(0, clockText h mi pm ++ rest), ?_, (2, ':' :: (pad2 mi ++ [if pm then 'p' else 'a', 'm'] ++ rest)), ?_,
    (3, pad2 mi ++ ([if pm then 'p' else 'a', 'm'] ++ rest)), ?_,
    (5, [if pm then 'p' else 'a', 'm'] ++ rest), ?_, (7, rest), ?_, ?_⟩
  · rw [mem_run_bol]; exact ⟨rfl, rfl⟩
  · have := mem_run_hour12 h 0 (':' :: (pad2 mi ++ [if pm then 'p' else 'a', 'm'] ++ rest)) hh
    simpa [clockText] using this
  · rw [mem_run_char]; simp
  · exact mem_run_sixty mi 3 _ hmi
  · unfold rxAmPm
    rw [mem_run_alt]
    cases pm
    · left
      rw [mem_run_cat]
      exact ⟨(6, 'm' :: rest), by rw [mem_run_char]; simp, by rw [mem_run_char]; exact ⟨rfl, rfl⟩⟩
    · right
      rw [mem_run_cat]
      exact ⟨(6, 'm' :: rest), by rw [mem_run_char]; simp, by rw [mem_run_char]; exact ⟨rfl, rfl⟩⟩
  · rw [mem_run_opt]; exact Or.inr rfl

theorem hasMatch_clockText (h mi : Nat) (pm : Bool) (hh : h ≤ 12) (hmi : mi < 60) :
    rxUSDateTime.hasMatch (clockText h mi pm) = true := by
  rw [hasMatch_iff]
  refine ⟨0, (7, []), by omega, ?_⟩
  unfold rxUSDateTime
  rw [mem_run_alt]
  left
  have := mem_run_rxUSDateTimeAmPm h mi pm [] hh hmi
  simpa using this

/-! ### Splitting at the first space -/

theorem takeWhile_noSpace (a b : List Char) (ha : ∀ c ∈ a, c ≠ ' ') :
    (a ++ ' ' :: b).takeWhile (fun c => c != ' ') = a ∧
      (a ++ ' ' :: b).dropWhile (fun c => c != ' ') = ' ' :: b := by
  induction a with
  | nil => simp
  | cons x xs ih =>
    have hx : x ≠ ' ' := ha x (List.mem_cons_self _ _)
    have := ih (fun c hc => ha c (List.mem_cons_of_mem _ hc))
    simp [List.takeWhile_cons, List.dropWhile_cons, hx, this]

theorem span_noSpace (a : List Char) (ha : ∀ c ∈ a, c ≠ ' ') :
    a.span (fun c => c != ' ') = (a, []) := by
  rw [List.span_eq_take_drop]
  have h1 : a.takeWhile (fun c => c != ' ') = a :=
    List.takeWhile_eq_self_iff.mpr (fun c hc => by simpa using ha c hc)
  have h2 : a.dropWhile (fun c => c != ' ') = [] :=
    List.dropWhile_eq_nil_iff.mpr (fun c hc => by simpa using ha c hc)
  rw [h1, h2]

theorem span_atSpace (a b : List Char) (ha : ∀ c ∈ a, c ≠ ' ') :
    (a ++ ' ' :: b).span (fun c => c != ' ') = (a, ' ' :: b) := by
  rw [List.span_eq_take_drop, (takeWhile_noSpace a b ha).1, (takeWhile_noSpace a b ha).2]

theorem splitSpace_noSpace (s : GoString) (h : ∀ c ∈ s.data, c ≠ ' ') : splitSpace s = [s] := by
  unfold splitSpace
  rw [span_noSpace s.data h]

theorem splitSpace_atSpace (s : GoString) (a b : List Char) (hs : s.data = a ++ ' ' :: b)
    (ha : ∀ c ∈ a, c ≠ ' ') : splitSpace s = [String.mk a, String.mk b] := by
  unfold splitSpace
  rw [hs, span_atSpace a b ha]

theorem four_le_utf8ByteSize (s : GoString) (h : 4 ≤ s.data.length) : ¬ s.utf8ByteSize < 4 := by
  have := length_le_utf8go s.data
  have e : s.utf8ByteSize = String.utf8ByteSize.go s.data := by
    rcases s with ⟨l⟩; rfl
  omega

/-- A text of at least four characters without a space is a date-time exactly
when it is a date. -/
theorem IsUSDateTime_noSpace (s : GoString) (h : ∀ c ∈ s.data, c ≠ ' ')
    (hl : 4 ≤ s.data.length) : IsUSDateTime s = IsUSDate s := by
  unfold IsUSDateTime
  rw [if_neg (four_le_utf8ByteSize s hl), splitSpace_noSpace s h]
  cases hd : IsUSDate s <;> simp [hd]

/-- A text with a first space is a date-time exactly when the part before the
space is a date and the pattern matches in the part after it. -/
theorem IsUSDateTime_atSpace (s : GoString) (a b : List Char) (hs : s.data = a ++ ' ' :: b)
    (ha : ∀ c ∈ a, c ≠ ' ') (hl : 4 ≤ s.data.length) :
    IsUSDateTime s = (IsUSDate (String.mk a) && rxUSDateTime.hasMatch b) := by
  unfold IsUSDateTime
  rw [if_neg (four_le_utf8ByteSize s hl), splitSpace_atSpace s a b hs ha]
  cases hd : IsUSDate (String.mk a) <;> simp [hd]

theorem noSpace_pad2 (k : Nat) (hk : k < 100) : ∀ c ∈ pad2 k, c ≠ ' ' := by
  intro c hc
  simp only [pad2, List.mem_cons, List.mem_singleton, List.not_mem_nil, or_false] at hc
  rcases hc with rfl | rfl
  · exact utod_ne_space _ (by omega)
  · exact utod_ne_space _ (by omega)

theorem noSpace_pad4 (k : Nat) (hk : k < 10000) : ∀ c ∈ pad4 k, c ≠ ' ' := by
  intro c hc
  simp only [pad4, List.mem_cons, List.mem_singleton, List.not_mem_nil, or_false] at hc
  rcases hc with rfl | rfl | rfl | rfl <;> exact utod_ne_space _ (by omega)

theorem noSpace_usDateText (m d y : Nat) (hm : m < 100) (hd : d < 100) (hy : y < 10000) :
    ∀ c ∈ usDateText m d y, c ≠ ' ' := by
  intro c hc
  simp only [usDateText, List.mem_append, List.mem_cons] at hc
  rcases hc with hc | rfl | hc | rfl | hc
  · exact noSpace_pad2 m hm c hc
  · decide
  · exact noSpace_pad2 d hd c hc
  · decide
  · exact noSpace_pad4 y hy c hc

theorem noSpace_isoDateText (m d y : Nat) (hm : m < 100) (hd : d < 100) (hy : y < 10000) :
    ∀ c ∈ isoDateText y m d, c ≠ ' ' := by
  intro c hc
  simp only [isoDateText, List.mem_append, List.mem_cons] at hc
  rcases hc with hc | rfl | hc | rfl | hc
  · exact noSpace_pad4 y hy c hc
  · decide
  · exact noSpace_pad2 m hm c hc
  · decide
  · exact noSpace_pad2 d hd c hc

theorem length_usDateText (m d y : Nat) : (usDateText m d y).length = 10 := by
  simp [usDateText, pad2, pad4]

theorem length_isoDateText (m d y : Nat) : (isoDateText y m d).length = 10 := by
  simp [isoDateText, pad2, pad4]

theorem length_clockText (h mi : Nat) (pm : Bool) : (clockText h mi pm).length = 7 := by
  simp [clockText, pad2]

/-- Cutting leading spaces that leaves the length unchanged cuts nothing. -/
theorem cutspace_eq_self (vs : List Char) (h : (cutspace vs).length = vs.length) :
    cutspace vs = vs := by
  have hsuf : cutspace vs <:+ vs := List.dropWhile_suffix _
  exact hsuf.eq_of_length h

/-! ### The loop over the layouts -/

theorem parseUSLayouts_ok (data : GoString) (pst : Location) (layouts : List Layout)
    (e : Option Error) (layout : Layout) (hmem : layout ∈ layouts) (t : Time)
    (hok : ParseInLocation layout data (some pst) = .ok t) :
    (parseUSLayouts data pst layouts e).2 = none := by
  induction layouts generalizing e with
  | nil => simp at hmem
  | cons l ls ih =>
    unfold parseUSLayouts
    cases hl : ParseInLocation l data (some pst) with
    | ok dd => rfl
    | error err =>
      rcases List.mem_cons.mp hmem with rfl | hm
      · rw [hok] at hl; exact absurd hl (by simp)
      · exact ih _ hm

theorem finish_eq (f : Fields) (loc : Option Location) :
    finish f loc =
      if (decide ((if f.day < 0 then 1 else f.day) < 1)
          || decide ((if f.day < 0 then 1 else f.day)
              > daysIn (if f.month < 0 then 1 else f.month) f.year)) = true
      then .error .dayOutOfRange
      else .ok (Date f.year (if f.month < 0 then 1 else f.month) (if f.day < 0 then 1 else f.day)
        (clockHour f.hour f.pmSet f.amSet) f.min f.sec f.nsec loc) :=
  rfl

theorem finish_ok_any_loc (f : Fields) (loc loc' : Option Location) (t : Time)
    (h : finish f loc = .ok t) : ∃ t', finish f loc' = .ok t' := by
  rw [finish_eq] at h ⊢
  generalize (decide ((if f.day < 0 then 1 else f.day) < 1)
          || decide ((if f.day < 0 then 1 else f.day)
              > daysIn (if f.month < 0 then 1 else f.month) f.year)) = c at h ⊢
  cases c
  · exact ⟨_, rfl⟩
  · exact absurd h (by simp)

/-- Whether a layout parses a text does not depend on the location. -/
theorem ParseInLocation_ok_any_loc (layout : Layout) (s : GoString) (loc loc' : Option Location)
    (t : Time) (h : ParseInLocation layout s loc = .ok t) :
    ∃ t', ParseInLocation layout s loc' = .ok t' := by
  rw [ParseInLocation_ok_iff] at h
  obtain ⟨f, hf, hfin⟩ := h
  obtain ⟨t', ht'⟩ := finish_ok_any_loc f loc loc' t hfin
  exact ⟨t', (ParseInLocation_ok_iff layout s loc' _).mpr ⟨f, hf, ht'⟩⟩

theorem ParseUSDateTime_ok_of_layout (pst : Location) (s : GoString) (layout : Layout)
    (hmem : layout ∈ usDateTimeFormats) (t : Time)
    (hok : ParseInLocation layout s (some pst) = .ok t) :
    (ParseUSDateTime (.ok pst) s).2 = none := by
  unfold ParseUSDateTime
  split
  · rfl
  · exact parseUSLayouts_ok s pst usDateTimeFormats none layout hmem t hok

theorem IsUSDate_usDateText (m d y : Nat) (hv : validDate y m d) (hy : y < 10000) :
    IsUSDate (String.mk (usDateText m d y)) = true :=
  (IsUSDate_iff_text _).mpr (Or.inr ⟨m, d, y, hv, hy, Or.inl rfl⟩)

theorem IsUSDate_isoDateText (m d y : Nat) (hv : validDate y m d) (hy : y < 10000) :
    IsUSDate (String.mk (isoDateText y m d)) = true :=
  (IsUSDate_iff_text _).mpr (Or.inr ⟨m, d, y, hv, hy, Or.inr rfl⟩)

/-- What `c[x-y]` matches: the character `c` and a character in the range. -/
theorem mem_run_char_range (c lo hi : Char) (st st' : Nat × List Char) :
    st' ∈ (Regexp.cat (.char c) (.range lo hi)).run st ↔
      ∃ b, st.2 = c :: b :: st'.2 ∧ st'.1 = st.1 + 2 ∧ lo.toNat ≤ b.toNat ∧ b.toNat ≤ hi.toNat := by
  simp only [mem_run_cat, mem_run_char, mem_run_range]
  constructor
  · rintro ⟨mid, ⟨h1, h2⟩, b, h3, h4, h5, h6⟩
    exact ⟨b, by rw [h1, h3], by omega, h4, h5⟩
  · rintro ⟨b, h1, h2, h3, h4⟩
    exact ⟨(st.1 + 1, b :: st'.2), ⟨h1, rfl⟩, b, rfl, h3, h4, h2⟩

/-- What `[u-v][x-y]` matches: two characters in the ranges. -/
theorem mem_run_range_range (lo1 hi1 lo2 hi2 : Char) (st st' : Nat × List Char) :
    st' ∈ (Regexp.cat (.range lo1 hi1) (.range lo2 hi2)).run st ↔
      ∃ a b, st.2 = a :: b :: st'.2 ∧ st'.1 = st.1 + 2 ∧
        (lo1.toNat ≤ a.toNat ∧ a.toNat ≤ hi1.toNat) ∧ lo2.toNat ≤ b.toNat ∧ b.toNat ≤ hi2.toNat := by
  simp only [mem_run_cat, mem_run_range]
  constructor
  · rintro ⟨mid, ⟨a, h1, h2, h3, h4⟩, b, h5, h6, h7, h8⟩
    exact ⟨a, b, by rw [h1, h5], by omega, ⟨h2, h3⟩, h6, h7⟩
  · rintro ⟨a, b, h1, h2, ⟨h3, h4⟩, h5, h6⟩
    exact ⟨(st.1 + 1, b :: st'.2), ⟨a, h1, h3, h4, rfl⟩, b, rfl, h5, h6, h2⟩

theorem mem_run_char_char (c1 c2 : Char) (st st' : Nat × List Char) :
    st' ∈ (Regexp.cat (.char c1) (.char c2)).run st ↔
      st.2 = c1 :: c2 :: st'.2 ∧ st'.1 = st.1 + 2 := by
  simp only [mem_run_cat, mem_run_char]
  constructor
  · rintro ⟨mid, ⟨h1, h2⟩, h3, h4⟩
    exact ⟨by rw [h1, h3], by omega⟩
  · rintro ⟨h1, h2⟩
    exact ⟨(st.1 + 1, c2 :: st'.2), ⟨h1, rfl⟩, rfl, h2⟩

theorem mem_run_rxHour12_iff (st st' : Nat × List Char) :
    st' ∈ rxHour12.run st ↔ ∃ a b, st.2 = a :: b :: st'.2 ∧ st'.1 = st.1 + 2 ∧ isHour12 a b := by
  simp only [rxHour12, mem_run_alt, rxTens, mem_run_char_range, isHour12]
  constructor
  · rintro (⟨b, h1, h2, h3, h4⟩ | ⟨b, h1, h2, h3, h4⟩)
    · exact ⟨'0', b, h1, h2, Or.inl ⟨rfl, h3, h4⟩⟩
    · exact ⟨'1', b, h1, h2, Or.inr ⟨rfl, h3, h4⟩⟩
  · rintro ⟨a, b, h1, h2, (⟨rfl, h3, h4⟩ | ⟨rfl, h3, h4⟩)⟩
    · exact Or.inl ⟨b, h1, h2, h3, h4⟩
    · exact Or.inr ⟨b, h1, h2, h3, h4⟩

theorem mem_run_rxHour24_iff (st st' : Nat × List Char) :
    st' ∈ rxHour24.run st ↔ ∃ a b, st.2 = a :: b :: st'.2 ∧ st'.1 = st.1 + 2 ∧ isHour24 a b := by
  simp only [rxHour24, rxHour12, mem_run_alt, rxTens, mem_run_char_range, isHour24]
  constructor
  · rintro ((⟨b, h1, h2, h3, h4⟩ | ⟨b, h1, h2, h3, h4⟩) | ⟨b, h1, h2, h3, h4⟩)
    · exact ⟨'0', b, h1, h2, Or.inl rfl, h3, h4⟩
    · exact ⟨'1', b, h1, h2, Or.inr rfl, h3, le_trans h4 (by decide)⟩
    · exact ⟨'1', b, h1, h2, Or.inr rfl, h3, h4⟩
  · rintro ⟨a, b, h1, h2, (rfl | rfl), h3, h4⟩
    · exact Or.inl (Or.inl ⟨b, h1, h2, h3, h4⟩)
    · exact Or.inr ⟨b, h1, h2, h3, h4⟩

theorem mem_run_rxSixty_iff (st st' : Nat × List Char) :
    st' ∈ rxSixty.run st ↔ ∃ a b, st.2 = a :: b :: st'.2 ∧ st'.1 = st.1 + 2 ∧ isSixty a b := by
  simp only [rxSixty, mem_run_range_range, isSixty]
  rfl

theorem mem_run_rxAmPm_iff (st st' : Nat × List Char) :
    st' ∈ rxAmPm.run st ↔
      ∃ p, (p = 'a' ∨ p = 'p') ∧ st.2 = p :: 'm' :: st'.2 ∧ st'.1 = st.1 + 2 := by
  simp only [rxAmPm, mem_run_alt, mem_run_char_char]
  constructor
  · rintro (⟨h1, h2⟩ | ⟨h1, h2⟩)
    · exact ⟨'a', Or.inl rfl, h1, h2⟩
    · exact ⟨'p', Or.inr rfl, h1, h2⟩
  · rintro ⟨p, (rfl | rfl), h1, h2⟩
    · exact Or.inl ⟨h1, h2⟩
    · exact Or.inr ⟨h1, h2⟩

theorem exists_run_rxUSDateTimeAmPm_iff (i : Nat) (l : List Char) :
    (∃ st', st' ∈ rxUSDateTimeAmPm.run (i, l)) ↔ i = 0 ∧ startsAmPm l := by
  simp only [rxUSDateTimeAmPm, Regexp.seq, mem_run_cat, mem_run_bol, mem_run_rxHour12_iff,
    mem_run_rxSixty_iff, mem_run_char, mem_run_rxAmPm_iff, mem_run_opt, startsAmPm]
  constructor
  · rintro ⟨st', mid, ⟨h0, rfl⟩, m1, ⟨a, b, e1, -, hab⟩, m2, ⟨e2, -⟩, m3, ⟨c, d, e3, -, hcd⟩, m4,
      ⟨p, hp, e4, -⟩, -⟩
    exact ⟨h0, a, b, c, d, p, m4.2, by simp only [] at e1; rw [e1, e2, e3, e4], hab, hcd, hp⟩
  · rintro ⟨rfl, a, b, c, d, p, rest, rfl, hab, hcd, hp⟩
    exact ⟨(7, rest), (0, _), ⟨rfl, rfl⟩, (2, ':' :: c :: d :: p :: 'm' :: rest),
      ⟨a, b, rfl, rfl, hab⟩, (3, c :: d :: p :: 'm' :: rest), ⟨rfl, rfl⟩,
      (5, p :: 'm' :: rest), ⟨c, d, rfl, rfl, hcd⟩, (7, rest), ⟨p, hp, rfl, rfl⟩, Or.inr rfl⟩

theorem exists_run_rxUSDateTime24_iff (i : Nat) (l : List Char) :
    (∃ st', st' ∈ rxUSDateTime24.run (i, l)) ↔
      ∃ a b c d, isHour24 a b ∧ isSixty c d ∧
        (l = [a, b, ':', c, d, ':'] ∨ ∃ e f, isSixty e f ∧ l = [a, b, ':', c, d, ':', e, f]) := by
  simp only [rxUSDateTime24, Regexp.seq, mem_run_cat, mem_run_eol, mem_run_rxHour24_iff,
    mem_run_rxSixty_iff, mem_run_char, mem_run_opt]
  constructor
  · rintro ⟨st', m1, ⟨a, b, e1, -, hab⟩, m2, ⟨e2, -⟩, m3, ⟨c, d, e3, -, hcd⟩, m4, ⟨e4, -⟩, m5,
      hopt, hnil, -⟩
    refine ⟨a, b, c, d, hab, hcd, ?_⟩
    rcases hopt with ⟨e, f, e5, -, hef⟩ | rfl
    · right
      exact ⟨e, f, hef, by rw [e1, e2, e3, e4, e5, hnil]⟩
    · left
      rw [e1, e2, e3, e4, hnil]
  · rintro ⟨a, b, c, d, hab, hcd, (rfl | ⟨e, f, hef, rfl⟩)⟩
    · exact ⟨(i + 6, []), (i + 2, [':', c, d, ':']), ⟨a, b, rfl, rfl, hab⟩, (i + 3, [c, d, ':']),
        ⟨rfl, rfl⟩, (i + 5, [':']), ⟨c, d, rfl, rfl, hcd⟩, (i + 6, []), ⟨rfl, rfl⟩, (i + 6, []),
        Or.inr rfl, rfl, rfl⟩
    · exact ⟨(i + 8, []), (i + 2, [':', c, d, ':', e, f]), ⟨a, b, rfl, rfl, hab⟩,
        (i + 3, [c, d, ':', e, f]), ⟨rfl, rfl⟩, (i + 5, [':', e, f]), ⟨c, d, rfl, rfl, hcd⟩,
        (i + 6, [e, f]), ⟨rfl, rfl⟩, (i + 8, []), Or.inl ⟨e, f, rfl, rfl, hef⟩, rfl, rfl⟩

/-- What the validator's pattern finds: a text that starts with an am/pm time
or ends with a 24-hour time. -/
theorem hasMatch_rxUSDateTime_iff (s : List Char) :
    rxUSDateTime.hasMatch s = true ↔ startsAmPm s ∨ ends24 s := by
  rw [hasMatch_iff]
  simp only [rxUSDateTime, mem_run_alt]
  constructor
  · rintro ⟨i, st', hi, (h | h)⟩
    · obtain ⟨rfl, hs⟩ := (exists_run_rxUSDateTimeAmPm_iff i _).mp ⟨st', h⟩
      exact Or.inl (by simpa using hs)
    · obtain ⟨a, b, c, d, hab, hcd, hl⟩ := (exists_run_rxUSDateTime24_iff i _).mp ⟨st', h⟩
      right
      refine ⟨s.take i, a, b, c, d, hab, hcd, ?_⟩
      rcases hl with hl | ⟨e, f, hef, hl⟩
      · left; rw [← hl, List.take_append_drop]
      · right; exact ⟨e, f, hef, by rw [← hl, List.take_append_drop]⟩
  · rintro (h | ⟨pre, a, b, c, d, hab, hcd, hl⟩)
    · obtain ⟨st', hst⟩ := (exists_run_rxUSDateTimeAmPm_iff 0 s).mpr ⟨rfl, h⟩
      exact ⟨0, st', by omega, Or.inl (by simpa using hst)⟩
    · rcases hl with rfl | ⟨e, f, hef, rfl⟩
      · obtain ⟨st', hst⟩ := (exists_run_rxUSDateTime24_iff pre.length [a, b, ':', c, d, ':']).mpr
          ⟨a, b, c, d, hab, hcd, Or.inl rfl⟩
        exact ⟨pre.length, st', by simp, Or.inr (by simpa using hst)⟩
      · obtain ⟨st', hst⟩ := (exists_run_rxUSDateTime24_iff pre.length
          [a, b, ':', c, d, ':', e, f]).mpr ⟨a, b, c, d, hab, hcd, Or.inr ⟨e, f, hef, rfl⟩⟩
        exact ⟨pre.length, st', by simp, Or.inr (by simpa using hst)⟩

/-! ### From characters to numbers -/

theorem digit_of_toNat (b : Char) (h1 : 48 ≤ b.toNat) (h2 : b.toNat ≤ 57) :
    ∃ k, k < 10 ∧ b = utod k ∧ b.toNat = 48 + k :=
  have hd : isDigitChar b = true := by
    simp only [isDigitChar, Bool.and_eq_true, decide_eq_true_eq]; exact ⟨h1, h2⟩
  let ⟨k, hk, e⟩ := (isDigitChar_iff b).mp hd
  ⟨k, hk, e, by rw [e, utod_toNat k hk]⟩

theorem pad2_of_isHour12 (a b : Char) (h : isHour12 a b) : ∃ k, k ≤ 12 ∧ [a, b] = pad2 k := by
  rcases h with ⟨rfl, h1, h2⟩ | ⟨rfl, h1, h2⟩
  · obtain ⟨k, hk, rfl, -⟩ := digit_of_toNat b h1 h2
    refine ⟨k, by omega, ?_⟩
    have e1 : k / 10 = 0 := by omega
    have e2 : k % 10 = k := by omega
    simp only [pad2, e1, e2]; rfl
  · obtain ⟨k, hk, rfl, hn⟩ := digit_of_toNat b h1 (by omega)
    refine ⟨10 + k, by omega, ?_⟩
    have e1 : (10 + k) / 10 = 1 := by omega
    have e2 : (10 + k) % 10 = k := by omega
    simp only [pad2, e1, e2]; rfl

theorem pad2_of_isHour24 (a b : Char) (h : isHour24 a b) : ∃ k, k ≤ 19 ∧ [a, b] = pad2 k := by
  obtain ⟨ha, h1, h2⟩ := h
  obtain ⟨k, hk, rfl, -⟩ := digit_of_toNat b h1 h2
  rcases ha with rfl | rfl
  · refine ⟨k, by omega, ?_⟩
    have e1 : k / 10 = 0 := by omega
    have e2 : k % 10 = k := by omega
    simp only [pad2, e1, e2]; rfl
  · refine ⟨10 + k, by omega, ?_⟩
    have e1 : (10 + k) / 10 = 1 := by omega
    have e2 : (10 + k) % 10 = k := by omega
    simp only [pad2, e1, e2]; rfl

theorem pad2_of_isSixty (a b : Char) (h : isSixty a b) : ∃ k, k < 60 ∧ [a, b] = pad2 k := by
  obtain ⟨⟨h1, h2⟩, h3, h4⟩ := h
  obtain ⟨x, hx, rfl, hxn⟩ := digit_of_toNat a h1 (by omega)
  obtain ⟨y, hy, rfl, -⟩ := digit_of_toNat b h3 h4
  refine ⟨10 * x + y, by omega, ?_⟩
  have e1 : (10 * x + y) / 10 = x := by omega
  have e2 : (10 * x + y) % 10 = y := by omega
  simp only [pad2, e1, e2]

/-! ### The 24-hour layout -/

theorem parseStd_hour_pad2 (f : Fields) (k : Nat) (rest : List Char) (hk : k < 24) :
    parseStd .stdHour f (pad2 k ++ rest) = .ok ({ f with hour := k }, rest) := by
  obtain ⟨h1, h2, h3⟩ := pad2_digits k (by omega)
  have hg : getnum (pad2 k ++ rest) false = .ok ((k : Int), rest) := by
    simp [getnum, isDigit, digitAt, pad2, h1, h2, h3]
  simp only [parseStd, hg]
  rw [if_neg]
  simp only [Bool.or_eq_true, decide_eq_true_eq, not_or, not_le, not_lt]
  omega

theorem parseStd_zeroSecond_pad2 (f : Fields) (k : Nat) (hk : k < 60) :
    parseStd .stdZeroSecond f (pad2 k) = .ok ({ f with sec := k }, []) := by
  have hg : getnum (pad2 k) true = .ok ((k : Int), []) :=
    (getnum_fixed_ok_iff _ _ _).mpr ⟨k, by omega, by simp, rfl⟩
  simp only [parseStd, hg]
  rw [if_neg, if_neg]
  · simp
  · simp only [Bool.or_eq_true, decide_eq_true_eq, not_or, not_le, not_lt]
    omega

theorem parseLoop_std_ok (s : Std) (cs : List Chunk) (f f1 : Fields) (v rest : List Char)
    (h : parseStd s f v = .ok (f1, rest)) :
    parseLoop (.std s :: cs) f v = parseLoop cs f1 rest := by
  simp only [parseLoop, h]

theorem parseLoop_lit_ok (p : List Char) (cs : List Chunk) (f : Fields) (v rest : List Char)
    (h : skip v p = some rest) : parseLoop (.lit p :: cs) f v = parseLoop cs f rest := by
  simp only [parseLoop, h]

theorem cutspace_pad2 (k : Nat) (hk : k < 100) (rest : List Char) :
    cutspace (pad2 k ++ rest) = pad2 k ++ rest := by
  have := utod_ne_space (k / 10) (by omega)
  simp [cutspace, pad2, List.dropWhile_cons, this]

/-- `2006-01-02 15:04:05` accepts a calendar date `YYYY-MM-DD`, one space and
`hh:mm:ss` with a two-digit hour below 24, minute and second below 60. -/
theorem ParseInLocation_AltUSDateTimeFormat_ok (loc : Option Location) (m d y h mi sec : Nat)
    (hv : validDate y m d) (hy : y < 10000) (hh : h < 24) (hmi : mi < 60) (hsec : sec < 60) :
    ParseInLocation AltUSDateTimeFormat
        (String.mk (isoDateText y m d ++ ' ' :: (pad2 h ++ ':' :: (pad2 mi ++ ':' :: pad2 sec)))) loc
      = .ok (Date y m d h mi sec 0 loc) := by
  rw [ParseInLocation_ok_iff]
  refine ⟨{ Fields.init with year := y, month := m, day := d, hour := h, min := mi, sec := sec },
    ?_, ?_⟩
  · simp only [AltUSDateTimeFormat]
    refine (parseLoop_isoDate_iff _ _ _ _).mpr ⟨m, d, y, _, ⟨by have := hv.1; omega, hv.2.1⟩,
      validDate_day_lt y m d hv, hy, rfl, ?_⟩
    rw [parseLoop_lit_ok _ _ _ _ _ ((skip_space_iff _ _).mpr (Or.inr ⟨_, rfl, rfl⟩)),
      cutspace_pad2 h (by omega),
      parseLoop_std_ok _ _ _ _ _ _ (parseStd_hour_pad2 _ h _ hh),
      parseLoop_lit_ok _ _ _ _ _ ((skip_char_iff ':' (by decide) _ _).mpr rfl),
      parseLoop_std_ok _ _ _ _ _ _ ((parseStd_zeroMinute_iff _ _ _ _).mpr ⟨mi, hmi, rfl, rfl⟩),
      parseLoop_lit_ok _ _ _ _ _ ((skip_char_iff ':' (by decide) _ _).mpr rfl),
      parseLoop_std_ok _ _ _ _ _ _ (parseStd_zeroSecond_pad2 _ sec hsec)]
    rfl
  · rw [finish_ok_iff _ _ _ (by simp [Fields.init]) (by simp [Fields.init])]
    simp only [Fields.init]
    exact ⟨⟨by have := hv.2.2.1; omega, hv.2.2.2⟩, by simp [clockHour]⟩

/-- A seven-character remainder `??:???m` that the pattern matches is an am/pm
time. -/
theorem clock_of_hasMatch_seven (a b c d p : Char)
    (h : rxUSDateTime.hasMatch [a, b, ':', c, d, p, 'm'] = true) :
    ∃ (hh mi : Nat) (pm : Bool), hh ≤ 12 ∧ mi < 60 ∧ [a, b, ':', c, d, p, 'm'] = clockText hh mi pm := by
  rcases (hasMatch_rxUSDateTime_iff _).mp h with hs | he
  · obtain ⟨a', b', c', d', p', rest, e, hab, hcd, hp⟩ := hs
    simp only [List.cons.injEq] at e
    obtain ⟨rfl, rfl, -, rfl, rfl, rfl, -, -⟩ := e
    obtain ⟨hh, hh12, e1⟩ := pad2_of_isHour12 a b hab
    obtain ⟨mi, hmi, e2⟩ := pad2_of_isSixty c d hcd
    simp only [pad2, List.cons.injEq, and_true] at e1 e2
    rcases hp with rfl | rfl
    · exact ⟨hh, mi, false, hh12, hmi, by simp [clockText, pad2, e1, e2]⟩
    · exact ⟨hh, mi, true, hh12, hmi, by simp [clockText, pad2, e1, e2]⟩
  · obtain ⟨pre, a', b', c', d', hab, hcd, e | ⟨e', f', hef, e⟩⟩ := he
    · have hl := congrArg List.length e
      simp only [List.length_cons, List.length_nil, List.length_append] at hl
      match pre, e, hl with
      | [x], e, _ =>
        simp only [List.singleton_append, List.cons.injEq] at e
        exact absurd e.2.2.2.2.2.2.1 (by decide)
    · have hl := congrArg List.length e
      simp only [List.length_cons, List.length_nil, List.length_append] at hl
      omega

/-- An eight-character remainder `??:??:??` that the pattern matches is a
24-hour time with an hour below 20. -/
theorem clock_of_hasMatch_eight (a b c d e f : Char)
    (h : rxUSDateTime.hasMatch [a, b, ':', c, d, ':', e, f] = true) :
    ∃ hh mi sec : Nat, hh ≤ 19 ∧ mi < 60 ∧ sec < 60 ∧
      [a, b, ':', c, d, ':', e, f] = pad2 hh ++ ':' :: (pad2 mi ++ ':' :: pad2 sec) := by
  rcases (hasMatch_rxUSDateTime_iff _).mp h with hs | he
  · obtain ⟨a', b', c', d', p', rest, e, hab, hcd, hp⟩ := hs
    simp only [List.cons.injEq] at e
    obtain ⟨-, -, -, -, -, rfl, -, -⟩ := e
    rcases hp with hp | hp <;> exact absurd hp (by decide)
  · obtain ⟨pre, a', b', c', d', hab, hcd, e0 | ⟨e', f', hef, e0⟩⟩ := he
    · have hl := congrArg List.length e0
      simp only [List.length_cons, List.length_nil, List.length_append] at hl
      match pre, e0, hl with
      | [x, y], e0, _ =>
        simp only [List.cons_append, List.nil_append, List.cons.injEq] at e0
        obtain ⟨-, -, rfl, -⟩ := e0
        rcases hab.1 with h0 | h0 <;> exact absurd h0 (by decide)
    · have hl := congrArg List.length e0
      simp only [List.length_cons, List.length_nil, List.length_append] at hl
      match pre, e0, hl with
      | [], e0, _ =>
        simp only [List.nil_append, List.cons.injEq] at e0
        obtain ⟨rfl, rfl, -, rfl, rfl, -, rfl, rfl, -⟩ := e0
        obtain ⟨hh, hh19, e1⟩ := pad2_of_isHour24 a b hab
        obtain ⟨mi, hmi, e2⟩ := pad2_of_isSixty c d hcd
        obtain ⟨sec, hsec, e3⟩ := pad2_of_isSixty e f hef
        simp only [pad2, List.cons.injEq, and_true] at e1 e2 e3
        exact ⟨hh, mi, sec, hh19, hmi, hsec, by simp [pad2, e1, e2, e3]⟩

theorem IsUSDate_of_IsUSDateTime_noSpace (s : GoString) (h : ∀ c ∈ s.data, c ≠ ' ')
    (hv : IsUSDateTime s = true) : IsUSDate s = true := by
  unfold IsUSDateTime at hv
  split at hv
  · exact absurd hv (by simp)
  · rw [splitSpace_noSpace s h] at hv
    cases hd : IsUSDate s
    · simp [hd] at hv
    · rfl

theorem ParseUSDateTime_ok_of_IsUSDate (pst : Location) (s : GoString) (h : IsUSDate s = true) :
    (ParseUSDateTime (.ok pst) s).2 = none := by
  rcases (IsUSDate_iff s).mp h with (rfl | rfl) | ⟨t, ht⟩ | ⟨t, ht⟩
  · rfl
  · rfl
  · obtain ⟨t', ht'⟩ := ParseInLocation_ok_any_loc FullUSDateFormat s none (some pst) t ht
    exact ParseUSDateTime_ok_of_layout pst s FullUSDateFormat (by simp [usDateTimeFormats]) t' ht'
  · obtain ⟨t', ht'⟩ := ParseInLocation_ok_any_loc AltUSDateFormat s none (some pst) t ht
    exact ParseUSDateTime_ok_of_layout pst s AltUSDateFormat (by simp [usDateTimeFormats]) t' ht'

theorem isSixty_pad2 (k : Nat) (hk : k < 60) : isSixty (utod (k / 10)) (utod (k % 10)) := by
  unfold isSixty
  rw [utod_toNat _ (by omega), utod_toNat _ (by omega)]
  omega

theorem isHour24_pad2 (h : Nat) (hh : h ≤ 19) : isHour24 (utod (h / 10)) (utod (h % 10)) := by
  unfold isHour24
  rw [utod_toNat _ (by omega)]
  refine ⟨?_, by omega, by omega⟩
  by_cases h9 : h ≤ 9
  · left
    have : h / 10 = 0 := by omega
    rw [this]; rfl
  · right
    have : h / 10 = 1 := by omega
    rw [this]; rfl

/-- The pattern matches `hh:mm:ss` with `hh` up to 19, `mm` and `ss` below
60. -/
theorem hasMatch_clock24 (h mi sec : Nat) (hh : h ≤ 19) (hmi : mi < 60) (hsec : sec < 60) :
    rxUSDateTime.hasMatch (pad2 h ++ ':' :: (pad2 mi ++ ':' :: pad2 sec)) = true :=
  (hasMatch_rxUSDateTime_iff _).mpr (Or.inr ⟨[], _, _, _, _, isHour24_pad2 h hh,
    isSixty_pad2 mi hmi, Or.inr ⟨_, _, isSixty_pad2 sec hsec, rfl⟩⟩)

/-! ### The length of a date text -/

/-- Every text the date validator accepts has ten characters. -/
theorem length_of_IsUSDate (s : GoString) (h : IsUSDate s = true) : s.length = 10 := by
  rcases (IsUSDate_iff_text s).mp h with (rfl | rfl) | ⟨m, d, y, -, -, hs | hs⟩
  · decide
  · decide
  · show s.data.length = 10
    rw [hs, length_usDateText]
  · show s.data.length = 10
    rw [hs, length_isoDateText]

/-- No text the date validator accepts holds a space. -/
theorem noSpace_of_IsUSDate (s : GoString) (h : IsUSDate s = true) : ∀ c ∈ s.data, c ≠ ' ' := by
  rcases (IsUSDate_iff_text s).mp h with (rfl | rfl) | ⟨m, d, y, hv, hy, hs | hs⟩
  · decide
  · decide
  · rw [hs]
    exact noSpace_usDateText m d y (by have := hv.2.1; omega) (validDate_day_lt y m d hv) hy
  · rw [hs]
    exact noSpace_isoDateText m d y (by have := hv.2.1; omega) (validDate_day_lt y m d hv) hy

/-! ### Times of day the pattern rejects -/

/-- The pattern matches no `hh:mm:ss` of two-digit numbers with the hour above
19, the minute above 59 or the second above 59. -/
theorem hasMatch_clock24_out_of_range (h mi sec : Nat) (hh : h < 100) (hmi : mi < 100)
    (hsec : sec < 100) (hr : 19 < h ∨ 59 < mi ∨ 59 < sec) :
    rxUSDateTime.hasMatch (pad2 h ++ ':' :: (pad2 mi ++ ':' :: pad2 sec)) = false := by
  cases hm : rxUSDateTime.hasMatch (pad2 h ++ ':' :: (pad2 mi ++ ':' :: pad2 sec))
  · rfl
  · exfalso
    obtain ⟨h', mi', sec', hh', hmi', hsec', e⟩ :=
      clock_of_hasMatch_eight (utod (h / 10)) (utod (h % 10)) (utod (mi / 10)) (utod (mi % 10))
        (utod (sec / 10)) (utod (sec % 10)) hm
    have e' : pad2 h ++ ':' :: (pad2 mi ++ ':' :: pad2 sec)
        = pad2 h' ++ ':' :: (pad2 mi' ++ ':' :: pad2 sec') := e
    simp only [pad2, List.cons_append, List.nil_append, List.cons.injEq, and_true] at e'
    obtain ⟨a1, a2, -, b1, b2, -, c1, c2⟩ := e'
    have e1 := pad2_inj h h' hh (by omega) (by simp only [pad2, a1, a2])
    have e2 := pad2_inj mi mi' hmi (by omega) (by simp only [pad2, b1, b2])
    have e3 := pad2_inj sec sec' hsec (by omega) (by simp only [pad2, c1, c2])
    omega

/-- The pattern matches no `hh:mm` of two-digit numbers followed by `am` or
`pm` with the hour above 12 or the minute above 59. -/
theorem hasMatch_clockText_out_of_range (h mi : Nat) (pm : Bool) (hh : h < 100) (hmi : mi < 100)
    (hr : 12 < h ∨ 59 < mi) :
    rxUSDateTime.hasMatch (clockText h mi pm) = false := by
  cases hm : rxUSDateTime.hasMatch (clockText h mi pm)
  · rfl
  · exfalso
    obtain ⟨h', mi', pm', hh', hmi', e⟩ :=
      clock_of_hasMatch_seven (utod (h / 10)) (utod (h % 10)) (utod (mi / 10)) (utod (mi % 10))
        (if pm then 'p' else 'a') hm
    have e' : clockText h mi pm = clockText h' mi' pm' := e
    simp only [clockText, pad2, List.cons_append, List.nil_append, List.cons.injEq, and_true] at e'
    obtain ⟨a1, a2, -, b1, b2, -⟩ := e'
    have e1 := pad2_inj h h' hh (by omega) (by simp only [pad2, a1, a2])
    have e2 := pad2_inj mi mi' hmi (by omega) (by simp only [pad2, b1, b2])
    omega

/-! ### The date-only texts under `ParseUSDateTime` -/

/-- A layout that rejects the text hands the loop on to the next layout. -/
theorem parseUSLayouts_cons_error (data : GoString) (pst : Location) (layout : Layout)
    (rest : List Layout) (e : Option Error)
    (h : ∀ t, ParseInLocation layout data (some pst) ≠ .ok t) :
    ∃ err, parseUSLayouts data pst (layout :: rest) e
      = parseUSLayouts data pst rest (some (.parse err)) := by
  cases hp : ParseInLocation layout data (some pst) with
  | error err => exact ⟨err, by simp only [parseUSLayouts, hp]⟩
  | ok t => exact absurd hp (h t)

/-- A layout that accepts the text ends the loop with its result. -/
theorem parseUSLayouts_cons_ok (data : GoString) (pst : Location) (layout : Layout)
    (rest : List Layout) (e : Option Error) (t : Time)
    (h : ParseInLocation layout data (some pst) = .ok t) :
    parseUSLayouts data pst (layout :: rest) e = (t, none) := by
  simp only [parseUSLayouts, h]

/-- The primary layout rejects every text of ten characters. -/
theorem ParseInLocation_USDateTimeFormat_ten (s : GoString) (loc : Option Location)
    (hl : s.data.length = 10) (t : Time) :
    ParseInLocation USDateTimeFormat s loc ≠ .ok t := by
  intro h
  obtain ⟨m, d, y, hh, mi, pm, vs, -, -, -, -, hs, -, -⟩ :=
    (ParseInLocation_USDateTimeFormat_iff s loc t).mp h
  rw [hs, List.length_append, length_usDateText, List.length_cons] at hl
  omega

/-- No hour is read from the empty text. -/
theorem parseStd_hour_nil (f : Fields) : ∀ r, parseStd .stdHour f [] ≠ .ok r := by
  intro r h
  have e : getnum [] false = .error .errBad := rfl
  simp only [parseStd, e] at h
  cases h

/-- The 24-hour layout rejects every text of ten characters. -/
theorem ParseInLocation_AltUSDateTimeFormat_ten (s : GoString) (loc : Option Location)
    (hl : s.data.length = 10) (t : Time) :
    ParseInLocation AltUSDateTimeFormat s loc ≠ .ok t := by
  intro h
  obtain ⟨f, hloop, -⟩ := (ParseInLocation_ok_iff _ s loc t).mp h
  simp only [AltUSDateTimeFormat] at hloop
  obtain ⟨m, d, y, rest, -, -, -, hs, hrest⟩ := (parseLoop_isoDate_iff _ _ _ _).mp hloop
  have hr : rest = [] := by
    rw [hs, List.length_append, length_isoDateText] at hl
    exact List.length_eq_zero.mp (by omega)
  subst hr
  obtain ⟨rest', hskip, hrest'⟩ := (parseLoop_lit_iff _ _ _ _ _).mp hrest
  rcases (skip_space_iff _ _).mp hskip with ⟨-, rfl⟩ | ⟨vs, hv, -⟩
  · obtain ⟨f1, r1, hstd, -⟩ := (parseLoop_std_iff _ _ _ _ _).mp hrest'
    exact parseStd_hour_nil _ _ hstd
  · cases hv

/-- A calendar date `YYYY-MM-DD` is not a sentinel. -/
theorem isoDateText_ne_sentinels (y m d : Nat) (hv : validDate y m d) :
    String.mk (isoDateText y m d) ≠ "0000-00-00" ∧ String.mk (isoDateText y m d) ≠ "00/00/0000" := by
  constructor
  · intro h
    have h0 : isoDateText y m d = isoDateText 0 0 0 := congrArg String.data h
    simp only [isoDateText, pad4, pad2, List.cons_append, List.nil_append, List.cons.injEq,
      and_true] at h0
    have := pad2_inj m 0 (by have := hv.2.1; omega) (by omega)
      (by simp only [pad2, h0.2.2.2.2.2.1, h0.2.2.2.2.2.2.1])
    have := hv.1
    omega
  · intro h
    exact absurd (congrArg String.data h).symm (usDateText_ne_isoDateText 0 0 0 m d y)

/-- On a calendar date `MM/DD/YYYY` the first two layouts fail and the third
gives midnight of the date in the zone. -/
theorem ParseUSDateTime_usDateText (pst : Location) (m d y : Nat) (hv : validDate y m d)
    (hy : y < 10000) :
    ParseUSDateTime (.ok pst) (String.mk (usDateText m d y))
      = (Date y m d 0 0 0 0 (some pst), none) := by
  have hl : (String.mk (usDateText m d y)).data.length = 10 := length_usDateText m d y
  obtain ⟨h1, h2⟩ := usDateText_ne_sentinels y m d hy hv
  have h3 : String.mk (usDateText m d y) ≠ "" := by
    intro h; have := congrArg String.length h; rw [String.length, hl] at this; cases this
  have h4 : String.mk (usDateText m d y) ≠ "0000-00-00 00:00:00" := by
    intro h; have := congrArg String.length h; rw [String.length, hl] at this; revert this; decide
  unfold ParseUSDateTime
  rw [if_neg (by simp only [h1, h2, h3, h4, or_self, not_false_eq_true])]
  simp only [usDateTimeFormats]
  obtain ⟨e1, he1⟩ := parseUSLayouts_cons_error (String.mk (usDateText m d y)) pst USDateTimeFormat
    [AltUSDateTimeFormat, FullUSDateFormat, AltUSDateFormat, USDateMixedTimeFormat] none
    (ParseInLocation_USDateTimeFormat_ten _ _ hl)
  obtain ⟨e2, he2⟩ := parseUSLayouts_cons_error (String.mk (usDateText m d y)) pst
    AltUSDateTimeFormat [FullUSDateFormat, AltUSDateFormat, USDateMixedTimeFormat]
    (some (.parse e1)) (ParseInLocation_AltUSDateTimeFormat_ten _ _ hl)
  rw [he1, he2]
  exact parseUSLayouts_cons_ok _ _ _ _ _ _
    ((ParseInLocation_FullUSDateFormat_iff _ _ _).mpr ⟨m, d, y, hv, hy, rfl, rfl⟩)

/-- On a calendar date `YYYY-MM-DD` the first three layouts fail and the fourth
gives midnight of the date in the zone. -/
theorem ParseUSDateTime_isoDateText (pst : Location) (m d y : Nat) (hv : validDate y m d)
    (hy : y < 10000) :
    ParseUSDateTime (.ok pst) (String.mk (isoDateText y m d))
      = (Date y m d 0 0 0 0 (some pst), none) := by
  have hl : (String.mk (isoDateText y m d)).data.length = 10 := length_isoDateText m d y
  obtain ⟨h1, h2⟩ := isoDateText_ne_sentinels y m d hv
  have h3 : String.mk (isoDateText y m d) ≠ "" := by
    intro h; have := congrArg String.length h; rw [String.length, hl] at this; cases this
  have h4 : String.mk (isoDateText y m d) ≠ "0000-00-00 00:00:00" := by
    intro h; have := congrArg String.length h; rw [String.length, hl] at this; revert this; decide
  unfold ParseUSDateTime
  rw [if_neg (by simp only [h1, h2, h3, h4, or_self, not_false_eq_true])]
  simp only [usDateTimeFormats]
  obtain ⟨e1, he1⟩ := parseUSLayouts_cons_error (String.mk (isoDateText y m d)) pst USDateTimeFormat
    [AltUSDateTimeFormat, FullUSDateFormat, AltUSDateFormat, USDateMixedTimeFormat] none
    (ParseInLocation_USDateTimeFormat_ten _ _ hl)
  obtain ⟨e2, he2⟩ := parseUSLayouts_cons_error (String.mk (isoDateText y m d)) pst
    AltUSDateTimeFormat [FullUSDateFormat, AltUSDateFormat, USDateMixedTimeFormat]
    (some (.parse e1)) (ParseInLocation_AltUSDateTimeFormat_ten _ _ hl)
  obtain ⟨e3, he3⟩ := parseUSLayouts_cons_error (String.mk (isoDateText y m d)) pst
    FullUSDateFormat [AltUSDateFormat, USDateMixedTimeFormat]
    (some (.parse e2)) (by
      intro t h
      obtain ⟨m', d', y', -, -, hs, -⟩ := (ParseInLocation_FullUSDateFormat_iff _ _ _).mp h
      exact usDateText_ne_isoDateText m' d' y' m d y hs.symm)
  rw [he1, he2, he3]
  exact parseUSLayouts_cons_ok _ _ _ _ _ _
    ((ParseInLocation_AltUSDateFormat_iff _ _ _).mpr ⟨m, d, y, hv, hy, rfl, rfl⟩)

/-! ### The round trip of the primary layout -/

/-- The date and the clock `absDate` and `absClock` read from a time of day of
a calendar date in UTC are that date and that time of day. -/
theorem absDate_absClock_Date (y m d h mi sec : Nat) (hy : y < 10000) (hv : validDate y m d)
    (hh : h < 24) (hmi : mi < 60) (hsec : sec < 60) :
    absDate (Time.abs (Date y m d h mi sec 0 none)) = ((y : Int), m, d) ∧
      absClock (Time.abs (Date y m d h mi sec 0 none)) = (h, mi, sec) := by
  obtain ⟨h1, h12, hd1, hdl⟩ := hv
  rw [daysIn_nat m y h1 h12] at hdl
  have hdl' : d ≤ (if m = 2 ∧ isLeap (y : Int) = true then 29
      else daysBefore m - daysBefore (m - 1)) := by exact_mod_cast hdl
  obtain ⟨hlt, hmd⟩ := monthDay_table (isLeap (y : Int)) m d h1 h12 hd1 hdl'
  have hb := daysSinceEpoch_lt y hy
  rw [Date_utc y m d h mi sec 0 h1 h12 hd1 (by omega) (by omega) (by omega) (by omega)]
  generalize hyd : daysBefore (m - 1) + (if isLeap (y : Int) && decide (3 ≤ m) then 1 else 0)
    + (d - 1) = yd at hlt hmd
  have hyd' : yd < 365 ∨ (yd = 365 ∧ isLeap (y : Int) = true) := by
    cases hl : isLeap (y : Int)
    · rw [hl] at hlt; simp at hlt; left; omega
    · rw [hl] at hlt; simp at hlt
      by_cases h : yd < 365
      · exact Or.inl h
      · exact Or.inr ⟨by omega, rfl⟩
  have e : (((daysSinceEpoch (y : Int) + daysBefore (m - 1)
        + (if isLeap (y : Int) && decide (3 ≤ m) then 1 else 0) + (d - 1) : Nat) : Int) * 86400
        + ((h : Int) * 3600 + (mi : Int) * 60 + (sec : Int))) + absoluteToInternal
      = (((daysSinceEpoch (y : Int) + yd) * 86400 + (h * 3600 + mi * 60 + sec) : Nat) : Int)
        + absoluteToInternal := by
    rw [← hyd]; push_cast; ring
  rw [e, abs_utc _ _ (by omega)]
  have hs : h * 3600 + mi * 60 + sec < 86400 := by omega
  have hdiv : ((daysSinceEpoch (y : Int) + yd) * 86400 + (h * 3600 + mi * 60 + sec)) / 86400
      = daysSinceEpoch (y : Int) + yd := by omega
  have hmod : ((daysSinceEpoch (y : Int) + yd) * 86400 + (h * 3600 + mi * 60 + sec)) % 86400
      = h * 3600 + mi * 60 + sec := by omega
  constructor
  · unfold absDate
    rw [hdiv, absYear_daysSinceEpoch y yd hy hyd']
    simp only [hmd]
  · unfold absClock
    rw [hmod]
    have e1 : (h * 3600 + mi * 60 + sec) / 3600 = h := by omega
    simp only [e1]
    have e2 : h * 3600 + mi * 60 + sec - h * 3600 = mi * 60 + sec := by omega
    rw [e2]
    have e3 : (mi * 60 + sec) / 60 = mi := by omega
    rw [e3]
    have e4 : mi * 60 + sec - mi * 60 = sec := by omega
    rw [e4]

/-- The hour `parse` computes from an am/pm hour from 1 to 12 is below 24, and
`Format` shows it as the same hour with the same marker. -/
theorem clockHour_nat (h : Nat) (pm : Bool) (h1 : 1 ≤ h) (h12 : h ≤ 12) :
    ∃ H : Nat, clockHour (h : Int) pm (!pm) = (H : Int) ∧ H < 24 ∧
      (if H % 12 == 0 then 12 else H % 12) = h ∧ (decide (H ≥ 12) = pm) := by
  cases pm
  · by_cases e : h = 12
    · subst e; exact ⟨0, by decide, by decide, by decide, by decide⟩
    · refine ⟨h, ?_, by omega, ?_, ?_⟩
      · have : ¬ ((h : Int) = 12) := by omega
        simp [clockHour, this]
      · have e1 : h % 12 = h := Nat.mod_eq_of_lt (by omega)
        have e2 : ¬ h = 0 := by omega
        simp [e1, e2]
      · simp; omega
  · by_cases e : h = 12
    · subst e; exact ⟨12, by decide, by decide, by decide, by decide⟩
    · refine ⟨h + 12, ?_, by omega, ?_, ?_⟩
      · have : (h : Int) < 12 := by omega
        simp [clockHour, this]
      · have e1 : h % 12 = h := Nat.mod_eq_of_lt (by omega)
        have e2 : ¬ h = 0 := by omega
        simp [e1, e2]
      · simp

/-- What `Format` writes under `01/02/2006 03:04pm`. -/
theorem formatChunks_USMarshalFormat (y m d H mi sec h : Nat) (pm : Bool) (hm : m < 100)
    (hd : d < 100) (hy : y < 10000) (hmi : mi < 60) (hh : h ≤ 12)
    (h12 : (if H % 12 == 0 then 12 else H % 12) = h) (hpm : decide (H ≥ 12) = pm) :
    formatChunks USMarshalFormat.chunks (y : Int) m d H mi sec
      = usDateText m d y ++ ' ' :: clockText h mi pm := by
  have hp : (if H ≥ 12 then ['p', 'm'] else ['a', 'm']) = [if pm then 'p' else 'a', 'm'] := by
    subst hpm
    by_cases hH : H ≥ 12
    · simp [hH]
    · simp [hH]
  simp only [USMarshalFormat, USDateTimeFormat, formatChunks, formatStd, h12, hp,
    appendInt_two m hm, appendInt_two d hd,
    appendInt_two h (by omega), appendInt_two mi (by omega),
    appendInt_four y hy, usDateText, clockText, List.append_nil, List.singleton_append,
    List.append_assoc, List.cons_append, List.nil_append]

/-! ### bool.go -/

/-- The strings `strconv.ParseBool` accepts. -/
theorem ParseBool_ok_iff (s : GoString) (b : Bool) :
    ParseBool s = .ok b ↔
      (b = true ∧ s ∈ ["1", "t", "T", "TRUE", "true", "True"]) ∨
        (b = false ∧ s ∈ ["0", "f", "F", "FALSE", "false", "False"]) := by
  unfold ParseBool
  by_cases h1 : s = "1" ∨ s = "t" ∨ s = "T" ∨ s = "TRUE" ∨ s = "true" ∨ s = "True"
  · rw [if_pos h1]
    cases b
    · simp only [List.mem_cons, List.mem_singleton, List.not_mem_nil, or_false]
      constructor
      · intro h; cases h
      · rintro (⟨h, -⟩ | ⟨-, h⟩)
        · cases h
        · exfalso; rcases h1 with rfl | rfl | rfl | rfl | rfl | rfl <;> revert h <;> decide
    · simp [h1]
  · rw [if_neg h1]
    by_cases h2 : s = "0" ∨ s = "f" ∨ s = "F" ∨ s = "FALSE" ∨ s = "false" ∨ s = "False"
    · rw [if_pos h2]
      cases b
      · simp [h2]
      · simp only [List.mem_cons, List.mem_singleton, List.not_mem_nil, or_false]
        constructor
        · intro h; cases h
        · rintro (⟨-, h⟩ | ⟨h, -⟩)
          · exact absurd h h1
          · cases h
    · rw [if_neg h2]
      simp only [List.mem_cons, List.mem_singleton, List.not_mem_nil, or_false]
      constructor
      · intro h; cases h
      · rintro (⟨-, h⟩ | ⟨-, h⟩)
        · exact absurd h h1
        · exact absurd h h2

/-- What `ParseBoolString` returns: the absent value for the empty string, a
present value for what `strconv.ParseBool` accepts, and the absent value with
the error otherwise. -/
theorem ParseBoolString_eq (s : GoString) :
    ParseBoolString s =
      if s = "" then ({ Bool := false, Valid := false }, none)
      else match ParseBool s with
        | .error err => ({ Bool := false, Valid := false }, some err)
        | .ok b => ({ Bool := b, Valid := true }, none) := rfl
/-- Claim C1 as stated fails: the parser accepts `01/01/2001 13:00pm` (mixed
layout), `2014-12-05 23:30:00` (24-hour layout) and `04/15/2014  08:00am`
(primary layout, two spaces), and the validator rejects all three. -/
theorem ParseUSDateTime_accepts_IsUSDateTime_rejects :
    (("01/01/2001 13:00pm" : GoString) ≠ "" ∧
        (ParseUSDateTime (.ok losAngeles) "01/01/2001 13:00pm").2 = none ∧
        IsUSDateTime "01/01/2001 13:00pm" = false) ∧
      ((ParseUSDateTime (.ok losAngeles) "2014-12-05 23:30:00").2 = none ∧
        IsUSDateTime "2014-12-05 23:30:00" = false) ∧
      ((ParseUSDateTime (.ok losAngeles) "04/15/2014  08:00am").2 = none ∧
        IsUSDateTime "04/15/2014  08:00am" = false) := by
  decide

/-- Claim C1, amended: every text that is one of the non-empty sentinels, or
that `time.ParseInLocation` accepts under a date-only layout (`01/02/2006`,
`2006-01-02`) or, with a single space (18 characters), under the primary layout
`01/02/2006 03:04pm`, or that is a calendar date `YYYY-MM-DD`, one space and
`hh:mm:ss` with `hh` from 00 to 19 and `mm`, `ss` below 60, is non-empty, is
parsed without error by `ParseUSDateTime` and is accepted by `IsUSDateTime`. -/
theorem ParseUSDateTime_accept_IsUSDateTime (pst : Location) (s : GoString)
    (h : s = "0000-00-00 00:00:00" ∨ s = "0000-00-00" ∨ s = "00/00/0000" ∨
      (∃ t, ParseInLocation FullUSDateFormat s (some pst) = .ok t) ∨
      (∃ t, ParseInLocation AltUSDateFormat s (some pst) = .ok t) ∨
      ((∃ t, ParseInLocation USDateTimeFormat s (some pst) = .ok t) ∧ s.length = 18) ∨
      (∃ m d y hh mi sec : Nat, validDate y m d ∧ y < 10000 ∧ hh ≤ 19 ∧ mi < 60 ∧ sec < 60 ∧
        s.data = isoDateText y m d ++ ' ' :: (pad2 hh ++ ':' :: (pad2 mi ++ ':' :: pad2 sec)))) :
    s ≠ "" ∧ (ParseUSDateTime (.ok pst) s).2 = none ∧ IsUSDateTime s = true := by
  rcases h with rfl | rfl | rfl | ⟨t, ht⟩ | ⟨t, ht⟩ | ⟨⟨t, ht⟩, hlen⟩ |
    ⟨m, d, y, hh, mi, sec, hv, hy, hh19, hmi, hsec, hs⟩
  · exact ⟨by decide, rfl, by decide⟩
  · exact ⟨by decide, rfl, by decide⟩
  · exact ⟨by decide, rfl, by decide⟩
  · have hp := ParseUSDateTime_ok_of_layout pst s FullUSDateFormat (by simp [usDateTimeFormats]) t ht
    obtain ⟨m, d, y, hv, hy, hs, -⟩ := (ParseInLocation_FullUSDateFormat_iff s _ t).mp ht
    have hm : m < 100 := by have := hv.2.1; omega
    have hd := validDate_day_lt y m d hv
    refine ⟨fun e => ?_, hp, ?_⟩
    · rw [e] at hs; exact absurd hs (by simp [usDateText, pad2])
    · rw [IsUSDateTime_noSpace s (by rw [hs]; exact noSpace_usDateText m d y hm hd hy)
        (by rw [hs, length_usDateText]; omega)]
      have e : s = String.mk (usDateText m d y) := by rw [← hs]
      rw [e]; exact IsUSDate_usDateText m d y hv hy
  · have hp := ParseUSDateTime_ok_of_layout pst s AltUSDateFormat (by simp [usDateTimeFormats]) t ht
    obtain ⟨m, d, y, hv, hy, hs, -⟩ := (ParseInLocation_AltUSDateFormat_iff s _ t).mp ht
    have hm : m < 100 := by have := hv.2.1; omega
    have hd := validDate_day_lt y m d hv
    refine ⟨fun e => ?_, hp, ?_⟩
    · rw [e] at hs; exact absurd hs (by simp [isoDateText, pad4])
    · rw [IsUSDateTime_noSpace s (by rw [hs]; exact noSpace_isoDateText m d y hm hd hy)
        (by rw [hs, length_isoDateText]; omega)]
      have e : s = String.mk (isoDateText y m d) := by rw [← hs]
      rw [e]; exact IsUSDate_isoDateText m d y hv hy
  · have hp := ParseUSDateTime_ok_of_layout pst s USDateTimeFormat (by simp [usDateTimeFormats]) t ht
    obtain ⟨m, d, y, hh, mi, pm, vs, hv, hy, hh12, hmi, hs, hcut, -⟩ :=
      (ParseInLocation_USDateTimeFormat_iff s _ t).mp ht
    have hm : m < 100 := by have := hv.2.1; omega
    have hd := validDate_day_lt y m d hv
    have hl : s.data.length = 18 := hlen
    rw [hs, List.length_append, length_usDateText, List.length_cons] at hl
    have hvs : cutspace vs = vs :=
      cutspace_eq_self vs (by rw [hcut, length_clockText]; omega)
    rw [hvs] at hcut
    subst hcut
    refine ⟨fun e => ?_, hp, ?_⟩
    · rw [e] at hs; exact absurd hs (by simp [usDateText, pad2])
    · rw [IsUSDateTime_atSpace s _ _ hs (noSpace_usDateText m d y hm hd hy)
        (by rw [hs, List.length_append, length_usDateText]; omega),
        IsUSDate_usDateText m d y hv hy, hasMatch_clockText hh mi pm hh12 hmi]
      rfl
  · have hm : m < 100 := by have := hv.2.1; omega
    have hd := validDate_day_lt y m d hv
    have e0 : s = String.mk (isoDateText y m d ++ ' ' :: (pad2 hh ++ ':' :: (pad2 mi ++ ':' :: pad2 sec))) := by
      rw [← hs]
    refine ⟨fun e => ?_, ?_, ?_⟩
    · rw [e] at hs; exact absurd hs (by simp [isoDateText, pad4])
    · rw [e0]
      exact ParseUSDateTime_ok_of_layout pst _ AltUSDateTimeFormat (by simp [usDateTimeFormats]) _
        (ParseInLocation_AltUSDateTimeFormat_ok (some pst) m d y hh mi sec hv hy (by omega) hmi
          hsec)
    · rw [IsUSDateTime_atSpace s _ _ hs (noSpace_isoDateText m d y hm hd hy)
        (by rw [hs, List.length_append, length_isoDateText]; omega),
        IsUSDate_isoDateText m d y hv hy, hasMatch_clock24 hh mi sec hh19 hmi hsec]
      rfl

theorem ParseUSDateTime_accept_IsUSDateTime_witness :
    ((∃ t, ParseInLocation USDateTimeFormat "04/15/2014 08:00am" (some losAngeles) = .ok t) ∧
        ("04/15/2014 08:00am" : GoString).length = 18) ∧
      ("04/15/2014 08:00am" : GoString) ≠ "" ∧
      (ParseUSDateTime (.ok losAngeles) "04/15/2014 08:00am").2 = none ∧
      IsUSDateTime "04/15/2014 08:00am" = true :=
  ⟨⟨⟨_, rfl⟩, by decide⟩,
    ParseUSDateTime_accept_IsUSDateTime losAngeles "04/15/2014 08:00am"
      (Or.inr (Or.inr (Or.inr (Or.inr (Or.inr (Or.inl ⟨⟨_, rfl⟩, by decide⟩))))))⟩

/-- Claim C2 as stated fails: the validator accepts a zone suffix, a 24-hour
time after a `MM/DD/YYYY` date, a time after the sentinel date and text after
`am`, and the parser rejects each of them. -/
theorem IsUSDateTime_accepts_ParseUSDateTime_rejects :
    (IsUSDateTime "04/15/2014 08:00am PST" = true ∧
        (ParseUSDateTime (.ok losAngeles) "04/15/2014 08:00am PST").2 ≠ none) ∧
      (IsUSDateTime "04/15/2014 19:30:00" = true ∧
        (ParseUSDateTime (.ok losAngeles) "04/15/2014 19:30:00").2 ≠ none) ∧
      (IsUSDateTime "00/00/0000 08:00am" = true ∧
        (ParseUSDateTime (.ok losAngeles) "00/00/0000 08:00am").2 ≠ none) ∧
      (IsUSDateTime "04/15/2014 08:00amx" = true ∧
        (ParseUSDateTime (.ok losAngeles) "04/15/2014 08:00amx").2 ≠ none) := by
  decide

/-- Claim C2, amended: when the zone loads, `ParseUSDateTime` returns no error
for every text that `IsUSDateTime` accepts and that has no space, or consists
of a date `time.Parse` accepts under `01/02/2006`, one space and seven
characters `??:???m`, or of a date `time.Parse` accepts under `2006-01-02`, one
space and eight characters `??:??:??`. -/
theorem IsUSDateTime_imp_ParseUSDateTime (pst : Location) (s : GoString)
    (hv : IsUSDateTime s = true)
    (hshape : (∀ c ∈ s.data, c ≠ ' ') ∨
      (∃ (dt : GoString) (a b c d p : Char), (∃ t, Parse FullUSDateFormat dt = .ok t) ∧
        s.data = dt.data ++ ' ' :: [a, b, ':', c, d, p, 'm']) ∨
      (∃ (dt : GoString) (a b c d e f : Char), (∃ t, Parse AltUSDateFormat dt = .ok t) ∧
        s.data = dt.data ++ ' ' :: [a, b, ':', c, d, ':', e, f])) :
    (ParseUSDateTime (.ok pst) s).2 = none := by
  rcases hshape with hns | ⟨dt, a, b, c, d, p, ⟨t, ht⟩, hs⟩ | ⟨dt, a, b, c, d, e, f, ⟨t, ht⟩, hs⟩
  · exact ParseUSDateTime_ok_of_IsUSDate pst s (IsUSDate_of_IsUSDateTime_noSpace s hns hv)
  · obtain ⟨mo, dy, y, hval, hy, hdt, -⟩ := (ParseInLocation_FullUSDateFormat_iff dt none t).mp ht
    rw [hdt] at hs
    have hm : mo < 100 := by have := hval.2.1; omega
    have hd := validDate_day_lt y mo dy hval
    rw [IsUSDateTime_atSpace s _ _ hs (noSpace_usDateText mo dy y hm hd hy)
      (by rw [hs, List.length_append, length_usDateText]; omega)] at hv
    simp only [Bool.and_eq_true] at hv
    obtain ⟨hh, mi, pm, hh12, hmi, hclock⟩ := clock_of_hasMatch_seven a b c d p hv.2
    rw [hclock] at hs
    exact ParseUSDateTime_ok_of_layout pst s USDateTimeFormat (by simp [usDateTimeFormats]) _
      ((ParseInLocation_USDateTimeFormat_iff s (some pst) _).mpr
        ⟨mo, dy, y, hh, mi, pm, clockText hh mi pm, hval, hy, hh12, hmi, hs,
          by unfold clockText; exact cutspace_pad2 hh (by omega) _, rfl⟩)
  · obtain ⟨mo, dy, y, hval, hy, hdt, -⟩ := (ParseInLocation_AltUSDateFormat_iff dt none t).mp ht
    rw [hdt] at hs
    have hm : mo < 100 := by have := hval.2.1; omega
    have hd := validDate_day_lt y mo dy hval
    rw [IsUSDateTime_atSpace s _ _ hs (noSpace_isoDateText mo dy y hm hd hy)
      (by rw [hs, List.length_append, length_isoDateText]; omega)] at hv
    simp only [Bool.and_eq_true] at hv
    obtain ⟨hh, mi, sec, hh19, hmi, hsec, hclock⟩ := clock_of_hasMatch_eight a b c d e f hv.2
    rw [hclock] at hs
    have e0 : s = String.mk (isoDateText y mo dy ++ ' ' :: (pad2 hh ++ ':' :: (pad2 mi ++ ':' :: pad2 sec))) := by
      rw [← hs]
    rw [e0]
    exact ParseUSDateTime_ok_of_layout pst _ AltUSDateTimeFormat (by simp [usDateTimeFormats]) _
      (ParseInLocation_AltUSDateTimeFormat_ok (some pst) mo dy y hh mi sec hval hy (by omega) hmi
        hsec)

theorem IsUSDateTime_imp_ParseUSDateTime_witness :
    IsUSDateTime "2014-12-05 19:30:00" = true ∧
      (∃ (dt : GoString) (a b c d e f : Char), (∃ t, Parse AltUSDateFormat dt = .ok t) ∧
        ("2014-12-05 19:30:00" : GoString).data = dt.data ++ ' ' :: [a, b, ':', c, d, ':', e, f]) ∧
      (ParseUSDateTime (.ok losAngeles) "2014-12-05 19:30:00").2 = none :=
  ⟨by decide, ⟨"2014-12-05", '1', '9', '3', '0', '0', '0', ⟨_, rfl⟩, rfl⟩,
    IsUSDateTime_imp_ParseUSDateTime losAngeles "2014-12-05 19:30:00" (by decide)
      (Or.inr (Or.inr ⟨"2014-12-05", '1', '9', '3', '0', '0', '0', ⟨_, rfl⟩, rfl⟩))⟩

/-- Claim C3: for every non-empty string, `IsUSDate` accepts it exactly when
`USDate.UnmarshalText` returns no error, whatever the receiver holds; the
sentinels `0000-00-00` and `00/00/0000` are accepted by both. -/
theorem IsUSDate_iff_UnmarshalText_ok (s : GoString) (d : USDate) (hne : s ≠ "") :
    IsUSDate s = true ↔ (USDate.UnmarshalText d s).2 = none := by
  have hsz : ¬ s.utf8ByteSize = 0 := fun h => hne ((utf8ByteSize_eq_zero s).mp h)
  unfold IsUSDate USDate.UnmarshalText
  rw [if_neg hsz]
  by_cases hs : s = "0000-00-00" ∨ s = "00/00/0000"
  · simp [hs]
  · rw [if_neg hs, if_neg hs]
    cases h1 : Parse FullUSDateFormat s with
    | error e =>
      cases h2 : Parse AltUSDateFormat s with
      | error e2 => simp
      | ok t => simp
    | ok t => simp

theorem IsUSDate_iff_UnmarshalText_ok_witness :
    ("12/15/2014" : GoString) ≠ "" ∧
      (IsUSDate "12/15/2014" = true ↔ (USDate.UnmarshalText Time.zero "12/15/2014").2 = none) :=
  ⟨by decide, IsUSDate_iff_UnmarshalText_ok "12/15/2014" Time.zero (by decide)⟩

/-- Claim C4: for every four-digit year `Y`, `IsUSDate("02/29/Y")` holds exactly
when `Y` is a Gregorian leap year; 2000 and 2400 are accepted, 1900, 2100 and
2017 are rejected. -/
theorem IsUSDate_feb29_iff_leap (Y : Nat) (hY : Y < 10000) :
    (IsUSDate (String.mk ("02/29/".data ++ appendInt Y 4)) = true ↔
        ((Y % 4 = 0 ∧ Y % 100 ≠ 0) ∨ Y % 400 = 0)) ∧
      IsUSDate "02/29/2000" = true ∧ IsUSDate "02/29/2400" = true ∧
      IsUSDate "02/29/1900" = false ∧ IsUSDate "02/29/2100" = false ∧
      IsUSDate "02/29/2017" = false := by
  refine ⟨?_, by decide, by decide, by decide, by decide, by decide⟩
  have htext : "02/29/".data ++ appendInt (Y : Int) 4 = usDateText 2 29 Y := by
    rw [appendInt_four Y hY]; rfl
  rw [htext, IsUSDate_iff_text, ← isLeap_iff]
  constructor
  · rintro ((h | h) | ⟨m, d, y, hv, hy, hs | hs⟩)
    · exact absurd (congrArg String.data h) (usDateText_ne_isoDateText 2 29 Y 0 0 0)
    · have h0 : usDateText 2 29 Y = usDateText 0 0 0 := congrArg String.data h
      have := (usDateText_inj 2 29 Y 0 0 0 (by omega) (by omega) hY (by omega) (by omega)
        (by omega) h0).1
      omega
    · obtain ⟨rfl, rfl, rfl⟩ := usDateText_inj 2 29 Y m d y (by omega) (by omega) hY
        (by have := hv.2.1; omega) (validDate_day_lt y m d hv) hy hs
      have h4 := hv.2.2.2
      by_contra hl
      simp [daysIn, daysBefore, hl] at h4
    · exact absurd hs (usDateText_ne_isoDateText 2 29 Y m d y)
  · intro hl
    refine Or.inr ⟨2, 29, Y, ⟨by omega, by omega, by omega, ?_⟩, hY, Or.inl rfl⟩
    simp [daysIn, hl]

theorem IsUSDate_feb29_iff_leap_witness :
    (2000 : Nat) < 10000 ∧
      (IsUSDate (String.mk ("02/29/".data ++ appendInt (2000 : Nat) 4)) = true ↔
        (((2000 : Nat) % 4 = 0 ∧ (2000 : Nat) % 100 ≠ 0) ∨ (2000 : Nat) % 400 = 0)) :=
  ⟨by decide, (IsUSDate_feb29_iff_leap 2000 (by decide)).1⟩

/-- Claim C5: for every calendar date with a year 0000-9999, `UnmarshalText`
applied to `String()` of midnight UTC of that date returns no error and stores
that same value, whatever the receiver held; the text is the date written
`MM/DD/YYYY`. -/
theorem USDate_UnmarshalText_String (y m d : Nat) (hy : y < 10000) (hv : validDate y m d)
    (d0 : USDate) :
    USDate.UnmarshalText d0 (USDate.String (Date y m d 0 0 0 0 none))
        = (Date y m d 0 0 0 0 none, none) ∧
      USDate.String (Date y m d 0 0 0 0 none) = String.mk (usDateText m d y) := by
  have hstr := USDate_String_Date y m d hy hv
  refine ⟨?_, hstr⟩
  rw [hstr]
  obtain ⟨n1, n2⟩ := usDateText_ne_sentinels y m d hy hv
  have hne : ¬ (String.mk (usDateText m d y)).utf8ByteSize = 0 := by
    rw [utf8ByteSize_eq_zero]
    intro h
    exact absurd (congrArg String.data h) (by simp [usDateText, pad2])
  have hp : Parse FullUSDateFormat (String.mk (usDateText m d y))
      = .ok (Date y m d 0 0 0 0 none) :=
    (ParseInLocation_FullUSDateFormat_iff _ none _).mpr ⟨m, d, y, hv, hy, rfl, rfl⟩
  unfold USDate.UnmarshalText
  rw [if_neg hne, if_neg (by simp [n1, n2])]
  simp only [hp]

theorem USDate_UnmarshalText_String_witness :
    (2014 : Nat) < 10000 ∧ validDate 2014 12 15 ∧
      USDate.UnmarshalText Time.zero (USDate.String (Date (2014 : Nat) (12 : Nat) (15 : Nat) 0 0 0 0 none))
        = (Date (2014 : Nat) (12 : Nat) (15 : Nat) 0 0 0 0 none, none) :=
  ⟨by decide, by decide, (USDate_UnmarshalText_String 2014 12 15 (by decide) (by decide) Time.zero).1⟩

/-- Claim C6, the code at the failing input: `USDate.UnmarshalJSON` applied to
the JSON string `1972-01-01` returns no error (the text parses under
`AltUSDateFormat`), where the package's test expects an error. -/
theorem UnmarshalJSON_accepts_iso_date (d : USDate) :
    (USDate.UnmarshalJSON d (.ok "1972-01-01")).2 = none ∧
      (USDate.UnmarshalJSON d (.ok "1972-01-01")).1 = Date 1972 1 1 0 0 0 0 none := by
  constructor <;> rfl

/-- Claim C7 as stated fails: on the empty string `UnmarshalText` returns no
error and `UnmarshalJSON` returns one, and likewise on `00/00/0000`. -/
theorem UnmarshalJSON_UnmarshalText_disagree :
    ((USDate.UnmarshalText Time.zero "").2 = none ∧
        (USDate.UnmarshalJSON Time.zero (.ok "")).2 ≠ none) ∧
      ((USDate.UnmarshalText Time.zero "00/00/0000").2 = none ∧
        (USDate.UnmarshalJSON Time.zero (.ok "00/00/0000")).2 ≠ none) := by
  decide

/-- Claim C7, amended: for every string other than the empty string and
`00/00/0000`, and every starting value, `UnmarshalJSON` on the JSON string and
`UnmarshalText` on the text return the same error (or none) and leave the same
value in the receiver; this includes `0000-00-00`, where both leave the receiver
as it was. -/
theorem UnmarshalJSON_eq_UnmarshalText (s : GoString) (d : USDate) (hne : s ≠ "")
    (hs : s ≠ "00/00/0000") :
    USDate.UnmarshalJSON d (.ok s) = USDate.UnmarshalText d s := by
  have hsz : ¬ s.utf8ByteSize = 0 := fun h => hne ((utf8ByteSize_eq_zero s).mp h)
  unfold USDate.UnmarshalJSON USDate.UnmarshalEasyJSON USDate.UnmarshalText
  simp only [if_neg hsz]
  by_cases h0 : s = "0000-00-00"
  · simp [h0]
  · simp [h0, hs]

theorem UnmarshalJSON_eq_UnmarshalText_witness :
    ("12/15/2014" : GoString) ≠ "" ∧ ("12/15/2014" : GoString) ≠ "00/00/0000" ∧
      USDate.UnmarshalJSON Time.zero (.ok "12/15/2014")
        = USDate.UnmarshalText Time.zero "12/15/2014" :=
  ⟨by decide, by decide,
    UnmarshalJSON_eq_UnmarshalText "12/15/2014" Time.zero (by decide) (by decide)⟩

/-- Claim C8 as stated fails: started on the value of 12/15/2014,
`UnmarshalJSON` of the JSON string `0000-00-00` returns no error and leaves that
value, which is not the zero `USDate`. -/
theorem UnmarshalJSON_sentinel_not_zero :
    (USDate.UnmarshalJSON (Date 2014 12 15 0 0 0 0 none) (.ok "0000-00-00")).2 = none ∧
      (USDate.UnmarshalJSON (Date 2014 12 15 0 0 0 0 none) (.ok "0000-00-00")).1 ≠ Time.zero := by
  refine ⟨rfl, fun h => ?_⟩
  have h2 := congrArg Time.sec h
  revert h2
  decide

/-- Claim C8, amended: for every starting value, `UnmarshalJSON` of the JSON
string `0000-00-00` returns no error and leaves the receiver as it was, so the
receiver is the zero `USDate` afterwards exactly when it was before. -/
theorem UnmarshalJSON_sentinel_noop (d : USDate) :
    USDate.UnmarshalJSON d (.ok "0000-00-00") = (d, none) ∧
      ((USDate.UnmarshalJSON d (.ok "0000-00-00")).1 = Time.zero ↔ d = Time.zero) := by
  constructor
  · rfl
  · exact Iff.rfl

/-- Claim C9: `ParseUSDateTime` returns `NewUSDateTime()`, the Unix epoch in
UTC, and no error on the empty string, `0000-00-00 00:00:00`, `0000-00-00` and
`00/00/0000`, whether or not the zone loads; `Value()` of that result is nil with
no error. -/
theorem ParseUSDateTime_sentinels (loadLocation : Except Error Location) :
    ParseUSDateTime loadLocation "" = (NewUSDateTime, none) ∧
      ParseUSDateTime loadLocation "0000-00-00 00:00:00" = (NewUSDateTime, none) ∧
      ParseUSDateTime loadLocation "0000-00-00" = (NewUSDateTime, none) ∧
      ParseUSDateTime loadLocation "00/00/0000" = (NewUSDateTime, none) ∧
      NewUSDateTime = { sec := 62135596800, nsec := 0, loc := none } ∧
      NewUSDateTime.Unix = 0 ∧
      USDateTime.Value NewUSDateTime = (.null, none) := by
  refine ⟨rfl, rfl, rfl, rfl, rfl, rfl, rfl⟩

theorem Format_USDateTimeFormat_ne_empty (t : Time) : Time.Format t USDateTimeFormat ≠ "" := by
  intro h
  have h2 := congrArg String.data h
  simp [Time.Format, USDateTimeFormat, formatChunks] at h2

/-- Claim C10 as stated fails: one nanosecond after the Unix epoch is neither
the zero time nor the instant of the sentinel, and its `String()` is empty; so
is `String()` of the value `ParseUSDateTime` returns for
`1969-12-31 16:00:00.5`, half a second after the epoch. -/
theorem USDateTime_String_empty_after_epoch :
    (USDateTime.String (unixUTC 0 1) = "" ∧ (unixUTC 0 1).IsZero = false ∧
        ¬ ((unixUTC 0 1).Unix = 0 ∧ (unixUTC 0 1).nsec = 0)) ∧
      ((ParseUSDateTime (.ok losAngeles) "1969-12-31 16:00:00.5").2 = none ∧
        (ParseUSDateTime (.ok losAngeles) "1969-12-31 16:00:00.5").1.nsec = 500000000 ∧
        (ParseUSDateTime (.ok losAngeles) "1969-12-31 16:00:00.5").1.IsZero = false ∧
        USDateTime.String (ParseUSDateTime (.ok losAngeles) "1969-12-31 16:00:00.5").1 = "") := by
  decide

/-- Claim C10, amended: `String()` is empty exactly when the time is the zero
time or its Unix time in whole seconds is 0 (the sentinel and every other time
within the first second of the epoch, in any location); every other value is
rendered under the primary layout `01/02/2006 03:04pm`, which is never empty. -/
theorem USDateTime_String_empty_iff (t : USDateTime) :
    (USDateTime.String t = "" ↔ (t.IsZero = true ∨ t.Unix = 0)) ∧
      (USDateTime.String t = "" ∨ USDateTime.String t = Time.Format t USDateTimeFormat) ∧
      Time.Format t USDateTimeFormat ≠ "" := by
  have hne := Format_USDateTimeFormat_ne_empty t
  unfold USDateTime.String USMarshalFormat
  by_cases h : (t.IsZero || t.Unix == 0) = true
  · rw [if_pos h]
    simp only [Bool.or_eq_true, beq_iff_eq] at h
    exact ⟨⟨fun _ => h, fun _ => rfl⟩, Or.inl rfl, hne⟩
  · rw [if_neg h]
    simp only [Bool.or_eq_true, beq_iff_eq] at h
    exact ⟨⟨fun e => absurd e hne, fun e => absurd e h⟩, Or.inr rfl, hne⟩

/-- Claim C11 as stated fails: the primary layout accepts `04/15/2014 00:00am`
and `String()` of the parsed value is `04/15/2014 12:00am`; it accepts two
spaces before the time and `String()` writes one; it accepts `02:30am` of
03/09/2014, a wall-clock time the zone skips, and `String()` gives `01:30am`;
and it accepts `12/31/1969 04:00pm`, the Unix epoch in the zone, for which
`String()` is empty. -/
theorem USDateTime_String_differs_from_text :
    ((ParseInLocation USDateTimeFormat "04/15/2014 00:00am" (some losAngeles)).toBool = true ∧
        (ParseUSDateTime (.ok losAngeles) "04/15/2014 00:00am").2 = none ∧
        USDateTime.String (ParseUSDateTime (.ok losAngeles) "04/15/2014 00:00am").1
          = "04/15/2014 12:00am") ∧
      ((ParseInLocation USDateTimeFormat "04/15/2014  08:00am" (some losAngeles)).toBool = true ∧
        (ParseUSDateTime (.ok losAngeles) "04/15/2014  08:00am").2 = none ∧
        USDateTime.String (ParseUSDateTime (.ok losAngeles) "04/15/2014  08:00am").1
          = "04/15/2014 08:00am") ∧
      ((ParseInLocation USDateTimeFormat "03/09/2014 02:30am" (some losAngeles)).toBool = true ∧
        (ParseUSDateTime (.ok losAngeles) "03/09/2014 02:30am").2 = none ∧
        USDateTime.String (ParseUSDateTime (.ok losAngeles) "03/09/2014 02:30am").1
          = "03/09/2014 01:30am") ∧
      ((ParseInLocation USDateTimeFormat "12/31/1969 04:00pm" (some losAngeles)).toBool = true ∧
        (ParseUSDateTime (.ok losAngeles) "12/31/1969 04:00pm").2 = none ∧
        USDateTime.String (ParseUSDateTime (.ok losAngeles) "12/31/1969 04:00pm").1 = "") := by
  decide

/-- Claim C11, amended: for every calendar date with a year 0000-9999, every
hour `hh` from 01 to 12, every minute below 60 and either marker, the text
`MM/DD/YYYY hh:mmam` or `MM/DD/YYYY hh:mmpm` with one space is parsed by
`ParseUSDateTime` under the primary layout, and `String()` of the parsed value
is that text, provided the parsed value reads in the zone the wall clock that
was written (`hwall`: the written time is not skipped by the zone) and is
neither the zero time nor within the second of the Unix epoch. -/
theorem USDateTime_String_ParseUSDateTime (pst : Location) (y m d h mi : Nat) (pm : Bool)
    (hv : validDate y m d) (hy : y < 10000) (h1 : 1 ≤ h) (h12 : h ≤ 12) (hmi : mi < 60)
    (hwall : Time.abs (Date y m d (clockHour h pm (!pm)) mi 0 0 (some pst))
      = Time.abs (Date y m d (clockHour h pm (!pm)) mi 0 0 none))
    (hzero : (Date y m d (clockHour h pm (!pm)) mi 0 0 (some pst)).IsZero = false)
    (hunix : (Date y m d (clockHour h pm (!pm)) mi 0 0 (some pst)).Unix ≠ 0) :
    ParseUSDateTime (.ok pst) (String.mk (usDateText m d y ++ ' ' :: clockText h mi pm))
        = (Date y m d (clockHour h pm (!pm)) mi 0 0 (some pst), none) ∧
      USDateTime.String
          (ParseUSDateTime (.ok pst) (String.mk (usDateText m d y ++ ' ' :: clockText h mi pm))).1
        = String.mk (usDateText m d y ++ ' ' :: clockText h mi pm) := by
  have hm : m < 100 := by have := hv.2.1; omega
  have hd := validDate_day_lt y m d hv
  have hne : ¬ (String.mk (usDateText m d y ++ ' ' :: clockText h mi pm) = "" ∨
      String.mk (usDateText m d y ++ ' ' :: clockText h mi pm) = "0000-00-00 00:00:00" ∨
      String.mk (usDateText m d y ++ ' ' :: clockText h mi pm) = "0000-00-00" ∨
      String.mk (usDateText m d y ++ ' ' :: clockText h mi pm) = "00/00/0000") := by
    have hl : (String.mk (usDateText m d y ++ ' ' :: clockText h mi pm)).length = 18 := by
      show (usDateText m d y ++ ' ' :: clockText h mi pm).length = 18
      rw [List.length_append, length_usDateText, List.length_cons, length_clockText]
    rintro (e | e | e | e) <;> rw [e] at hl <;> revert hl <;> decide
  have hparse : ParseUSDateTime (.ok pst)
      (String.mk (usDateText m d y ++ ' ' :: clockText h mi pm))
        = (Date y m d (clockHour h pm (!pm)) mi 0 0 (some pst), none) := by
    unfold ParseUSDateTime
    rw [if_neg hne]
    simp only [usDateTimeFormats]
    have hok : ParseInLocation USDateTimeFormat
        (String.mk (usDateText m d y ++ ' ' :: clockText h mi pm)) (some pst)
          = .ok (Date y m d (clockHour h pm (!pm)) mi 0 0 (some pst)) :=
      (ParseInLocation_USDateTimeFormat_iff _ _ _).mpr
        ⟨m, d, y, h, mi, pm, clockText h mi pm, hv, hy, h12, hmi, rfl,
          cutspace_pad2 h (by omega) _, rfl⟩
    simp only [parseUSLayouts, hok]
  refine ⟨hparse, ?_⟩
  rw [hparse]
  obtain ⟨H, hH, hH24, hH12, hHpm⟩ := clockHour_nat h pm h1 h12
  have hu : ¬ ((Date y m d (clockHour h pm (!pm)) mi 0 0 (some pst)).Unix = 0) := hunix
  simp only [USDateTime.String, hzero, hu, Bool.false_or, beq_iff_eq, decide_False,
    Bool.false_eq_true, if_false, Time.Format]
  rw [hwall, hH]
  obtain ⟨e1, e2⟩ := absDate_absClock_Date y m d H mi 0 hy hv hH24 hmi (by omega)
  have e1' : absDate (Time.abs (Date y m d H mi 0 0 none)) = ((y : Int), m, d) := e1
  have e2' : absClock (Time.abs (Date y m d H mi 0 0 none)) = (H, mi, 0) := e2
  rw [e1', e2']
  simp only []
  rw [formatChunks_USMarshalFormat y m d H mi 0 h pm hm hd hy hmi h12 hH12 hHpm]

theorem USDateTime_String_ParseUSDateTime_witness :
    ParseUSDateTime (.ok losAngeles) (String.mk (usDateText 4 15 2014 ++ ' ' :: clockText 8 0 false))
        = (Date 2014 4 15 (clockHour 8 false (!false)) 0 0 0 (some losAngeles), none) ∧
      USDateTime.String
          (ParseUSDateTime (.ok losAngeles)
            (String.mk (usDateText 4 15 2014 ++ ' ' :: clockText 8 0 false))).1
        = String.mk (usDateText 4 15 2014 ++ ' ' :: clockText 8 0 false) :=
  USDateTime_String_ParseUSDateTime losAngeles 2014 4 15 8 0 false (by decide) (by decide)
    (by decide) (by decide) (by decide) (by decide) (by decide) (by decide)

/-- Claim C12: for every calendar date with a four-digit year, when the zone
loads, `ParseUSDateTime` of `MM/DD/YYYY` and `ParseUSDateTime` of `YYYY-MM-DD`
both return no error and the same value, `time.Date` of that date at 00:00:00
in the zone. -/
theorem ParseUSDateTime_date_only_midnight (pst : Location) (y m d : Nat) (hv : validDate y m d)
    (hy : y < 10000) :
    ParseUSDateTime (.ok pst) (String.mk (usDateText m d y))
        = (Date y m d 0 0 0 0 (some pst), none) ∧
      ParseUSDateTime (.ok pst) (String.mk (isoDateText y m d))
        = (Date y m d 0 0 0 0 (some pst), none) :=
  ⟨ParseUSDateTime_usDateText pst m d y hv hy, ParseUSDateTime_isoDateText pst m d y hv hy⟩

theorem ParseUSDateTime_date_only_midnight_witness :
    ParseUSDateTime (.ok losAngeles) (String.mk (usDateText 12 22 2017))
        = (Date 2017 12 22 0 0 0 0 (some losAngeles), none) ∧
      ParseUSDateTime (.ok losAngeles) (String.mk (isoDateText 2017 12 22))
        = (Date 2017 12 22 0 0 0 0 (some losAngeles), none) :=
  ParseUSDateTime_date_only_midnight losAngeles 2017 12 22 (by decide) (by decide)

/-- Claim C13, the code at the failing input: `IsUSDate` accepts `2014-12-05`,
`IsUSDateTime` rejects `2014-12-05 23:30:00`, which `ParseUSDateTime` parses
without error; and for every date text `IsUSDate` accepts, every hour from 20
to 23 and every minute and second below 60, `IsUSDateTime` rejects the date,
a space and `hh:mm:ss`. -/
theorem IsUSDateTime_rejects_hours_20_to_23 :
    (IsUSDate "2014-12-05" = true ∧ IsUSDateTime "2014-12-05 23:30:00" = false ∧
        (ParseUSDateTime (.ok losAngeles) "2014-12-05 23:30:00").2 = none) ∧
      ∀ (d : GoString) (h mi sec : Nat), IsUSDate d = true → 20 ≤ h → h ≤ 23 → mi < 60 →
        sec < 60 →
        IsUSDateTime (d ++ " " ++ String.mk (pad2 h ++ ':' :: (pad2 mi ++ ':' :: pad2 sec)))
          = false := by
  refine ⟨by decide, ?_⟩
  intro d h mi sec hd h20 h23 hmi hsec
  rw [IsUSDateTime_atSpace _ d.data (pad2 h ++ ':' :: (pad2 mi ++ ':' :: pad2 sec))
    (by simp [String.data_append]) (noSpace_of_IsUSDate d hd)
    (by simp [String.data_append, pad2]),
    hasMatch_clock24_out_of_range h mi sec (by omega) (by omega) (by omega) (by omega)]
  simp

/-- Claim C14: for every string `d` and every remainder `r` of two-digit
numbers, `IsUSDateTime` rejects `d`, a space and `r` when `r` is `hh:mm:ss`
with the hour above 23, the minute above 59 or the second above 59, and when
`r` is `hh:mm` followed by `am` or `pm` with the hour above 12 or the minute
above 59.  The remainder is the text after the first space, so `d`, the text
before it, holds no space (`hd`). -/
theorem IsUSDateTime_rejects_out_of_range (d : GoString) (h mi sec : Nat) (pm : Bool)
    (hd : ∀ c ∈ d.data, c ≠ ' ') (hh : h < 100) (hmi : mi < 100) (hsec : sec < 100) :
    ((23 < h ∨ 59 < mi ∨ 59 < sec) →
        IsUSDateTime (d ++ " " ++ String.mk (pad2 h ++ ':' :: (pad2 mi ++ ':' :: pad2 sec)))
          = false) ∧
      ((12 < h ∨ 59 < mi) →
        IsUSDateTime (d ++ " " ++ String.mk (clockText h mi pm)) = false) := by
  constructor
  · intro hr
    rw [IsUSDateTime_atSpace _ d.data (pad2 h ++ ':' :: (pad2 mi ++ ':' :: pad2 sec))
      (by simp [String.data_append]) hd (by simp [String.data_append, pad2]),
      hasMatch_clock24_out_of_range h mi sec hh hmi hsec (by omega)]
    simp
  · intro hr
    rw [IsUSDateTime_atSpace _ d.data (clockText h mi pm)
      (by simp [String.data_append]) hd (by simp [String.data_append, clockText, pad2]),
      hasMatch_clockText_out_of_range h mi pm hh hmi hr]
    simp

theorem IsUSDateTime_rejects_out_of_range_witness :
    IsUSDateTime ("2014-12-05" ++ " " ++ String.mk (pad2 23 ++ ':' :: (pad2 63 ++ ':' :: pad2 0)))
        = false ∧
      IsUSDateTime ("04/15/2014" ++ " " ++ String.mk (clockText 13 0 true)) = false :=
  ⟨(IsUSDateTime_rejects_out_of_range "2014-12-05" 23 63 0 true (by decide) (by decide)
      (by decide) (by decide)).1 (by decide),
    (IsUSDateTime_rejects_out_of_range "04/15/2014" 13 0 0 true (by decide) (by decide)
      (by decide) (by decide)).2 (by decide)⟩

/-- Claim C15: for every string `L` that `ParseBoolString` parses without
error, the empty string included, `ParseBoolString` of `String()` of the parsed
value returns no error and the same value (the same `Valid` and the same
`Bool`), and `String()` of a parsed value that is present is `true` or
`false`. -/
theorem ParseBoolString_String_round_trip (L : GoString) (h : (ParseBoolString L).2 = none) :
    ParseBoolString (BoolString.String (ParseBoolString L).1) = ((ParseBoolString L).1, none) ∧
      ((ParseBoolString L).1.Valid = true →
        BoolString.String (ParseBoolString L).1 = "true" ∨
          BoolString.String (ParseBoolString L).1 = "false") := by
  by_cases h0 : L = ""
  · subst h0
    decide
  · cases hp : ParseBool L with
    | error e =>
      rw [ParseBoolString_eq, if_neg h0, hp] at h
      cases h
    | ok b =>
      have e : ParseBoolString L = ({ Bool := b, Valid := true }, none) := by
        rw [ParseBoolString_eq, if_neg h0, hp]
      rw [e]
      cases b <;> decide

theorem ParseBoolString_String_round_trip_witness :
    ParseBoolString (BoolString.String (ParseBoolString "T").1) = ((ParseBoolString "T").1, none) ∧
      ((ParseBoolString "T").1.Valid = true →
        BoolString.String (ParseBoolString "T").1 = "true" ∨
          BoolString.String (ParseBoolString "T").1 = "false") :=
  ParseBoolString_String_round_trip "T" (by decide)

/-- Claim C16 as stated fails: `tRUE` and `fALSE` are `true` and `false` up
to the case of their letters, and `IsBoolString` rejects both. -/
theorem IsBoolString_rejects_mixed_case :
    ("tRUE" : GoString).data.map Char.toLower = ("true" : GoString).data ∧
      IsBoolString "tRUE" = false ∧
      ("fALSE" : GoString).data.map Char.toLower = ("false" : GoString).data ∧
      IsBoolString "fALSE" = false := by
  decide

/-- Claim C16, amended: `IsBoolString(s)` is true exactly when `s` is empty or
one of the spellings `1, t, T, TRUE, true, True, 0, f, F, FALSE, false,
False`. -/
theorem IsBoolString_iff (s : GoString) :
    IsBoolString s = true ↔
      s ∈ ["", "1", "t", "T", "TRUE", "true", "True", "0", "f", "F", "FALSE", "false", "False"] := by
  unfold IsBoolString
  by_cases h0 : s = ""
  · simp [h0]
  · rw [if_neg h0]
    cases hp : ParseBool s with
    | error e =>
      simp only [List.mem_cons, List.mem_singleton, List.not_mem_nil, or_false, h0, false_or]
      constructor
      · intro h; cases h
      · intro h
        exfalso
        have h1 : ¬ ParseBool s = .ok true := by rw [hp]; intro h; cases h
        have h2 : ¬ ParseBool s = .ok false := by rw [hp]; intro h; cases h
        rw [ParseBool_ok_iff] at h1 h2
        simp only [List.mem_cons, List.mem_singleton, List.not_mem_nil, or_false] at h1 h2
        tauto
    | ok b =>
      simp only [true_iff]
      rw [ParseBool_ok_iff] at hp
      simp only [List.mem_cons, List.mem_singleton, List.not_mem_nil, or_false] at hp ⊢
      tauto

/-- Claim C17: for every `BoolString` with `Valid == false`, whatever its
`Bool` field holds, `String()` is the empty string, `MarshalJSON()` is the text
`null` without error and `Value()` is `nil` without error; none of the three is
`false`. -/
theorem BoolString_absent_serializes_null (b : BoolString) (h : b.Valid = false) :
    (BoolString.String b = "" ∧ BoolString.MarshalJSON b = ("null", none) ∧
        BoolString.Value b = (.null, none)) ∧
      (BoolString.String b ≠ "false" ∧ (BoolString.MarshalJSON b).1 ≠ "false" ∧
        (BoolString.Value b).1 ≠ .bool false) := by
  obtain ⟨v, valid⟩ := b
  cases h
  cases v <;>
    simp [BoolString.String, BoolString.MarshalJSON, BoolString.MarshalEasyJSON, BoolString.Value]

theorem BoolString_absent_serializes_null_witness :
    (BoolString.String { Bool := true, Valid := false } = "" ∧
        BoolString.MarshalJSON { Bool := true, Valid := false } = ("null", none) ∧
        BoolString.Value { Bool := true, Valid := false } = (.null, none)) ∧
      (BoolString.String { Bool := true, Valid := false } ≠ "false" ∧
        (BoolString.MarshalJSON { Bool := true, Valid := false }).1 ≠ "false" ∧
        (BoolString.Value { Bool := true, Valid := false }).1 ≠ .bool false) :=
  BoolString_absent_serializes_null { Bool := true, Valid := false } rfl

/-- Claim C18: for `BoolString`, `USDate` and `USDateTime` and every starting
value, `Scan(nil)` returns no error and leaves the zero value of the type, and
`Scan` of a raw value that is not `nil`, a `[]byte`, a `string` or a
`time.Time` returns an error. -/
theorem Scan_nil_and_unsupported (b : BoolString) (d : USDate) (t : USDateTime)
    (unmarshalDate unmarshalDateTime : Time → GoString → Time × Option Error) (raw : Raw)
    (hraw : raw ≠ .null ∧ (∀ v, raw ≠ .bytes v) ∧ (∀ v, raw ≠ .string v) ∧ ∀ v, raw ≠ .time v) :
    (BoolString.Scan b .null = ({ Bool := false, Valid := false }, none) ∧
        USDate.Scan unmarshalDate d .null = (Time.zero, none) ∧
        USDateTime.Scan unmarshalDateTime t .null = (Time.zero, none)) ∧
      ((BoolString.Scan b raw).2 ≠ none ∧ (USDate.Scan unmarshalDate d raw).2 ≠ none ∧
        (USDateTime.Scan unmarshalDateTime t raw).2 ≠ none) := by
  obtain ⟨h0, h1, h2, h3⟩ := hraw
  refine ⟨⟨rfl, rfl, rfl⟩, ?_⟩
  cases raw with
  | null => exact absurd rfl h0
  | bytes v => exact absurd rfl (h1 v)
  | string v => exact absurd rfl (h2 v)
  | time v => exact absurd rfl (h3 v)
  | bool v => exact ⟨by simp [BoolString.Scan], by simp [USDate.Scan], by simp [USDateTime.Scan]⟩
  | int64 v => exact ⟨by simp [BoolString.Scan], by simp [USDate.Scan], by simp [USDateTime.Scan]⟩
  | float64 v => exact ⟨by simp [BoolString.Scan], by simp [USDate.Scan], by simp [USDateTime.Scan]⟩
  | other n => exact ⟨by simp [BoolString.Scan], by simp [USDate.Scan], by simp [USDateTime.Scan]⟩

theorem Scan_nil_and_unsupported_witness :
    (BoolString.Scan { Bool := true, Valid := true } .null
          = ({ Bool := false, Valid := false }, none) ∧
        USDate.Scan USDate.UnmarshalText NewUSDateTime .null = (Time.zero, none) ∧
        USDateTime.Scan USDate.UnmarshalText NewUSDateTime .null = (Time.zero, none)) ∧
      ((BoolString.Scan { Bool := true, Valid := true } (.int64 1)).2 ≠ none ∧
        (USDate.Scan USDate.UnmarshalText NewUSDateTime (.int64 1)).2 ≠ none ∧
        (USDateTime.Scan USDate.UnmarshalText NewUSDateTime (.int64 1)).2 ≠ none) :=
  Scan_nil_and_unsupported { Bool := true, Valid := true } NewUSDateTime NewUSDateTime
    USDate.UnmarshalText USDate.UnmarshalText (.int64 1)
    ⟨by simp, by simp, by simp, by simp⟩

/-- Claim C19: for `BoolString`, `USDate` and `USDateTime`, whenever
`UnmarshalText`, `UnmarshalJSON` or `Scan` returns an error the receiver keeps
its value from before the call; and `USDate.UnmarshalText` of the empty text or
of a sentinel returns no error and keeps the receiver. -/
theorem error_leaves_receiver (b : BoolString) (d : USDate) (t : USDateTime)
    (loadLocation : Except Error Location)
    (unmarshalDate unmarshalDateTime : Time → GoString → Time × Option Error)
    (text : GoString) (tok : Except Error GoString) (raw : Raw) :
    (((BoolString.UnmarshalText b text).2 ≠ none → (BoolString.UnmarshalText b text).1 = b) ∧
        ((BoolString.UnmarshalJSON b tok).2 ≠ none → (BoolString.UnmarshalJSON b tok).1 = b) ∧
        ((BoolString.Scan b raw).2 ≠ none → (BoolString.Scan b raw).1 = b)) ∧
      (((USDate.UnmarshalText d text).2 ≠ none → (USDate.UnmarshalText d text).1 = d) ∧
        ((USDate.UnmarshalJSON d tok).2 ≠ none → (USDate.UnmarshalJSON d tok).1 = d) ∧
        ((USDate.Scan unmarshalDate d raw).2 ≠ none → (USDate.Scan unmarshalDate d raw).1 = d)) ∧
      (((USDateTime.UnmarshalText loadLocation t text).2 ≠ none →
          (USDateTime.UnmarshalText loadLocation t text).1 = t) ∧
        ((USDateTime.UnmarshalJSON loadLocation t tok).2 ≠ none →
          (USDateTime.UnmarshalJSON loadLocation t tok).1 = t) ∧
        ((USDateTime.Scan unmarshalDateTime t raw).2 ≠ none →
          (USDateTime.Scan unmarshalDateTime t raw).1 = t)) ∧
      (text = "" ∨ text = "0000-00-00" ∨ text = "00/00/0000" →
        USDate.UnmarshalText d text = (d, none)) := by
  refine ⟨⟨?_, ?_, ?_⟩, ⟨?_, ?_, ?_⟩, ⟨?_, ?_, ?_⟩, ?_⟩
  · intro h; revert h; simp only [BoolString.UnmarshalText, BoolString.UnmarshalJSON, BoolString.UnmarshalEasyJSON, BoolString.Scan]; rcases ParseBoolString _ with ⟨bb, _ | e⟩ <;> simp
  · cases tok with
    | error e => intro _; rfl
    | ok data => intro h; revert h; simp only [BoolString.UnmarshalText, BoolString.UnmarshalJSON, BoolString.UnmarshalEasyJSON, BoolString.Scan]; rcases ParseBoolString _ with ⟨bb, _ | e⟩ <;> simp
  · cases raw with
    | null => intro h; exact absurd rfl h
    | bytes v => intro h; revert h; simp only [BoolString.UnmarshalText, BoolString.UnmarshalJSON, BoolString.UnmarshalEasyJSON, BoolString.Scan]; rcases ParseBoolString _ with ⟨bb, _ | e⟩ <;> simp
    | string v => intro h; revert h; simp only [BoolString.UnmarshalText, BoolString.UnmarshalJSON, BoolString.UnmarshalEasyJSON, BoolString.Scan]; rcases ParseBoolString _ with ⟨bb, _ | e⟩ <;> simp
    | time v => intro _; rfl
    | bool v => intro _; rfl
    | int64 v => intro _; rfl
    | float64 v => intro _; rfl
    | other n => intro _; rfl
  · unfold USDate.UnmarshalText
    split
    · intro _; rfl
    · split
      · intro _; rfl
      · split
        · split
          · intro _; rfl
          · intro h; exact absurd rfl h
        · intro h; exact absurd rfl h
  · unfold USDate.UnmarshalJSON USDate.UnmarshalEasyJSON
    split
    · intro _; rfl
    · split
      · intro _; rfl
      · split
        · split
          · intro _; rfl
          · intro h; exact absurd rfl h
        · intro h; exact absurd rfl h
  · cases raw with
    | null => intro h; exact absurd rfl h
    | bytes v => intro h; revert h; simp only [USDate.Scan]; rcases unmarshalDate _ _ with ⟨bb, _ | e⟩ <;> simp
    | string v => intro h; revert h; simp only [USDate.Scan]; rcases unmarshalDate _ _ with ⟨bb, _ | e⟩ <;> simp
    | time v => intro h; exact absurd rfl h
    | bool v => intro _; rfl
    | int64 v => intro _; rfl
    | float64 v => intro _; rfl
    | other n => intro _; rfl
  · intro h; revert h; simp only [USDateTime.UnmarshalText]
    rcases ParseUSDateTime _ _ with ⟨bb, _ | e⟩ <;> simp
  · cases tok with
    | error e => intro _; rfl
    | ok data =>
      intro h; revert h; simp only [USDateTime.UnmarshalJSON, USDateTime.UnmarshalEasyJSON]
      rcases ParseUSDateTime _ _ with ⟨bb, _ | e⟩ <;> simp
  · cases raw with
    | null => intro h; exact absurd rfl h
    | bytes v => intro h; revert h; simp only [USDateTime.Scan]; rcases unmarshalDateTime _ _ with ⟨bb, _ | e⟩ <;> simp
    | string v => intro h; revert h; simp only [USDateTime.Scan]; rcases unmarshalDateTime _ _ with ⟨bb, _ | e⟩ <;> simp
    | time v => intro h; exact absurd rfl h
    | bool v => intro _; rfl
    | int64 v => intro _; rfl
    | float64 v => intro _; rfl
    | other n => intro _; rfl
  · rintro (rfl | rfl | rfl)
    · rfl
    · unfold USDate.UnmarshalText
      rw [if_neg (by decide), if_pos (by decide)]
    · unfold USDate.UnmarshalText
      rw [if_neg (by decide), if_pos (by decide)]

theorem error_leaves_receiver_witness :
    (BoolString.UnmarshalText { Bool := true, Valid := true } "maybe").2 ≠ none ∧
      (BoolString.UnmarshalText { Bool := true, Valid := true } "maybe").1
        = { Bool := true, Valid := true } ∧
      (USDate.UnmarshalText NewUSDateTime "12/32/2017").2 ≠ none ∧
      (USDate.UnmarshalText NewUSDateTime "12/32/2017").1 = NewUSDateTime ∧
      (USDateTime.UnmarshalText (.ok losAngeles) NewUSDateTime "12/32/2017 08:00am").2 ≠ none ∧
      (USDateTime.UnmarshalText (.ok losAngeles) NewUSDateTime "12/32/2017 08:00am").1
        = NewUSDateTime ∧
      USDate.UnmarshalText NewUSDateTime "00/00/0000" = (NewUSDateTime, none) :=
  have h := error_leaves_receiver { Bool := true, Valid := true } NewUSDateTime NewUSDateTime
    (.ok losAngeles) USDate.UnmarshalText USDate.UnmarshalText
  ⟨by decide, (h "maybe" (.ok "maybe") .null).1.1 (by decide), by decide,
    (h "12/32/2017" (.ok "maybe") .null).2.1.1 (by decide), by decide,
    (h "12/32/2017 08:00am" (.ok "maybe") .null).2.2.1.1 (by decide),
    (h "00/00/0000" (.ok "maybe") .null).2.2.2 (by decide)⟩

/-- Claim C20: every string `IsUSDate` accepts is exactly 10 characters long,
and `1/1/2017`, `13/22/17`, `12/32/20171` and `2017-12-22T01:02:03Z` are
rejected. -/
theorem IsUSDate_ten_characters :
    (∀ s : GoString, IsUSDate s = true → s.length = 10) ∧
      IsUSDate "1/1/2017" = false ∧ IsUSDate "13/22/17" = false ∧
      IsUSDate "12/32/20171" = false ∧ IsUSDate "2017-12-22T01:02:03Z" = false :=
  ⟨length_of_IsUSDate, by decide, by decide, by decide, by decide⟩

theorem IsUSDate_ten_characters_witness :
    IsUSDate "12/22/2017" = true ∧ ("12/22/2017" : GoString).length = 10 :=
  ⟨by decide, IsUSDate_ten_characters.1 "12/22/2017" (by decide)⟩

/-- Claim C21: for every string that contains no space character,
`IsUSDateTime(s)` equals `IsUSDate(s)`; below four bytes both are false. -/
theorem IsUSDateTime_eq_IsUSDate_of_noSpace (s : GoString) (h : ∀ c ∈ s.data, c ≠ ' ') :
    IsUSDateTime s = IsUSDate s := by
  by_cases hl : 4 ≤ s.data.length
  · exact IsUSDateTime_noSpace s h hl
  · unfold IsUSDateTime
    rw [splitSpace_noSpace s h]
    cases hd : IsUSDate s
    · simp [hd]
    · have h10 : s.data.length = 10 := length_of_IsUSDate s hd
      omega

theorem IsUSDateTime_eq_IsUSDate_of_noSpace_witness :
    IsUSDateTime "12/22/2017" = IsUSDate "12/22/2017" ∧ IsUSDateTime "1/1" = IsUSDate "1/1" :=
  ⟨IsUSDateTime_eq_IsUSDate_of_noSpace "12/22/2017" (by decide),
    IsUSDateTime_eq_IsUSDate_of_noSpace "1/1" (by decide)⟩

/-- Claim C22 as stated fails: one nanosecond after the Unix epoch is neither
the zero time nor `NewUSDateTime()`, its `Value()` is `nil`, and `Scan` of that
leaves the zero value, not the time. -/
theorem USDateTime_Scan_Value_after_epoch :
    (unixUTC 0 1).IsZero = false ∧ unixUTC 0 1 ≠ NewUSDateTime ∧
      USDateTime.Value (unixUTC 0 1) = (.null, none) ∧
      USDateTime.Scan USDate.UnmarshalText NewUSDateTime (USDateTime.Value (unixUTC 0 1)).1
        = (Time.zero, none) ∧
      Time.zero ≠ unixUTC 0 1 :=
  ⟨by decide, fun h => absurd (congrArg Time.nsec h) (by decide), rfl, rfl,
    fun h => absurd (congrArg Time.nsec h) (by decide)⟩

/-- Claim C22, amended: for every `USDateTime` `t` and every slot,
`Scan(t.Value())` returns no error; the slot then equals `t` when `t` is not
the zero time and `t.Unix()` is not 0, and equals the zero value
`USDateTime{}`, which differs from `NewUSDateTime()`, when `t` is the zero
time or `t.Unix()` is 0, as for the sentinel `NewUSDateTime()`. -/
theorem USDateTime_Scan_Value (unmarshalDateTime : Time → GoString → Time × Option Error)
    (slot t : USDateTime) :
    (USDateTime.Value t).2 = none ∧
      (USDateTime.Scan unmarshalDateTime slot (USDateTime.Value t).1).2 = none ∧
      (t.IsZero = false ∧ t.Unix ≠ 0 →
        (USDateTime.Scan unmarshalDateTime slot (USDateTime.Value t).1).1 = t) ∧
      (t.IsZero = true ∨ t.Unix = 0 →
        (USDateTime.Scan unmarshalDateTime slot (USDateTime.Value t).1).1 = Time.zero) ∧
      (USDateTime.Scan unmarshalDateTime slot (USDateTime.Value NewUSDateTime).1).1 = Time.zero ∧
      Time.zero ≠ NewUSDateTime := by
  have hne : Time.zero ≠ NewUSDateTime := by
    intro h
    exact absurd (congrArg Time.sec h) (by decide)
  by_cases hz : t.IsZero = true
  · simp [USDateTime.Value, USDateTime.Scan, hz, hne]
    rfl
  · by_cases hu : t.Unix = 0
    · simp [USDateTime.Value, USDateTime.Scan, hu, hne]
      rfl
    · simp [USDateTime.Value, USDateTime.Scan, hz, hu, hne]
      rfl

/-- Claim C23: for every `BoolString` `b` and every slot, `Scan(b.Value())`
gives back `b` without error only when `b` is absent; for a present `b`
`Value()` is the native bool `b.Bool`, which `Scan` rejects with an error,
leaving the slot as it was; for an absent `b` `Value()` is `nil` and `Scan`
stores the zero value. -/
theorem BoolString_Scan_Value (b slot : BoolString) :
    (BoolString.Value b).2 = none ∧
      (BoolString.Scan slot (BoolString.Value b).1 = (b, none) → b.Valid = false) ∧
      (b.Valid = true →
        BoolString.Value b = (.bool b.Bool, none) ∧
          (BoolString.Scan slot (BoolString.Value b).1).2 ≠ none ∧
          (BoolString.Scan slot (BoolString.Value b).1).1 = slot) ∧
      (b.Valid = false →
        (BoolString.Value b).1 = .null ∧
          BoolString.Scan slot (BoolString.Value b).1
            = ({ Bool := false, Valid := false }, none)) := by
  obtain ⟨v, valid⟩ := b
  cases valid <;> simp [BoolString.Value, BoolString.Scan]

theorem BoolString_Scan_Value_witness :
    (BoolString.Scan { Bool := false, Valid := false }
        (BoolString.Value { Bool := true, Valid := true }).1).2 ≠ none ∧
      BoolString.Scan { Bool := true, Valid := true }
          (BoolString.Value { Bool := false, Valid := false }).1
        = ({ Bool := false, Valid := false }, none) :=
  ⟨((BoolString_Scan_Value { Bool := true, Valid := true }
      { Bool := false, Valid := false }).2.2.1 rfl).2.1,
    ((BoolString_Scan_Value { Bool := false, Valid := false }
      { Bool := true, Valid := true }).2.2.2 rfl).2⟩

end Strfmt
